import Mathlib

/-!
# Level-format decoder of `crobot` (`smb_format_decoder.cpp`)

A shallow embedding of the decoder and the properties proved about it.

* C++ `int` is a Lean `Int` kept inside `[-2^31, 2^31)` by `wrapInt` wherever
  the source converts or computes a machine integer.
* `std::string` is a Lean `String`; its characters are read through `String.data`.
* An exception is a value of `Error` in the `Except` monad.
* A parsed `nlohmann::json` value is a value of the tagged union `Json`.
-/

namespace Crobot

/-! ## Failure channel -/

/-- Every exception the decoder can let escape, one constructor per throw site
or per library exception class. -/
inductive Error where
  /-- `readAsset`: "Asset manager not initialised". -/
  | assetManagerNull
  /-- `readAsset`: "Asset not found: <path>". -/
  | assetNotFound
  /-- `readAsset`: "Failed to read entire asset: <path>". -/
  | assetReadFailed
  /-- `json::parse` rejected the bytes of the asset. -/
  | jsonParseError
  /-- `nlohmann::json::type_error` (a value of the wrong kind). -/
  | jsonTypeError
  /-- `std::invalid_argument` thrown by `std::stoi`: no digits to convert. -/
  | stoiInvalidArgument
  /-- `std::out_of_range` thrown by `std::stoi`: value does not fit an `int`. -/
  | stoiOutOfRange
  /-- `std::length_error` of a `std::vector` asked for a negative (huge) size. -/
  | lengthError
  /-- A `std::vector` element written outside `[0, size)`. -/
  | indexOutOfRange
  /-- "Level JSON missing layers array". -/
  | missingLayers
  /-- "Only CSV-encoded layers are supported". -/
  | unsupportedEncoding
  /-- "CSV tile data does not match declared dimensions". -/
  | csvDimensionMismatch
  /-- "Area JSON requires a columns array". -/
  | missingColumns
  /-- "Expanded column data does not match width/height". -/
  | areaDimensionMismatch
  /-- "Level asset not found for world/stage combination". -/
  | levelNotFound
  deriving DecidableEq, Repr

/-- The two exceptions of `std::stoi`, which the specification calls
malformed tile data. -/
def Error.isMalformedTileData : Error → Bool
  | .stoiInvalidArgument => true
  | .stoiOutOfRange => true
  | _ => false

/-! ## Machine integers -/

/-- Smallest value of a C++ `int` (32 bits). -/
def INT_MIN : Int := -2147483648

/-- Largest value of a C++ `int` (32 bits). -/
def INT_MAX : Int := 2147483647

/-- A value fits a C++ `int`. -/
def InIntRange (n : Int) : Prop := INT_MIN ≤ n ∧ n ≤ INT_MAX

instance (n : Int) : Decidable (InIntRange n) := by
  unfold InIntRange; infer_instance

/-- Two's-complement reduction of an integer to 32 bits: the value an `int`
holds after a narrowing conversion or an overflowing operation. -/
def wrapInt (n : Int) : Int := (n + 2147483648) % 4294967296 - 2147483648

/-! ## CSV parsing (`parseCsv`) -/

/-- `std::isspace` in the "C" locale: space, `\t`, `\n`, `\v`, `\f`, `\r`. -/
def isspace (c : Char) : Bool :=
  c.toNat = 32 || (9 ≤ c.toNat && c.toNat ≤ 13)

/-- The character is one of `0`..`9`. -/
def isDecDigit (c : Char) : Bool := 48 ≤ c.toNat && c.toNat ≤ 57

/-- Value of a decimal digit character. -/
def digitValue (c : Char) : Nat := c.toNat - 48

/-- Value of a run of decimal digits, most significant first. -/
def digitsValue (ds : List Char) : Nat :=
  ds.foldl (fun acc c => acc * 10 + digitValue c) 0

/-- `std::stoi(str)` (base 10, no position argument): skips leading white
space, reads an optional sign and the longest run of digits, ignores whatever
follows; throws when there is no digit or the value does not fit an `int`. -/
def stoi (str : List Char) : Except Error Int :=
  let body := str.dropWhile isspace
  let signed : Bool × List Char :=
    match body with
    | '-' :: rest => (true, rest)
    | '+' :: rest => (false, rest)
    | _ => (false, body)
  let digits := signed.2.takeWhile isDecDigit
  if digits.isEmpty then .error .stoiInvalidArgument
  else
    let magnitude : Int := (digitsValue digits : Nat)
    let value : Int := if signed.1 then -magnitude else magnitude
    if INT_MIN ≤ value ∧ value ≤ INT_MAX then .ok value
    else .error .stoiOutOfRange

/-- The part of a `std::stringstream` that `std::getline` reads and changes:
the characters not yet extracted and the end-of-file flag. -/
structure IStream where
  buf : List Char
  eofbit : Bool
  deriving DecidableEq, Repr

/-- `std::getline(stream, cell, delim)`: `none` when the call sets `failbit`
(stream already at end of file, or no character could be extracted), otherwise
the cell and the stream after it. The delimiter is extracted and discarded;
reaching the end of the input sets `eofbit`. -/
def getline (stream : IStream) (delim : Char) : Option (List Char × IStream) :=
  if stream.eofbit then none
  else
    let cell := stream.buf.takeWhile (fun c => c != delim)
    match stream.buf.dropWhile (fun c => c != delim) with
    | [] => if cell.isEmpty then none else some (cell, { buf := [], eofbit := true })
    | _ :: rest => some (cell, { buf := rest, eofbit := false })

/-- The characters `cell.substr(start, end - start)` after the two trimming
loops of `parseCsv` moved `start` forward and `end` backward over white space. -/
def trimCell (cell : List Char) : List Char :=
  ((cell.dropWhile isspace).reverse.dropWhile isspace).reverse

/-- Body of the `while` loop of `parseCsv` for one cell: `0` for a cell that
is empty after trimming, `std::stoi` of the trimmed text otherwise. -/
def cellValue (cell : List Char) : Except Error Int :=
  let trimmed := trimCell cell
  if trimmed.isEmpty then .ok 0 else stoi trimmed

/-- The loop `while (std::getline(stream, cell, ','))` of `parseCsv`, with
`values` the vector filled so far. `fuel` bounds the number of `getline` calls. -/
def parseCsvLoop : Nat → IStream → List Int → Except Error (List Int)
  | 0, _, values => .ok values
  | fuel + 1, stream, values =>
    match getline stream ',' with
    | none => .ok values
    | some (cell, rest) =>
      match cellValue cell with
      | .error e => .error e
      | .ok value => parseCsvLoop fuel rest (values ++ [value])

/-- `parseCsv(data)`. Every successful `getline` removes a character from the
stream or sets `eofbit`, so `length + 2` calls always reach the failing one. -/
def parseCsv (data : String) : Except Error (List Int) :=
  parseCsvLoop (data.length + 2) { buf := data.data, eofbit := false } []

/-! ## JSON documents -/

/-- A parsed `nlohmann::json` value. `int` covers both integer kinds of the
library. A floating-point number carries the two observations the decoder can
make of the `double`: the `int` that `get<int>()` converts it to and the text
`std::to_string` prints for it. `obj` lists the members of an object in
iteration (key) order; the keys of a parsed object are pairwise distinct. -/
inductive Json where
  | null
  | bool (b : Bool)
  | int (n : Int)
  | float (truncated : Int) (text : String)
  | str (s : String)
  | arr (items : List Json)
  | obj (members : List (String × Json))

/-- Modelled from the spec: `third_party/json.hpp` is not among the sources.
`is_array()`. -/
def Json.isArray : Json → Bool
  | .arr _ => true
  | _ => false

/-- Modelled from the spec: `third_party/json.hpp` is not among the sources.
`is_object()`. -/
def Json.isObject : Json → Bool
  | .obj _ => true
  | _ => false

/-- Modelled from the spec: `third_party/json.hpp` is not among the sources.
The member stored under `key`, when the value is an object that has one. -/
def Json.find (doc : Json) (key : String) : Option Json :=
  match doc with
  | .obj members => members.lookup key
  | _ => none

/-- Modelled from the spec: `third_party/json.hpp` is not among the sources.
`contains(key)`: false for every value that is not an object. -/
def Json.contains (doc : Json) (key : String) : Bool :=
  (doc.find key).isSome

/-- Modelled from the spec: `third_party/json.hpp` is not among the sources.
`get<int>()`: numbers and booleans convert (a 64-bit integer is narrowed to 32
bits), every other kind throws `type_error`. -/
def Json.getInt : Json → Except Error Int
  | .int n => .ok (wrapInt n)
  | .float truncated _ => .ok (wrapInt truncated)
  | .bool b => .ok (if b then 1 else 0)
  | _ => .error .jsonTypeError

/-- Modelled from the spec: `third_party/json.hpp` is not among the sources.
`get<std::string>()`: only a string converts. -/
def Json.getString : Json → Except Error String
  | .str s => .ok s
  | _ => .error .jsonTypeError

/-- Conversion of the elements of an array with `get<int>()`, front to back. -/
def getIntList : List Json → Except Error (List Int)
  | [] => .ok []
  | item :: rest =>
    match item.getInt with
    | .error e => .error e
    | .ok value =>
      match getIntList rest with
      | .error e => .error e
      | .ok values => .ok (value :: values)

/-- Modelled from the spec: `third_party/json.hpp` is not among the sources.
`get<std::vector<int>>()`: only an array converts, element by element. -/
def Json.getIntArray : Json → Except Error (List Int)
  | .arr items => getIntList items
  | _ => .error .jsonTypeError

/-- Modelled from the spec: `third_party/json.hpp` is not among the sources.
`value(key, int default)`: throws on a non-object, converts the member when
the key is present, returns the default otherwise. -/
def Json.valueInt (doc : Json) (key : String) (dflt : Int) : Except Error Int :=
  match doc with
  | .obj members =>
    match members.lookup key with
    | some member => member.getInt
    | none => .ok dflt
  | _ => .error .jsonTypeError

/-- Modelled from the spec: `third_party/json.hpp` is not among the sources.
`value(key, const char* default)`. -/
def Json.valueString (doc : Json) (key : String) (dflt : String) : Except Error String :=
  match doc with
  | .obj members =>
    match members.lookup key with
    | some member => member.getString
    | none => .ok dflt
  | _ => .error .jsonTypeError

/-- Modelled from the spec: `third_party/json.hpp` is not among the sources.
`value(key, std::vector<int>())`. -/
def Json.valueIntArray (doc : Json) (key : String) (dflt : List Int) :
    Except Error (List Int) :=
  match doc with
  | .obj members =>
    match members.lookup key with
    | some member => member.getIntArray
    | none => .ok dflt
  | _ => .error .jsonTypeError

/-- Modelled from the spec: `third_party/json.hpp` is not among the sources.
`value(key, json default)`. -/
def Json.valueJson (doc : Json) (key : String) (dflt : Json) : Except Error Json :=
  match doc with
  | .obj members =>
    match members.lookup key with
    | some member => .ok member
    | none => .ok dflt
  | _ => .error .jsonTypeError

/-! ## Data model (`smb_format_decoder.h`) -/

/-- `struct EntityDefinition`. `extras` is the `std::map`, kept as the list of
its entries in increasing key order. -/
structure EntityDefinition where
  type : String
  x : Int
  y : Int
  extras : List (String × String)
  deriving DecidableEq, Repr

/-- `struct LevelDefinition`. -/
structure LevelDefinition where
  world : Int
  stage : Int
  width : Int
  height : Int
  tileWidth : Int
  tileHeight : Int
  tilesetPath : String
  tiles : List Int
  collisionFlags : List Int
  entities : List EntityDefinition
  deriving DecidableEq, Repr

instance {ε α : Type} [DecidableEq ε] [DecidableEq α] : DecidableEq (Except ε α)
  | .ok a, .ok b =>
    if h : a = b then isTrue (by rw [h]) else isFalse (fun h2 => h (Except.ok.inj h2))
  | .error a, .error b =>
    if h : a = b then isTrue (by rw [h]) else isFalse (fun h2 => h (Except.error.inj h2))
  | .ok _, .error _ => isFalse (fun h => Except.noConfusion h)
  | .error _, .ok _ => isFalse (fun h => Except.noConfusion h)

/-! ## Entities (`parseEntities`) -/

/-- `extras[key] = value` on a `std::map`: replaces the value of an existing
key, inserts a new key at its place in key order. -/
def mapAssign : List (String × String) → String → String → List (String × String)
  | [], key, value => [(key, value)]
  | (k, v) :: rest, key, value =>
    if key = k then (key, value) :: rest
    else if key < k then (key, value) :: (k, v) :: rest
    else (k, v) :: mapAssign rest key value

/-- One step of the loop over `properties`: the `if`/`else if` chain on the
kind of the value. Arrays, objects and null fall through every branch. -/
def coerceProperty (extras : List (String × String)) (key : String) (value : Json) :
    List (String × String) :=
  match value with
  | .str s => mapAssign extras key s
  | .int n => mapAssign extras key (toString (wrapInt n))
  | .float _ text => mapAssign extras key text
  | .bool b => mapAssign extras key (if b then "true" else "false")
  | _ => extras

/-- The `extras` of one entity: empty unless `properties` is an object. -/
def entityExtras (entry : Json) : List (String × String) :=
  match entry.find "properties" with
  | some (.obj members) =>
    members.foldl (fun extras member => coerceProperty extras member.1 member.2) []
  | _ => []

/-- Body of the loop of `parseEntities` for one array element. -/
def parseEntity (entry : Json) : Except Error EntityDefinition :=
  match entry.valueString "type" "unknown" with
  | .error e => .error e
  | .ok type =>
    match entry.valueInt "x" 0 with
    | .error e => .error e
    | .ok x =>
      match entry.valueInt "y" 0 with
      | .error e => .error e
      | .ok y => .ok { type := type, x := x, y := y, extras := entityExtras entry }

/-- The loop `for (const json& entry : source)` with `out` the vector so far. -/
def parseEntitiesLoop : List Json → List EntityDefinition →
    Except Error (List EntityDefinition)
  | [], out => .ok out
  | entry :: rest, out =>
    match parseEntity entry with
    | .error e => .error e
    | .ok entity => parseEntitiesLoop rest (out ++ [entity])

/-- `parseEntities(source, out)`: returns the final `out`. -/
def parseEntities (source : Json) : Except Error (List EntityDefinition) :=
  match source with
  | .arr entries => parseEntitiesLoop entries []
  | _ => .ok []

/-! ## Collision mask (the block shared by both decoders) -/

/-- `kCollisionSolid`. -/
def kCollisionSolid : Int := 1

/-- The two loops `maxGid = std::max(maxGid, gid)`, first over the tiles and
then over the solid ids, starting from `maxGid = 0`. -/
def maxGidOf (tiles solid : List Int) : Int :=
  solid.foldl max (tiles.foldl max 0)

/-- Body of the last loop: `flags[gid] |= kCollisionSolid` under its guard
`gid >= 0 && gid < static_cast<int>(flags.size())`. -/
def markSolid (flags : List Int) (gid : Int) : List Int :=
  if 0 ≤ gid ∧ gid < wrapInt flags.length then
    flags.set gid.toNat (Int.lor (flags.getD gid.toNat 0) kCollisionSolid)
  else flags

/-- The mask block: `collisionFlags.assign(maxGid + 1, 0)` followed by the loop
over the solid ids. `maxGid + 1` is computed in `int`; a negative count turns
into a size no vector can have and `assign` throws. -/
def buildCollisionFlags (tiles solid : List Int) : Except Error (List Int) :=
  let count := wrapInt (maxGidOf tiles solid + 1)
  if count < 0 then .error .lengthError
  else .ok (solid.foldl markSolid (List.replicate count.toNat 0))

/-! ## Assets -/

/-- What an asset holds, as far as the decoder can tell: bytes that cannot be
read in full, bytes that `json::parse` rejects, or a JSON document. -/
inductive Asset where
  | unreadable
  | notJson
  | json (doc : Json)

/-- `AAssetManager*`: `none` is the null pointer, otherwise the assets by path. -/
abbrev AssetManager := Option (String → Option Asset)

/-- `readAsset` followed by `json::parse`, the first two statements of both
decoders. -/
def readAsset (assetManager : AssetManager) (path : String) : Except Error Json :=
  match assetManager with
  | none => .error .assetManagerNull
  | some assets =>
    match assets path with
    | none => .error .assetNotFound
    | some .unreadable => .error .assetReadFailed
    | some .notJson => .error .jsonParseError
    | some (.json doc) => .ok doc

/-- `assetExists`. -/
def assetExists (assetManager : AssetManager) (path : String) : Bool :=
  match assetManager with
  | none => false
  | some assets => (assets path).isSome

/-! ## Tiled decoder (`loadTiledJson`) -/

/-- `loadTiledJson` from the check of `layers` on, with the header fields
already read into the level. -/
def decodeTiledLayers (world stage : Int) (doc : Json)
    (tileWidth tileHeight width height : Int) (tilesetPath : String) :
    Except Error LevelDefinition :=
  match doc.find "layers" with
  | some (.arr (layer :: _)) => do
    let encoding ← layer.valueString "encoding" ""
    if encoding ≠ "csv" then .error .unsupportedEncoding
    else
      let data ← layer.valueString "data" ""
      let tiles ← parseCsv data
      if wrapInt tiles.length ≠ wrapInt (width * height) then .error .csvDimensionMismatch
      else
        let solid ← doc.valueIntArray "solidGids" []
        let flags ← buildCollisionFlags tiles solid
        let entitiesJson ← doc.valueJson "entities" (.arr [])
        let entities ← parseEntities entitiesJson
        pure { world := world, stage := stage, width := width, height := height,
               tileWidth := tileWidth, tileHeight := tileHeight,
               tilesetPath := tilesetPath, tiles := tiles,
               collisionFlags := flags, entities := entities }
  | _ => .error .missingLayers

/-- `loadTiledJson` from the parsed document on: the header fields in source
order (the inner `value` of each tile-size alias is evaluated first), then the
layers. -/
def decodeTiled (world stage : Int) (doc : Json) : Except Error LevelDefinition := do
  let tilewidthAlias ← doc.valueInt "tilewidth" 16
  let tileWidth ← doc.valueInt "tileWidth" tilewidthAlias
  let tileheightAlias ← doc.valueInt "tileheight" 16
  let tileHeight ← doc.valueInt "tileHeight" tileheightAlias
  let width ← doc.valueInt "width" 0
  let height ← doc.valueInt "height" 0
  let tilesetPath ← doc.valueString "tileset" ""
  decodeTiledLayers world stage doc tileWidth tileHeight width height tilesetPath

/-- `loadTiledJson(assetManager, world, stage, path)`. -/
def loadTiledJson (assetManager : AssetManager) (world stage : Int) (path : String) :
    Except Error LevelDefinition :=
  match readAsset assetManager path with
  | .error e => .error e
  | .ok doc => decodeTiled world stage doc

/-! ## Area decoder (`loadAreaJson`) -/

/-- `v[i] = x` on a `std::vector<int>`, refusing an index outside `[0, size)`. -/
def writeAt (v : List Int) (i : Int) (x : Int) : Except Error (List Int) :=
  if 0 ≤ i ∧ i < v.length then .ok (v.set i.toNat x) else .error .indexOutOfRange

/-- Body of the metatile loop: `columnTiles[i] = arr[i].get<int>()`. -/
def copyMetatileStep (arr : List Json) (columnTiles : List Int) (i : Nat) :
    Except Error (List Int) :=
  match arr[i]? with
  | none => .error .indexOutOfRange
  | some item =>
    match item.getInt with
    | .error e => .error e
    | .ok value => writeAt columnTiles i value

/-- The metatile loop `for (int i = 0; i < limit; ++i)` with
`limit = std::min(static_cast<int>(arr.size()), height)`. -/
def copyMetatile (arr : List Json) (height : Int) (columnTiles : List Int) :
    Except Error (List Int) :=
  let limit := min (wrapInt arr.length) height
  (List.range limit.toNat).foldlM (copyMetatileStep arr) columnTiles

/-- The values `y` takes in `for (int y = from; y <= to && y < height; ++y)`. -/
def rowLoopIndices (rowFrom rowTo height : Int) : List Int :=
  (List.range (min rowTo (height - 1) - rowFrom + 1).toNat).map
    (fun (k : Nat) => rowFrom + (k : Int))

/-- Body of the loop over `rows` for one entry: reads `from`, `to` (default:
the clamped `from`) and `gid`, then runs the inner loop over `y`. -/
def applyRow (height : Int) (columnTiles : List Int) (row : Json) :
    Except Error (List Int) := do
  let rawFrom ← row.valueInt "from" 0
  let rowFrom := max 0 rawFrom
  let rawTo ← row.valueInt "to" rowFrom
  let rowTo := min (height - 1) rawTo
  let gid ← row.valueInt "gid" 0
  (rowLoopIndices rowFrom rowTo height).foldlM (fun tiles y => writeAt tiles y gid) columnTiles

/-- The block `if (column.contains("metatile") && column["metatile"].is_array())`. -/
def applyMetatile (height : Int) (column : Json) (columnTiles : List Int) :
    Except Error (List Int) :=
  match column.find "metatile" with
  | some (.arr arr) => copyMetatile arr height columnTiles
  | _ => .ok columnTiles

/-- The block `if (column.contains("rows") && column["rows"].is_array())`:
the row ranges in list order. -/
def applyRows (height : Int) (column : Json) (columnTiles : List Int) :
    Except Error (List Int) :=
  match column.find "rows" with
  | some (.arr rows) => rows.foldlM (applyRow height) columnTiles
  | _ => .ok columnTiles

/-- The finished `columnTiles` of one column: `height` zeros, then the
metatile, then the row ranges. A negative `height` is a size no vector can
have. -/
def columnTemplate (height : Int) (column : Json) : Except Error (List Int) :=
  if height < 0 then .error .lengthError
  else
    match applyMetatile height column (List.replicate height.toNat 0) with
    | .error e => .error e
    | .ok afterMetatile => applyRows height column afterMetatile

/-- `std::max(1, column.value("repeat", 1))`. -/
def columnRepeat (column : Json) : Except Error Int := do
  let raw ← column.valueInt "repeat" 1
  pure (max 1 raw)

/-- Body of the loop over `columns`; the state is `(computedWidth, expanded)`. -/
def expandColumn (height : Int) (state : Int × List Int) (column : Json) :
    Except Error (Int × List Int) := do
  let repeat_ ← columnRepeat column
  let columnTiles ← columnTemplate height column
  let expanded := Nat.repeat (fun acc => acc ++ columnTiles) repeat_.toNat state.2
  pure (wrapInt (state.1 + repeat_), expanded)

/-- The width kept by `loadAreaJson`: the declared one, replaced by
`computedWidth` when they differ and `computedWidth` is not zero. -/
def resolveWidth (declared computedWidth : Int) : Int :=
  if declared ≠ computedWidth then
    if computedWidth ≠ 0 then computedWidth else declared
  else declared

/-- `loadAreaJson` from the check of `columns` on, with the header fields
already read into the level. The state of the loop over the columns is
`(computedWidth, expanded)`. -/
def decodeAreaColumns (world stage : Int) (doc : Json)
    (tileWidth tileHeight height : Int) (tilesetPath : String) :
    Except Error LevelDefinition :=
  match doc.find "columns" with
  | some (.arr columns) => do
    let state ← columns.foldlM (expandColumn height) (0, [])
    let declared ← doc.valueInt "width" state.1
    let width := resolveWidth declared state.1
    if wrapInt state.2.length ≠ wrapInt (width * height) then
      .error .areaDimensionMismatch
    else
      let solid ← doc.valueIntArray "solidGids" []
      let flags ← buildCollisionFlags state.2 solid
      let entitiesJson ← doc.valueJson "entities" (.arr [])
      let entities ← parseEntities entitiesJson
      pure { world := world, stage := stage, width := width, height := height,
             tileWidth := tileWidth, tileHeight := tileHeight,
             tilesetPath := tilesetPath, tiles := state.2,
             collisionFlags := flags, entities := entities }
  | _ => .error .missingColumns

/-- `loadAreaJson` from the parsed document on: the header fields in source
order, then the columns. -/
def decodeArea (world stage : Int) (doc : Json) : Except Error LevelDefinition := do
  let tileWidth ← doc.valueInt "tileWidth" 16
  let tileHeight ← doc.valueInt "tileHeight" 16
  let height ← doc.valueInt "height" 0
  let tilesetPath ← doc.valueString "tileset" ""
  decodeAreaColumns world stage doc tileWidth tileHeight height tilesetPath

/-- `loadAreaJson(assetManager, world, stage, path)`. -/
def loadAreaJson (assetManager : AssetManager) (world stage : Int) (path : String) :
    Except Error LevelDefinition :=
  match readAsset assetManager path with
  | .error e => .error e
  | .ok doc => decodeArea world stage doc

/-! ## Format selection (`loadLevelFromAssets`) -/

/-- `"levels/world" + std::to_string(world) + "_stage" + std::to_string(stage)`. -/
def basePath (world stage : Int) : String :=
  "levels/world" ++ toString world ++ "_stage" ++ toString stage

/-- `loadLevelFromAssets(assetManager, world, stage)`. -/
def loadLevelFromAssets (assetManager : AssetManager) (world stage : Int) :
    Except Error LevelDefinition :=
  let tiledPath := basePath world stage ++ ".json"
  if assetExists assetManager tiledPath then
    loadTiledJson assetManager world stage tiledPath
  else
    let areaPath := basePath world stage ++ ".area.json"
    if assetExists assetManager areaPath then
      loadAreaJson assetManager world stage areaPath
    else .error .levelNotFound

/-! ## Notions used to state the properties -/

/-- The cells of a comma-separated string in the usual sense: `n` commas
delimit `n + 1` cells, empty ones included. -/
def splitCells : List Char → List (List Char)
  | [] => [[]]
  | c :: cs =>
    if c = ',' then [] :: splitCells cs
    else
      match splitCells cs with
      | [] => [[c]]
      | cell :: rest => (c :: cell) :: rest

/-- The cells without the final one when that one is empty. -/
def csvCells (s : List Char) : List (List Char) :=
  if (splitCells s).getLast? = some [] then (splitCells s).dropLast else splitCells s

/-- Applies a fallible function to every element, front to back, and stops at
the first failure. -/
def mapExcept {α β : Type} (f : α → Except Error β) : List α → Except Error (List β)
  | [] => .ok []
  | a :: rest =>
    match f a with
    | .error e => .error e
    | .ok b =>
      match mapExcept f rest with
      | .error e => .error e
      | .ok bs => .ok (b :: bs)

/-- The formula `max(l, default d)`: the largest element of `l`, and `d` when
`l` is empty. -/
def maxDefault (l : List Int) (d : Int) : Int :=
  match l with
  | [] => d
  | x :: xs => xs.foldl max x

/-- A value of a kind that `get<int>()` converts: a number or a boolean. -/
def Json.isNumeric : Json → Bool
  | .int _ => true
  | .float _ _ => true
  | .bool _ => true
  | _ => false

/-- The value is a JSON string. -/
def Json.isString : Json → Bool
  | .str _ => true
  | _ => false

/-- An array whose elements are all numeric. -/
def Json.isNumericArray : Json → Bool
  | .arr items => items.all Json.isNumeric
  | _ => false

/-- The member `key` of `doc` is absent or of the given kind. -/
def fieldHas (doc : Json) (key : String) (kind : Json → Bool) : Bool :=
  match doc.find key with
  | some member => kind member
  | none => true

/-- An element of `entities` that `parseEntities` can read: an object whose
`type` is a string and whose `x` and `y` are numeric, each when present. -/
def entityTyped (entry : Json) : Bool :=
  entry.isObject && fieldHas entry "type" Json.isString &&
    fieldHas entry "x" Json.isNumeric && fieldHas entry "y" Json.isNumeric

/-- An `entities` member that `parseEntities` can read: any value that is not
an array, or an array of readable elements. -/
def entitiesTyped : Json → Bool
  | .arr entries => entries.all entityTyped
  | _ => true

/-- The fields `loadTiledJson` reads before it looks at `layers` have the
kinds of the Tiled schema: the document is an object, its dimensions and tile
sizes are numeric and its tileset is a string, each when present. -/
def tiledHeaderTyped (doc : Json) : Bool :=
  doc.isObject && fieldHas doc "tilewidth" Json.isNumeric &&
    fieldHas doc "tileWidth" Json.isNumeric && fieldHas doc "tileheight" Json.isNumeric &&
    fieldHas doc "tileHeight" Json.isNumeric && fieldHas doc "width" Json.isNumeric &&
    fieldHas doc "height" Json.isNumeric && fieldHas doc "tileset" Json.isString

/-- The fields both decoders read after the tile grid have the kinds of the
schema: `solidGids` is an array of numbers and `entities` is readable, each
when present. -/
def trailerTyped (doc : Json) : Bool :=
  fieldHas doc "solidGids" Json.isNumericArray && fieldHas doc "entities" entitiesTyped

/-- The text starts with a decimal digit. -/
def headIsDigit : List Char → Bool
  | c :: _ => isDecDigit c
  | [] => false

/-- The text starts with an integer: an optional sign and at least one digit. -/
def startsWithInteger : List Char → Bool
  | '-' :: rest => headIsDigit rest
  | '+' :: rest => headIsDigit rest
  | text => headIsDigit text

/-- A Tiled document of one tile whose id is the largest `int`. -/
def maxGidDoc : Json :=
  .obj [("width", .int 1), ("height", .int 1),
    ("layers", .arr [.obj [("encoding", .str "csv"), ("data", .str "2147483647")]])]

/-- A Tiled document that declares 65536 x 65536 tiles and has no tile data. -/
def overflowDoc : Json :=
  .obj [("width", .int 65536), ("height", .int 65536),
    ("layers", .arr [.obj [("encoding", .str "csv"), ("data", .str "")]])]

/-- An asset manager that serves one document under every path. -/
def singleAsset (doc : Json) : AssetManager := some (fun _ => some (.json doc))

/-- The columns of the expanded grid, left to right: for every column of the
document, in order, its finished template taken `max(1, repeat)` times. -/
def outputColumns (height : Int) : List Json → Except Error (List (List Int))
  | [] => .ok []
  | column :: rest =>
    match columnRepeat column with
    | .error e => .error e
    | .ok count =>
      match columnTemplate height column with
      | .error e => .error e
      | .ok template =>
        match outputColumns height rest with
        | .error e => .error e
        | .ok columns => .ok (List.replicate count.toNat template ++ columns)

/-- The `rows` of a column: the entries of the array, none when the member is
absent or not an array. -/
def columnRows (column : Json) : List Json :=
  match column.find "rows" with
  | some (.arr rows) => rows
  | _ => []

/-- Row `y` lies in the clamped range `[max(0, from), min(height - 1, to)]` of
a `rows` entry; `from` defaults to 0 and `to` to the clamped `from`. -/
def rowCovers (height : Int) (row : Json) (y : Int) : Bool :=
  match row.valueInt "from" 0 with
  | .error _ => false
  | .ok rawFrom =>
    match row.valueInt "to" (max 0 rawFrom) with
    | .error _ => false
    | .ok rawTo => decide (max 0 rawFrom ≤ y ∧ y ≤ min (height - 1) rawTo)

/-- The `gid` of a `rows` entry, 0 when absent. -/
def rowGid (row : Json) : Int :=
  match row.valueInt "gid" 0 with
  | .ok gid => gid
  | .error _ => 0

/-- The value of the metatile of a column at row `y`: 0 where the metatile is
absent, not an array or too short. -/
def metatileValue (column : Json) (y : Nat) : Int :=
  match column.find "metatile" with
  | some (.arr arr) =>
    match arr[y]? with
    | some item =>
      match item.getInt with
      | .ok value => value
      | .error _ => 0
    | none => 0
  | _ => 0

/-- The column of the examples: `repeat` 3 and the metatile `[1, 2]`. -/
def repeatColumn : Json :=
  .obj [("repeat", .int 3), ("metatile", .arr [.int 1, .int 2])]

/-- The same column with the row override `{from: 0, to: 0, gid: 9}`. -/
def overrideColumn : Json :=
  .obj [("repeat", .int 3), ("metatile", .arr [.int 1, .int 2]),
    ("rows", .arr [.obj [("from", .int 0), ("to", .int 0), ("gid", .int 9)]])]

/-- An area document of height 2 made of the given columns. -/
def areaDoc (columns : List Json) : Json :=
  .obj [("height", .int 2), ("columns", .arr columns)]

/-- The text `parseEntities` stores for a property value, `none` for the kinds
it skips (the `if`/`else if` chain of the loop over `properties`). -/
def coercedText : Json → Option String
  | .str s => some s
  | .int n => some (toString (wrapInt n))
  | .float _ text => some text
  | .bool b => some (if b then "true" else "false")
  | _ => none

/-- An element of `rows` that the loop over `rows` can read: an object whose
`from`, `to` and `gid` are numeric, each when present. -/
def rowTyped (row : Json) : Bool :=
  row.isObject && fieldHas row "from" Json.isNumeric &&
    fieldHas row "to" Json.isNumeric && fieldHas row "gid" Json.isNumeric

/-- A `metatile` member the decoder can read: any value that is not an array,
or an array of numeric values. -/
def metatileTyped : Json → Bool
  | .arr items => items.all Json.isNumeric
  | _ => true

/-- A `rows` member the decoder can read: any value that is not an array, or
an array of readable entries. -/
def rowsTyped : Json → Bool
  | .arr rows => rows.all rowTyped
  | _ => true

/-- An element of `columns` that `loadAreaJson` can read: an object whose
`repeat` is numeric and whose `metatile` and `rows` are readable, each when
present. -/
def columnTyped (column : Json) : Bool :=
  column.isObject && fieldHas column "repeat" Json.isNumeric &&
    fieldHas column "metatile" metatileTyped && fieldHas column "rows" rowsTyped

/-- The `rows` entry `{from, gid}` or `{from, to, gid}`. -/
def rowRange (rowFrom : Int) (rowTo : Option Int) (gid : Int) : Json :=
  match rowTo with
  | none => .obj [("from", .int rowFrom), ("gid", .int gid)]
  | some t => .obj [("from", .int rowFrom), ("to", .int t), ("gid", .int gid)]

/-- An area document of height 2 with the two columns `[1, 2]` and `[3, 4]`. -/
def twoColumnDoc : Json :=
  areaDoc [.obj [("metatile", .arr [.int 1, .int 2])],
    .obj [("metatile", .arr [.int 3, .int 4])]]

/-- A Tiled document of 2 x 1 tiles with the given `layers`. -/
def layeredDoc (layers : List Json) : Json :=
  .obj [("width", .int 2), ("height", .int 1), ("layers", .arr layers)]

/-- The number of output columns a column stands for: `max(1, repeat)`, with
`repeat` the `int` read from the column and 1 when it is absent. -/
def repeatCount (column : Json) : Int :=
  match column.valueInt "repeat" 1 with
  | .ok raw => max 1 raw
  | .error _ => 1

/-- An area document of height 0 whose two columns repeat 2147483647 times and
once: 2147483648 output columns, no tile. -/
def wideDoc : Json :=
  .obj [("height", .int 0),
    ("columns", .arr [.obj [("repeat", .int 2147483647)], .obj [("repeat", .int 1)]])]

/-- An area document of height 2 that declares width 7 and has one column
repeated 3 times. -/
def declaredWidthDoc : Json :=
  .obj [("height", .int 2), ("width", .int 7), ("columns", .arr [repeatColumn])]

/-- A Tiled document of 2 x 2 tiles, ids 1..4, whose solid ids are 2 and -1. -/
def solidDoc : Json :=
  .obj [("width", .int 2), ("height", .int 2),
    ("layers", .arr [.obj [("encoding", .str "csv"), ("data", .str "1,2,3,4")]]),
    ("solidGids", .arr [.int 2, .int (-1)])]

/-- The integer a text starts with: an optional sign and the longest run of
decimal digits after it, whatever follows the digits; `none` when no digit
follows the optional sign. -/
def leadingInteger : List Char → Option Int
  | '-' :: rest =>
    if headIsDigit rest then some (-((digitsValue (rest.takeWhile isDecDigit) : Nat) : Int))
    else none
  | '+' :: rest =>
    if headIsDigit rest then some ((digitsValue (rest.takeWhile isDecDigit) : Nat) : Int)
    else none
  | text =>
    if headIsDigit text then some ((digitsValue (text.takeWhile isDecDigit) : Nat) : Int)
    else none

/-- A Tiled document whose first layer has the number 5 as `encoding`. -/
def numericEncodingDoc : Json :=
  .obj [("layers", .arr [.obj [("encoding", .int 5)]])]

/-! # Properties -/

/-! ### Cells read by the `getline` loop -/

theorem splitCells_ne_nil (s : List Char) : splitCells s ≠ [] := by
  induction s with
  | nil => simp [splitCells]
  | cons c cs ih =>
    unfold splitCells
    split
    · simp
    · split <;> simp

theorem splitCells_eq (s : List Char) :
    splitCells s = s.takeWhile (fun c => c != ',') ::
      (match s.dropWhile (fun c => c != ',') with
       | [] => []
       | _ :: rest => splitCells rest) := by
  induction s with
  | nil => simp [splitCells]
  | cons c cs ih =>
    by_cases hc : c = ','
    · subst hc
      simp [splitCells]
    · have hne : (c != ',') = true := by simpa using hc
      rw [splitCells, if_neg hc, ih]
      simp [List.takeWhile_cons, List.dropWhile_cons, hne]

theorem csvCells_eq (s : List Char) :
    csvCells s =
      match s.dropWhile (fun c => c != ',') with
      | [] => if s.takeWhile (fun c => c != ',') = [] then [] else [s.takeWhile (fun c => c != ',')]
      | _ :: rest => s.takeWhile (fun c => c != ',') :: csvCells rest := by
  unfold csvCells
  rw [splitCells_eq s]
  cases s.dropWhile (fun c => c != ',') with
  | nil =>
    by_cases h : s.takeWhile (fun c => c != ',') = []
    · simp [h]
    · simp [h]
  | cons d rest =>
    have hne := splitCells_ne_nil rest
    simp only [List.getLast?_cons_cons, List.dropLast]
    obtain ⟨x, xs, hx⟩ := List.exists_cons_of_ne_nil hne
    rw [hx]
    simp only [List.getLast?_cons_cons, List.dropLast_cons₂]
    split <;> rfl

theorem getline_eof (buf : List Char) (delim : Char) :
    getline { buf := buf, eofbit := true } delim = none := by
  simp [getline]

theorem parseCsvLoop_eq (fuel : Nat) : ∀ (buf : List Char) (values : List Int),
    buf.length + 2 ≤ fuel →
    parseCsvLoop fuel { buf := buf, eofbit := false } values =
      match mapExcept cellValue (csvCells buf) with
      | .error e => .error e
      | .ok vs => .ok (values ++ vs) := by
  induction fuel with
  | zero => intro buf values h; omega
  | succ fuel ih =>
    intro buf values hfuel
    rw [csvCells_eq buf]
    unfold parseCsvLoop getline
    simp only [Bool.false_eq_true, if_false]
    have hlen := (List.dropWhile_suffix (l := buf) (fun c => c != ',')).length_le
    cases hdrop : buf.dropWhile (fun c => c != ',') with
    | nil =>
      by_cases hcell : buf.takeWhile (fun c => c != ',') = []
      · simp [hcell, mapExcept]
      · have hemp : (buf.takeWhile (fun c => c != ',')).isEmpty = false := by
          simpa [List.isEmpty_iff] using hcell
        simp only [hemp, hcell, if_false, Bool.false_eq_true]
        cases hv : cellValue (buf.takeWhile (fun c => c != ',')) with
        | error e => simp [hv, mapExcept]
        | ok v =>
          obtain ⟨f, rfl⟩ : ∃ f, fuel = f + 1 := ⟨fuel - 1, by omega⟩
          simp [hv, mapExcept, parseCsvLoop, getline_eof]
    | cons d rest =>
      rw [hdrop] at hlen
      simp only [List.length_cons] at hlen
      cases hv : cellValue (buf.takeWhile (fun c => c != ',')) with
      | error e => simp [hv, mapExcept]
      | ok v =>
        simp only [hv]
        rw [ih rest (values ++ [v]) (by omega)]
        simp only [mapExcept, hv]
        cases mapExcept cellValue (csvCells rest) <;> simp

theorem parseCsv_eq (data : String) :
    parseCsv data = mapExcept cellValue (csvCells data.data) := by
  unfold parseCsv
  rw [parseCsvLoop_eq (data.length + 2) data.data [] (Nat.le_refl _)]
  cases mapExcept cellValue (csvCells data.data) <;> simp

/-! ### Decimal text of an integer -/

theorem digitChar_isDecDigit (d : Nat) (h : d < 10) :
    isDecDigit (Nat.digitChar d) = true ∧ digitValue (Nat.digitChar d) = d := by
  interval_cases d <;> exact ⟨by decide, by decide⟩

theorem digitsValue_append_singleton (l : List Char) (c : Char) :
    digitsValue (l ++ [c]) = digitsValue l * 10 + digitValue c := by
  simp [digitsValue, List.foldl_append]

theorem toDigitsCore_spec (fuel : Nat) : ∀ (n : Nat) (ds : List Char), n < fuel →
    ∃ l, Nat.toDigitsCore 10 fuel n ds = l ++ ds ∧ l ≠ [] ∧
      (∀ c ∈ l, isDecDigit c = true) ∧ digitsValue l = n := by
  induction fuel with
  | zero => intro n ds h; omega
  | succ fuel ih =>
    intro n ds hn
    have hd := digitChar_isDecDigit (n % 10) (Nat.mod_lt _ (by decide))
    unfold Nat.toDigitsCore
    by_cases h0 : n / 10 = 0
    · refine ⟨[Nat.digitChar (n % 10)], by simp [h0], by simp, by simpa using hd.1, ?_⟩
      have : digitsValue [Nat.digitChar (n % 10)] = digitValue (Nat.digitChar (n % 10)) := by
        simp [digitsValue]
      rw [this, hd.2]
      omega
    · obtain ⟨l, hl, hne, hall, hval⟩ :=
        ih (n / 10) (Nat.digitChar (n % 10) :: ds) (by omega)
      refine ⟨l ++ [Nat.digitChar (n % 10)], by simp [h0, hl], by simp, ?_, ?_⟩
      · intro c hc
        rcases List.mem_append.mp hc with h | h
        · exact hall c h
        · rw [List.mem_singleton.mp h]; exact hd.1
      · rw [digitsValue_append_singleton, hval, hd.2]
        omega

theorem natRepr_spec (n : Nat) :
    (Nat.repr n).data ≠ [] ∧ (∀ c ∈ (Nat.repr n).data, isDecDigit c = true) ∧
      digitsValue (Nat.repr n).data = n := by
  obtain ⟨l, hl, hne, hall, hval⟩ := toDigitsCore_spec (n + 1) n [] (Nat.lt_succ_self n)
  have : (Nat.repr n).data = l := by
    simp [Nat.repr, Nat.toDigits, hl, List.asString]
  rw [this]
  exact ⟨hne, hall, hval⟩

/-- A character of the decimal text of an integer: a digit or the minus sign. -/
theorem intRepr_chars (n : Int) :
    ∀ c ∈ (toString n).data, isDecDigit c = true ∨ c = '-' := by
  intro c hc
  cases n with
  | ofNat m =>
    have h : (toString (Int.ofNat m)).data = (Nat.repr m).data := rfl
    rw [h] at hc
    exact Or.inl ((natRepr_spec m).2.1 c hc)
  | negSucc m =>
    have h : (toString (Int.negSucc m)).data = '-' :: (Nat.repr (m + 1)).data := rfl
    rw [h] at hc
    rcases List.mem_cons.mp hc with h1 | h1
    · exact Or.inr h1
    · exact Or.inl ((natRepr_spec (m + 1)).2.1 c h1)

theorem intRepr_ne_nil (n : Int) : (toString n).data ≠ [] := by
  cases n with
  | ofNat m =>
    have h : (toString (Int.ofNat m)).data = (Nat.repr m).data := rfl
    rw [h]; exact (natRepr_spec m).1
  | negSucc m =>
    have h : (toString (Int.negSucc m)).data = '-' :: (Nat.repr (m + 1)).data := rfl
    rw [h]; simp

theorem isDecDigit_not_space (c : Char) (h : isDecDigit c = true ∨ c = '-') :
    isspace c = false ∧ c ≠ ',' := by
  rcases h with h | h
  · simp only [isDecDigit, Bool.and_eq_true, decide_eq_true_eq] at h
    constructor
    · simp only [isspace, Bool.or_eq_false_iff, decide_eq_false_iff_not, Bool.and_eq_false_imp,
        decide_eq_true_eq]
      omega
    · intro hc
      rw [hc] at h
      revert h
      decide
  · subst h
    exact ⟨by decide, by decide⟩

theorem dropWhile_eq_self {p : Char → Bool} (l : List Char) (h : ∀ c ∈ l, p c = false) :
    l.dropWhile p = l := by
  cases l with
  | nil => rfl
  | cons a t => simp [List.dropWhile_cons, h a (List.mem_cons_self a t)]

theorem takeWhile_eq_self {p : Char → Bool} (l : List Char) (h : ∀ c ∈ l, p c = true) :
    l.takeWhile p = l := by
  induction l with
  | nil => rfl
  | cons a t ih =>
    simp only [List.takeWhile_cons, h a (List.mem_cons_self a t), if_true]
    rw [ih (fun c hc => h c (List.mem_cons_of_mem a hc))]

theorem stoi_digits (l : List Char) (hne : l ≠ []) (hall : ∀ c ∈ l, isDecDigit c = true)
    (hrange : (digitsValue l : Int) ≤ INT_MAX) : stoi l = .ok (digitsValue l : Int) := by
  obtain ⟨a, t, rfl⟩ := List.exists_cons_of_ne_nil hne
  have ha := hall a (List.mem_cons_self a t)
  have hsp : isspace a = false := (isDecDigit_not_space a (Or.inl ha)).1
  have hminus : a ≠ '-' := by intro h; rw [h] at ha; revert ha; decide
  have hplus : a ≠ '+' := by intro h; rw [h] at ha; revert ha; decide
  unfold stoi
  simp only [List.dropWhile_cons, hsp, Bool.false_eq_true, if_false]
  have hmatch : (match a :: t with
      | '-' :: rest => (true, rest)
      | '+' :: rest => (false, rest)
      | _ => (false, a :: t)) = (false, a :: t) := by
    split
    · rename_i heq; exact absurd (List.cons.inj heq).1 hminus
    · rename_i heq; exact absurd (List.cons.inj heq).1 hplus
    · rfl
  rw [hmatch]
  simp only [takeWhile_eq_self (a :: t) hall]
  have hlo : INT_MIN ≤ (digitsValue (a :: t) : Int) := by
    have : (0 : Int) ≤ (digitsValue (a :: t) : Int) := Int.ofNat_nonneg _
    unfold INT_MIN; omega
  simp [hlo, hrange]

theorem stoi_minus_digits (l : List Char) (hne : l ≠ [])
    (hall : ∀ c ∈ l, isDecDigit c = true)
    (hrange : INT_MIN ≤ -(digitsValue l : Int)) :
    stoi ('-' :: l) = .ok (-(digitsValue l : Int)) := by
  unfold stoi
  have hsp : isspace '-' = false := by decide
  simp only [List.dropWhile_cons, hsp, Bool.false_eq_true, if_false]
  simp only [takeWhile_eq_self l hall]
  have hemp : l.isEmpty = false := by simpa [List.isEmpty_iff] using hne
  have hhi : -(digitsValue l : Int) ≤ INT_MAX := by
    have : (0 : Int) ≤ (digitsValue l : Int) := Int.ofNat_nonneg _
    unfold INT_MAX; omega
  simp [hemp, hrange, hhi]

theorem stoi_intRepr (n : Int) (h : InIntRange n) : stoi (toString n).data = .ok n := by
  cases n with
  | ofNat m =>
    have hd : (toString (Int.ofNat m)).data = (Nat.repr m).data := rfl
    obtain ⟨hne, hall, hval⟩ := natRepr_spec m
    rw [hd, stoi_digits _ hne hall (by rw [hval]; exact h.2), hval]
    rfl
  | negSucc m =>
    have hd : (toString (Int.negSucc m)).data = '-' :: (Nat.repr (m + 1)).data := rfl
    obtain ⟨hne, hall, hval⟩ := natRepr_spec (m + 1)
    have hneg : (Int.negSucc m) = -((m + 1 : Nat) : Int) := rfl
    rw [hd, stoi_minus_digits _ hne hall (by rw [hval, ← hneg]; exact h.1), hval, hneg]

/-! ### Trimming and cells -/

theorem dropWhile_space_append (ws body : List Char) (hws : ∀ c ∈ ws, isspace c = true) :
    (ws ++ body).dropWhile isspace = body.dropWhile isspace := by
  induction ws with
  | nil => rfl
  | cons a t ih =>
    simp only [List.cons_append, List.dropWhile_cons, hws a (List.mem_cons_self a t), if_true]
    exact ih (fun c hc => hws c (List.mem_cons_of_mem a hc))

theorem trimCell_padded (ws1 body ws2 : List Char)
    (h1 : ∀ c ∈ ws1, isspace c = true) (h2 : ∀ c ∈ ws2, isspace c = true)
    (hbody : ∀ c ∈ body, isspace c = false) :
    trimCell (ws1 ++ body ++ ws2) = body := by
  unfold trimCell
  rw [List.append_assoc, dropWhile_space_append ws1 _ h1]
  cases body with
  | nil =>
    have := dropWhile_space_append ws2 [] h2
    simp only [List.append_nil, List.dropWhile_nil] at this
    simp [this]
  | cons a t =>
    have hfront : (a :: t ++ ws2).dropWhile isspace = a :: t ++ ws2 := by
      simp [List.dropWhile_cons, hbody a (List.mem_cons_self a t)]
    rw [hfront, List.reverse_append,
      dropWhile_space_append ws2.reverse _ (fun c hc => h2 c (List.mem_reverse.mp hc)),
      dropWhile_eq_self (a :: t).reverse (fun c hc => hbody c (List.mem_reverse.mp hc)),
      List.reverse_reverse]

theorem cellValue_blank (cell : List Char) (h : ∀ c ∈ cell, isspace c = true) :
    cellValue cell = .ok 0 := by
  have := trimCell_padded cell [] [] h (by simp) (by simp)
  simp only [List.append_nil] at this
  simp [cellValue, this]

theorem cellValue_padded_int (ws1 ws2 : List Char) (n : Int)
    (h1 : ∀ c ∈ ws1, isspace c = true) (h2 : ∀ c ∈ ws2, isspace c = true)
    (hn : InIntRange n) :
    cellValue (ws1 ++ (toString n).data ++ ws2) = .ok n := by
  have hbody : ∀ c ∈ (toString n).data, isspace c = false :=
    fun c hc => (isDecDigit_not_space c (intRepr_chars n c hc)).1
  have hemp : (toString n).data.isEmpty = false := by
    simpa [List.isEmpty_iff] using intRepr_ne_nil n
  unfold cellValue
  rw [trimCell_padded ws1 _ ws2 h1 h2 hbody]
  simp [hemp, stoi_intRepr n hn]

theorem cellValue_intRepr (n : Int) (hn : InIntRange n) :
    cellValue (toString n).data = .ok n := by
  have := cellValue_padded_int [] [] n (by simp) (by simp) hn
  simpa using this

/-! ### Joining with commas -/

theorem intercalate_go_data (sep : String) : ∀ (l : List String) (acc : String),
    (String.intercalate.go acc sep l).data =
      acc.data ++ (l.map (fun a => sep.data ++ a.data)).flatten := by
  intro l
  induction l with
  | nil => intro acc; simp [String.intercalate.go]
  | cons a t ih =>
    intro acc
    simp [String.intercalate.go, ih, String.data_append, List.append_assoc]

theorem csvCells_no_comma (cell : List Char) (hne : cell ≠ []) (h : ∀ c ∈ cell, c ≠ ',') :
    csvCells cell = [cell] := by
  have hp : ∀ c ∈ cell, (fun c => c != ',') c = true := by
    intro c hc; simpa using h c hc
  have ht := takeWhile_eq_self cell hp
  have hd : cell.dropWhile (fun c => c != ',') = [] := by
    rw [List.dropWhile_eq_nil_iff]; exact hp
  rw [csvCells_eq, hd, ht]
  simp [hne]

theorem csvCells_cons_comma (cell rest : List Char) (h : ∀ c ∈ cell, c ≠ ',') :
    csvCells (cell ++ ',' :: rest) = cell :: csvCells rest := by
  have hp : ∀ c ∈ cell, (fun c => c != ',') c = true := by
    intro c hc; simpa using h c hc
  have ht : (cell ++ ',' :: rest).takeWhile (fun c => c != ',') = cell := by
    rw [List.takeWhile_append_of_pos hp]; simp
  have hd : (cell ++ ',' :: rest).dropWhile (fun c => c != ',') = ',' :: rest := by
    rw [List.dropWhile_append_of_pos hp]; simp
  rw [csvCells_eq, hd, ht]

theorem csvCells_join (t : Int) (ts : List Int) :
    csvCells (String.intercalate "," ((t :: ts).map toString)).data =
      (t :: ts).map (fun n => (toString n).data) := by
  have hcomma : ∀ n : Int, ∀ c ∈ (toString n).data, c ≠ ',' :=
    fun n c hc => (isDecDigit_not_space c (intRepr_chars n c hc)).2
  have hdata : ∀ (t : Int) (ts : List Int),
      (String.intercalate "," ((t :: ts).map toString)).data =
        (toString t).data ++ (ts.map (fun n => ',' :: (toString n).data)).flatten := by
    intro t ts
    simp only [List.map_cons, String.intercalate, intercalate_go_data, List.map_map]
    rfl
  induction ts generalizing t with
  | nil =>
    rw [hdata]
    simpa using csvCells_no_comma _ (intRepr_ne_nil t) (hcomma t)
  | cons u us ih =>
    have h1 := hdata t (u :: us)
    have h2 := hdata u us
    have ih2 := ih u
    rw [h2] at ih2
    rw [h1]
    simp only [List.map_cons, List.flatten_cons, List.cons_append]
    rw [csvCells_cons_comma _ _ (hcomma t), ih2]
    simp

theorem mapExcept_cellValue_reprs (T : List Int) (h : ∀ t ∈ T, InIntRange t) :
    mapExcept cellValue (T.map (fun n => (toString n).data)) = .ok T := by
  induction T with
  | nil => rfl
  | cons t ts ih =>
    simp only [List.map_cons, mapExcept, cellValue_intRepr t (h t (List.mem_cons_self t ts)),
      ih (fun u hu => h u (List.mem_cons_of_mem t hu))]

theorem parseCsv_join (T : List Int) (h : ∀ t ∈ T, InIntRange t) :
    parseCsv (String.intercalate "," (T.map toString)) = .ok T := by
  rw [parseCsv_eq]
  cases T with
  | nil => rfl
  | cons t ts => rw [csvCells_join, mapExcept_cellValue_reprs _ h]

/-! ### Machine integers -/

theorem wrapInt_of_inRange (n : Int) (h : InIntRange n) : wrapInt n = n := by
  unfold InIntRange INT_MIN INT_MAX at h
  unfold wrapInt
  omega

theorem wrapInt_inRange (n : Int) : InIntRange (wrapInt n) := by
  unfold InIntRange INT_MIN INT_MAX wrapInt
  omega

theorem wrapInt_emod (n : Int) : wrapInt n % 4294967296 = n % 4294967296 := by
  unfold wrapInt
  omega

theorem wrapInt_congr (a b : Int) (h : a % 4294967296 = b % 4294967296) :
    wrapInt a = wrapInt b := by
  unfold wrapInt
  omega

theorem wrapInt_mul_wrapInt (a b : Int) : wrapInt (wrapInt a * wrapInt b) = wrapInt (a * b) := by
  apply wrapInt_congr
  rw [Int.mul_emod, wrapInt_emod, wrapInt_emod, ← Int.mul_emod]

/-! ### Collision mask -/

theorem foldl_max_max (xs : List Int) : ∀ a x : Int,
    xs.foldl max (max a x) = max a (xs.foldl max x) := by
  induction xs with
  | nil => intro a x; rfl
  | cons y ys ih =>
    intro a x
    simp only [List.foldl_cons]
    rw [max_assoc, ih]

theorem foldl_max_eq (l : List Int) (a : Int) :
    l.foldl max a = if l = [] then a else max a (maxDefault l a) := by
  cases l with
  | nil => rfl
  | cons x xs => simp [maxDefault, foldl_max_max]

theorem foldl_max_maxDefault (l : List Int) (a d : Int) :
    l.foldl max a = if l = [] then a else max a (maxDefault l d) := by
  cases l with
  | nil => rfl
  | cons x xs => simp [maxDefault, foldl_max_max]

theorem maxGidOf_eq (tiles solid : List Int) :
    maxGidOf tiles solid = max 0 (max (maxDefault tiles 0) (maxDefault solid 0)) := by
  unfold maxGidOf
  rw [foldl_max_maxDefault solid _ 0, foldl_max_maxDefault tiles 0 0]
  by_cases hs : solid = [] <;> by_cases ht : tiles = []
  · subst hs; subst ht; simp [maxDefault]
  · subst hs
    have : max (maxDefault tiles 0) (maxDefault [] 0) = max 0 (maxDefault tiles 0) := by
      rw [max_comm]; rfl
    simp [ht, this]
  · subst ht; simp [hs, maxDefault]
  · simp [hs, ht, max_assoc]

theorem foldl_max_ge_init (l : List Int) (a : Int) : a ≤ l.foldl max a := by
  induction l generalizing a with
  | nil => exact le_refl a
  | cons x xs ih =>
    simp only [List.foldl_cons]
    exact le_trans (le_max_left a x) (ih (max a x))

theorem foldl_max_ge_mem (l : List Int) (a : Int) : ∀ x ∈ l, x ≤ l.foldl max a := by
  induction l generalizing a with
  | nil => intro x hx; cases hx
  | cons y ys ih =>
    intro x hx
    simp only [List.foldl_cons]
    rcases List.mem_cons.mp hx with h | h
    · subst h; exact le_trans (le_max_right a x) (foldl_max_ge_init ys _)
    · exact ih _ x h

theorem foldl_max_lt (l : List Int) (a b : Int) (ha : a < b) (hl : ∀ x ∈ l, x < b) :
    l.foldl max a < b := by
  induction l generalizing a with
  | nil => exact ha
  | cons y ys ih =>
    simp only [List.foldl_cons]
    exact ih _ (max_lt ha (hl y (List.mem_cons_self y ys)))
      (fun x hx => hl x (List.mem_cons_of_mem y hx))

theorem maxGidOf_bounds (tiles solid : List Int)
    (ht : ∀ t ∈ tiles, t < INT_MAX) (hs : ∀ s ∈ solid, s < INT_MAX) :
    0 ≤ maxGidOf tiles solid ∧ maxGidOf tiles solid < INT_MAX ∧
      ∀ s ∈ solid, s ≤ maxGidOf tiles solid := by
  unfold maxGidOf
  refine ⟨le_trans (foldl_max_ge_init tiles 0) (foldl_max_ge_init solid _), ?_,
    foldl_max_ge_mem solid _⟩
  exact foldl_max_lt solid _ _ (foldl_max_lt tiles 0 _ (by decide) ht) hs

theorem lor_solid (x : Int) (h : x = 0 ∨ x = 1) : Int.lor x kCollisionSolid = 1 := by
  rcases h with h | h <;> subst h <;> decide

theorem markSolid_spec (flags : List Int) (gid : Int)
    (hlen : (flags.length : Int) ≤ INT_MAX) (hbits : ∀ x ∈ flags, x = 0 ∨ x = 1) :
    (markSolid flags gid).length = flags.length ∧
    (∀ x ∈ markSolid flags gid, x = 0 ∨ x = 1) ∧
    ∀ i, i < flags.length →
      (markSolid flags gid).getD i 0 = if (i : Int) = gid then 1 else flags.getD i 0 := by
  have hwrap : wrapInt flags.length = flags.length :=
    wrapInt_of_inRange _ ⟨by unfold INT_MIN; omega, hlen⟩
  unfold markSolid
  rw [hwrap]
  by_cases hg : 0 ≤ gid ∧ gid < (flags.length : Int)
  · rw [if_pos hg]
    have hidx : gid.toNat < flags.length := by omega
    have hold : flags.getD gid.toNat 0 = 0 ∨ flags.getD gid.toNat 0 = 1 := by
      rw [List.getD_eq_getElem _ _ hidx]
      exact hbits _ (List.getElem_mem _)
    rw [lor_solid _ hold]
    refine ⟨List.length_set .., ?_, ?_⟩
    · intro x hx
      rcases List.mem_or_eq_of_mem_set hx with h | h
      · exact hbits x h
      · exact Or.inr h
    · intro i hi
      by_cases hig : (i : Int) = gid
      · have : gid.toNat = i := by omega
        simp [hig, List.getD_eq_getElem?_getD, List.getElem?_set, this, hi]
      · have : gid.toNat ≠ i := by omega
        simp [hig, List.getD_eq_getElem?_getD, List.getElem?_set, this]
  · rw [if_neg hg]
    refine ⟨rfl, hbits, ?_⟩
    intro i hi
    have : (i : Int) ≠ gid := by omega
    simp [this]

theorem foldl_markSolid_spec (solid : List Int) : ∀ (flags : List Int),
    (flags.length : Int) ≤ INT_MAX → (∀ x ∈ flags, x = 0 ∨ x = 1) →
    (solid.foldl markSolid flags).length = flags.length ∧
    (∀ x ∈ solid.foldl markSolid flags, x = 0 ∨ x = 1) ∧
    ∀ i, i < flags.length →
      (solid.foldl markSolid flags).getD i 0 =
        if (i : Int) ∈ solid then 1 else flags.getD i 0 := by
  induction solid with
  | nil => intro flags _ hbits; exact ⟨rfl, hbits, fun i _ => by simp⟩
  | cons g gs ih =>
    intro flags hlen hbits
    obtain ⟨h1, h2, h3⟩ := markSolid_spec flags g hlen hbits
    obtain ⟨k1, k2, k3⟩ := ih (markSolid flags g) (by rw [h1]; exact hlen) h2
    simp only [List.foldl_cons]
    refine ⟨k1.trans h1, k2, ?_⟩
    intro i hi
    rw [k3 i (by rw [h1]; exact hi), h3 i hi]
    by_cases hig : (i : Int) = g
    · simp [hig]
    · by_cases him : (i : Int) ∈ gs
      · simp [him]
      · simp [hig, him]

theorem buildCollisionFlags_spec (tiles solid : List Int)
    (ht : ∀ t ∈ tiles, t < INT_MAX) (hs : ∀ s ∈ solid, s < INT_MAX) :
    ∃ flags, buildCollisionFlags tiles solid = .ok flags ∧
      (flags.length : Int) = maxGidOf tiles solid + 1 ∧
      (∀ x ∈ flags, x = 0 ∨ x = 1) ∧
      ∀ i, i < flags.length → flags.getD i 0 = if (i : Int) ∈ solid then 1 else 0 := by
  obtain ⟨h0, hmax, _⟩ := maxGidOf_bounds tiles solid ht hs
  have hrange : InIntRange (maxGidOf tiles solid + 1) := by
    unfold InIntRange INT_MIN INT_MAX
    unfold INT_MAX at hmax
    omega
  have hwrap := wrapInt_of_inRange _ hrange
  have hzero : ∀ x ∈ List.replicate (maxGidOf tiles solid + 1).toNat (0 : Int), x = 0 ∨ x = 1 :=
    fun x hx => Or.inl (List.eq_of_mem_replicate hx)
  have hlen : ((List.replicate (maxGidOf tiles solid + 1).toNat (0 : Int)).length : Int)
      ≤ INT_MAX := by
    rw [List.length_replicate]
    unfold INT_MAX at hmax ⊢
    omega
  obtain ⟨k1, k2, k3⟩ := foldl_markSolid_spec solid _ hlen hzero
  refine ⟨solid.foldl markSolid (List.replicate (maxGidOf tiles solid + 1).toNat 0), ?_, ?_, k2, ?_⟩
  · unfold buildCollisionFlags
    simp only [hwrap]
    rw [if_neg (by omega)]
  · rw [k1, List.length_replicate]
    omega
  · intro i hi
    rw [k1] at hi
    rw [k3 i hi]
    have : (List.replicate (maxGidOf tiles solid + 1).toNat (0 : Int)).getD i 0 = 0 := by
      rw [List.length_replicate] at hi
      simp [List.getD_eq_getElem?_getD, List.getElem?_replicate, hi]
    rw [this]

/-! ### Typed reads of well-typed documents -/

theorem getInt_of_isNumeric (j : Json) (h : j.isNumeric = true) :
    ∃ v, j.getInt = .ok v ∧ InIntRange v := by
  cases j with
  | int n => exact ⟨_, rfl, wrapInt_inRange n⟩
  | float t s => exact ⟨_, rfl, wrapInt_inRange t⟩
  | bool b => exact ⟨_, rfl, by cases b <;> decide⟩
  | null => cases h
  | str s => cases h
  | arr l => cases h
  | obj l => cases h

theorem valueInt_of_typed (doc : Json) (key : String) (dflt : Int)
    (hobj : doc.isObject = true) (h : fieldHas doc key Json.isNumeric = true) :
    ∃ v, doc.valueInt key dflt = .ok v := by
  cases doc with
  | obj members =>
    simp only [fieldHas, Json.find] at h
    simp only [Json.valueInt]
    cases hl : members.lookup key with
    | none => exact ⟨dflt, rfl⟩
    | some member =>
      rw [hl] at h
      obtain ⟨v, hv, _⟩ := getInt_of_isNumeric member h
      exact ⟨v, hv⟩
  | null => cases hobj
  | bool b => cases hobj
  | int n => cases hobj
  | float t s => cases hobj
  | str s => cases hobj
  | arr l => cases hobj

theorem valueInt_of_find (doc : Json) (key : String) (dflt : Int) (member : Json)
    (h : doc.find key = some member) : doc.valueInt key dflt = member.getInt := by
  cases doc with
  | obj members =>
    simp only [Json.find] at h
    simp [Json.valueInt, h]
  | null => cases h
  | bool b => cases h
  | int n => cases h
  | float t s => cases h
  | str s => cases h
  | arr l => cases h

theorem valueString_of_typed (doc : Json) (key : String) (dflt : String)
    (hobj : doc.isObject = true) (h : fieldHas doc key Json.isString = true) :
    ∃ v, doc.valueString key dflt = .ok v := by
  cases doc with
  | obj members =>
    simp only [fieldHas, Json.find] at h
    simp only [Json.valueString]
    cases hl : members.lookup key with
    | none => exact ⟨dflt, rfl⟩
    | some member =>
      rw [hl] at h
      cases member with
      | str s => exact ⟨s, rfl⟩
      | null => cases h
      | bool b => cases h
      | int n => cases h
      | float t s => cases h
      | arr l => cases h
      | obj l => cases h
  | null => cases hobj
  | bool b => cases hobj
  | int n => cases hobj
  | float t s => cases hobj
  | str s => cases hobj
  | arr l => cases hobj

theorem valueString_of_find (doc : Json) (key : String) (dflt : String) (member : Json)
    (h : doc.find key = some member) : doc.valueString key dflt = member.getString := by
  cases doc with
  | obj members =>
    simp only [Json.find] at h
    simp [Json.valueString, h]
  | null => cases h
  | bool b => cases h
  | int n => cases h
  | float t s => cases h
  | str s => cases h
  | arr l => cases h

theorem valueString_of_absent (doc : Json) (key : String) (dflt : String)
    (hobj : doc.isObject = true) (h : doc.find key = none) :
    doc.valueString key dflt = .ok dflt := by
  cases doc with
  | obj members =>
    simp only [Json.find] at h
    simp [Json.valueString, h]
  | null => cases hobj
  | bool b => cases hobj
  | int n => cases hobj
  | float t s => cases hobj
  | str s => cases hobj
  | arr l => cases hobj

theorem isObject_of_find (doc : Json) (key : String) (member : Json)
    (h : doc.find key = some member) : doc.isObject = true := by
  cases doc with
  | obj members => rfl
  | null => cases h
  | bool b => cases h
  | int n => cases h
  | float t s => cases h
  | str s => cases h
  | arr l => cases h

theorem getIntList_of_typed (items : List Json) (h : items.all Json.isNumeric = true) :
    ∃ vs, getIntList items = .ok vs ∧
      ∀ v ∈ vs, ∃ item ∈ items, item.getInt = .ok v := by
  induction items with
  | nil => exact ⟨[], rfl, fun v hv => by cases hv⟩
  | cons item rest ih =>
    simp only [List.all_cons, Bool.and_eq_true] at h
    obtain ⟨v, hv, _⟩ := getInt_of_isNumeric item h.1
    obtain ⟨vs, hvs, hmem⟩ := ih h.2
    refine ⟨v :: vs, by simp [getIntList, hv, hvs], ?_⟩
    intro w hw
    rcases List.mem_cons.mp hw with h1 | h1
    · exact ⟨item, List.mem_cons_self _ _, by rw [h1]; exact hv⟩
    · obtain ⟨it, hit, hget⟩ := hmem w h1
      exact ⟨it, List.mem_cons_of_mem _ hit, hget⟩

theorem valueIntArray_of_typed (doc : Json) (key : String)
    (hobj : doc.isObject = true) (h : fieldHas doc key Json.isNumericArray = true) :
    ∃ vs, doc.valueIntArray key [] = .ok vs ∧
      ∀ v ∈ vs, ∃ items item, doc.find key = some (.arr items) ∧ item ∈ items ∧
        item.getInt = .ok v := by
  cases doc with
  | obj members =>
    simp only [fieldHas, Json.find] at h
    simp only [Json.valueIntArray, Json.find]
    cases hl : members.lookup key with
    | none => exact ⟨[], rfl, fun v hv => by cases hv⟩
    | some member =>
      rw [hl] at h
      cases member with
      | arr items =>
        obtain ⟨vs, hvs, hmem⟩ := getIntList_of_typed items h
        refine ⟨vs, hvs, ?_⟩
        intro v hv
        obtain ⟨item, hit, hget⟩ := hmem v hv
        exact ⟨items, item, rfl, hit, hget⟩
      | null => cases h
      | bool b => cases h
      | int n => cases h
      | float t s => cases h
      | str s => cases h
      | obj l => cases h
  | null => cases hobj
  | bool b => cases hobj
  | int n => cases hobj
  | float t s => cases hobj
  | str s => cases hobj
  | arr l => cases hobj

theorem parseEntity_of_typed (entry : Json) (h : entityTyped entry = true) :
    ∃ entity, parseEntity entry = .ok entity := by
  simp only [entityTyped, Bool.and_eq_true] at h
  obtain ⟨⟨⟨hobj, ht⟩, hx⟩, hy⟩ := h
  obtain ⟨t, ht⟩ := valueString_of_typed entry "type" "unknown" hobj ht
  obtain ⟨x, hx⟩ := valueInt_of_typed entry "x" 0 hobj hx
  obtain ⟨y, hy⟩ := valueInt_of_typed entry "y" 0 hobj hy
  exact ⟨{ type := t, x := x, y := y, extras := entityExtras entry },
    by simp [parseEntity, ht, hx, hy]⟩

theorem parseEntitiesLoop_of_typed (entries : List Json) :
    ∀ out, entries.all entityTyped = true →
    ∃ entities, parseEntitiesLoop entries out = .ok entities := by
  induction entries with
  | nil => intro out _; exact ⟨out, rfl⟩
  | cons entry rest ih =>
    intro out h
    simp only [List.all_cons, Bool.and_eq_true] at h
    obtain ⟨entity, he⟩ := parseEntity_of_typed entry h.1
    obtain ⟨entities, hes⟩ := ih (out ++ [entity]) h.2
    exact ⟨entities, by simp [parseEntitiesLoop, he, hes]⟩

theorem parseEntities_of_typed (source : Json) (h : entitiesTyped source = true) :
    ∃ entities, parseEntities source = .ok entities := by
  cases source with
  | arr entries => exact parseEntitiesLoop_of_typed entries [] h
  | null => exact ⟨[], rfl⟩
  | bool b => exact ⟨[], rfl⟩
  | int n => exact ⟨[], rfl⟩
  | float t s => exact ⟨[], rfl⟩
  | str s => exact ⟨[], rfl⟩
  | obj l => exact ⟨[], rfl⟩

theorem entities_of_typed (doc : Json) (hobj : doc.isObject = true)
    (h : fieldHas doc "entities" entitiesTyped = true) :
    ∃ source entities, doc.valueJson "entities" (.arr []) = .ok source ∧
      parseEntities source = .ok entities := by
  cases doc with
  | obj members =>
    simp only [fieldHas, Json.find] at h
    simp only [Json.valueJson]
    cases hl : members.lookup "entities" with
    | none => exact ⟨_, [], rfl, rfl⟩
    | some member =>
      rw [hl] at h
      obtain ⟨entities, he⟩ := parseEntities_of_typed member h
      exact ⟨member, entities, rfl, he⟩
  | null => cases hobj
  | bool b => cases hobj
  | int n => cases hobj
  | float t s => cases hobj
  | str s => cases hobj
  | arr l => cases hobj

/-! ### Tiled decoder -/

theorem loadTiledJson_of_read (am : AssetManager) (world stage : Int) (path : String)
    (doc : Json) (h : readAsset am path = .ok doc) :
    loadTiledJson am world stage path = decodeTiled world stage doc := by
  simp [loadTiledJson, h]

theorem decodeTiled_of_header (world stage : Int) (doc : Json)
    (h : tiledHeaderTyped doc = true) :
    ∃ tileWidth tileHeight width height tilesetPath,
      doc.valueInt "width" 0 = .ok width ∧ doc.valueInt "height" 0 = .ok height ∧
      decodeTiled world stage doc =
        decodeTiledLayers world stage doc tileWidth tileHeight width height tilesetPath := by
  simp only [tiledHeaderTyped, Bool.and_eq_true] at h
  obtain ⟨⟨⟨⟨⟨⟨⟨hobj, h1⟩, h2⟩, h3⟩, h4⟩, h5⟩, h6⟩, h7⟩ := h
  obtain ⟨a1, e1⟩ := valueInt_of_typed doc "tilewidth" 16 hobj h1
  obtain ⟨a2, e2⟩ := valueInt_of_typed doc "tileWidth" a1 hobj h2
  obtain ⟨a3, e3⟩ := valueInt_of_typed doc "tileheight" 16 hobj h3
  obtain ⟨a4, e4⟩ := valueInt_of_typed doc "tileHeight" a3 hobj h4
  obtain ⟨a5, e5⟩ := valueInt_of_typed doc "width" 0 hobj h5
  obtain ⟨a6, e6⟩ := valueInt_of_typed doc "height" 0 hobj h6
  obtain ⟨a7, e7⟩ := valueString_of_typed doc "tileset" "" hobj h7
  refine ⟨a2, a4, a5, a6, a7, e5, e6, ?_⟩
  simp [decodeTiled, e1, e2, e3, e4, e5, e6, e7, bind, Except.bind]

theorem decodeTiledLayers_missing (world stage : Int) (doc : Json)
    (tileWidth tileHeight width height : Int) (tilesetPath : String)
    (h : ∀ layer rest, doc.find "layers" ≠ some (.arr (layer :: rest))) :
    decodeTiledLayers world stage doc tileWidth tileHeight width height tilesetPath =
      .error .missingLayers := by
  unfold decodeTiledLayers
  split
  · rename_i layer rest heq
    exact absurd heq (h layer rest)
  · rfl

theorem decodeTiledLayers_unsupported (world stage : Int) (doc : Json)
    (tileWidth tileHeight width height : Int) (tilesetPath : String)
    (layer : Json) (rest : List Json)
    (hlayers : doc.find "layers" = some (.arr (layer :: rest)))
    (hobj : layer.isObject = true)
    (henc : layer.find "encoding" = none ∨
      ∃ s, layer.find "encoding" = some (.str s) ∧ s ≠ "csv") :
    decodeTiledLayers world stage doc tileWidth tileHeight width height tilesetPath =
      .error .unsupportedEncoding := by
  unfold decodeTiledLayers
  rw [hlayers]
  rcases henc with h | ⟨s, h, hs⟩
  · simp [valueString_of_absent layer "encoding" "" hobj h, bind, Except.bind]
  · simp [valueString_of_find layer "encoding" "" _ h, Json.getString, bind, Except.bind, hs]

theorem decodeTiledLayers_csv (world stage : Int) (doc : Json)
    (tileWidth tileHeight width height : Int) (tilesetPath : String)
    (layer : Json) (rest : List Json) (data : String)
    (hlayers : doc.find "layers" = some (.arr (layer :: rest)))
    (henc : layer.find "encoding" = some (.str "csv"))
    (hdata : layer.find "data" = some (.str data)) :
    decodeTiledLayers world stage doc tileWidth tileHeight width height tilesetPath =
      (match parseCsv data with
      | .error e => .error e
      | .ok tiles =>
        if wrapInt tiles.length ≠ wrapInt (width * height) then .error .csvDimensionMismatch
        else do
          let solid ← doc.valueIntArray "solidGids" []
          let flags ← buildCollisionFlags tiles solid
          let entitiesJson ← doc.valueJson "entities" (.arr [])
          let entities ← parseEntities entitiesJson
          pure { world := world, stage := stage, width := width, height := height,
                 tileWidth := tileWidth, tileHeight := tileHeight,
                 tilesetPath := tilesetPath, tiles := tiles,
                 collisionFlags := flags, entities := entities }) := by
  unfold decodeTiledLayers
  rw [hlayers]
  simp only [valueString_of_find layer "encoding" "" _ henc,
    valueString_of_find layer "data" "" _ hdata, Json.getString, bind, Except.bind]
  cases parseCsv data <;> simp

/-! ### Cells that are not numbers -/

theorem trimCell_head_not_space (cell : List Char) (c : Char) (t : List Char)
    (h : trimCell cell = c :: t) : isspace c = false := by
  have hpre : trimCell cell <+: cell.dropWhile isspace := List.rdropWhile_prefix isspace _
  rw [h] at hpre
  obtain ⟨s, hs⟩ := hpre
  have hne : cell.dropWhile isspace ≠ [] := by rw [← hs]; simp
  have := List.head_dropWhile_not isspace cell hne
  have hhead : (cell.dropWhile isspace).head hne = c := by
    simp [← hs]
  rw [hhead] at this
  simpa using this

theorem takeWhile_isEmpty_of_not_headIsDigit (l : List Char) (h : headIsDigit l = false) :
    (l.takeWhile isDecDigit).isEmpty = true := by
  cases l with
  | nil => rfl
  | cons a t =>
    simp only [headIsDigit] at h
    simp [List.takeWhile_cons, h]

theorem stoi_invalid (text : List Char) (c : Char) (t : List Char) (htext : text = c :: t)
    (hsp : isspace c = false) (hbad : startsWithInteger text = false) :
    stoi text = .error .stoiInvalidArgument := by
  subst htext
  unfold stoi
  simp only [List.dropWhile_cons, hsp, Bool.false_eq_true, if_false]
  unfold startsWithInteger at hbad
  split at hbad
  · simp [takeWhile_isEmpty_of_not_headIsDigit _ hbad]
  · simp [takeWhile_isEmpty_of_not_headIsDigit _ hbad]
  · simp [takeWhile_isEmpty_of_not_headIsDigit _ hbad]

theorem cellValue_invalid (cell : List Char) (hne : trimCell cell ≠ [])
    (hbad : startsWithInteger (trimCell cell) = false) :
    cellValue cell = .error .stoiInvalidArgument := by
  obtain ⟨c, t, hct⟩ := List.exists_cons_of_ne_nil hne
  have hsp := trimCell_head_not_space cell c t hct
  have hemp : (trimCell cell).isEmpty = false := by simpa [List.isEmpty_iff] using hne
  simp [cellValue, hemp, stoi_invalid _ c t hct hsp hbad]

theorem stoi_error_malformed (text : List Char) (e : Error) (h : stoi text = .error e) :
    e.isMalformedTileData = true := by
  unfold stoi at h
  simp only at h
  split_ifs at h <;> cases h <;> rfl

theorem cellValue_error_malformed (cell : List Char) (e : Error)
    (h : cellValue cell = .error e) : e.isMalformedTileData = true := by
  unfold cellValue at h
  simp only at h
  split at h
  · cases h
  · exact stoi_error_malformed _ e h

theorem mapExcept_error_of_mem {α β : Type} (f : α → Except Error β) (l : List α)
    (a : α) (ha : a ∈ l) (e : Error) (hfa : f a = .error e) :
    ∃ e2 b, b ∈ l ∧ f b = .error e2 ∧ mapExcept f l = .error e2 := by
  induction l with
  | nil => cases ha
  | cons x xs ih =>
    cases hx : f x with
    | error e1 => exact ⟨e1, x, List.mem_cons_self _ _, hx, by simp [mapExcept, hx]⟩
    | ok b =>
      rcases List.mem_cons.mp ha with h | h
      · rw [h, hx] at hfa; cases hfa
      · obtain ⟨e2, b2, hb2, hf2, hm⟩ := ih h
        exact ⟨e2, b2, List.mem_cons_of_mem _ hb2, hf2, by simp [mapExcept, hx, hm]⟩

/-! ### Area decoder: expansion of the columns -/

theorem repeat_append (template : List Int) (n : Nat) (expanded : List Int) :
    Nat.repeat (fun acc => acc ++ template) n expanded =
      expanded ++ (List.replicate n template).flatten := by
  induction n with
  | zero => simp [Nat.repeat]
  | succ n ih =>
    simp only [Nat.repeat, ih, List.replicate_succ', List.flatten_append, List.flatten_cons,
      List.flatten_nil, List.append_nil, List.append_assoc]

theorem columnRepeat_ge_one (column : Json) (count : Int)
    (h : columnRepeat column = .ok count) : 1 ≤ count := by
  unfold columnRepeat at h
  cases hv : column.valueInt "repeat" 1 with
  | error e => simp [hv, bind, Except.bind] at h
  | ok raw =>
    simp only [hv, bind, Except.bind, pure, Except.pure, Except.ok.injEq] at h
    rw [← h]
    exact le_max_left 1 raw

theorem expandColumn_eq (height : Int) (state : Int × List Int) (column : Json) :
    expandColumn height state column =
      match columnRepeat column with
      | .error e => .error e
      | .ok count =>
        match columnTemplate height column with
        | .error e => .error e
        | .ok template =>
          .ok (wrapInt (state.1 + count),
            state.2 ++ (List.replicate count.toNat template).flatten) := by
  unfold expandColumn
  cases columnRepeat column with
  | error e => rfl
  | ok count =>
    cases columnTemplate height column with
    | error e => rfl
    | ok template =>
      simp [bind, Except.bind, pure, Except.pure, repeat_append]

theorem foldlM_expandColumn (height : Int) (columns : List Json) :
    ∀ (state result : Int × List Int),
    columns.foldlM (expandColumn height) state = .ok result →
    ∃ cols, outputColumns height columns = .ok cols ∧
      result.2 = state.2 ++ cols.flatten ∧
      result.1 % 4294967296 = (state.1 + (cols.length : Int)) % 4294967296 := by
  induction columns with
  | nil =>
    intro state result h
    simp only [List.foldlM_nil, pure, Except.pure, Except.ok.injEq] at h
    subst h
    exact ⟨[], rfl, by simp, by simp⟩
  | cons column rest ih =>
    intro state result h
    rw [List.foldlM_cons, expandColumn_eq] at h
    cases hr : columnRepeat column with
    | error e => simp [hr, bind, Except.bind] at h
    | ok count =>
      cases ht : columnTemplate height column with
      | error e => simp [hr, ht, bind, Except.bind] at h
      | ok template =>
        simp only [hr, ht, bind, Except.bind] at h
        obtain ⟨cols, hcols, h2, h1⟩ := ih _ result h
        have hge := columnRepeat_ge_one column count hr
        refine ⟨List.replicate count.toNat template ++ cols, ?_, ?_, ?_⟩
        · simp [outputColumns, hr, ht, hcols]
        · rw [h2]; simp [List.append_assoc]
        · rw [h1]
          simp only [List.length_append, List.length_replicate, Nat.cast_add]
          have : ((count.toNat : Nat) : Int) = count := Int.toNat_of_nonneg (by omega)
          rw [this]
          unfold wrapInt
          omega

theorem flatten_index (H : Nat) (cols : List (List Int)) (hlen : ∀ c ∈ cols, c.length = H) :
    ∀ k y col, cols[k]? = some col → y < H → cols.flatten[k * H + y]? = col[y]? := by
  induction cols with
  | nil => intro k y col hk; simp at hk
  | cons c cs ih =>
    intro k y col hk hy
    have hc : c.length = H := hlen c (List.mem_cons_self c cs)
    cases k with
    | zero =>
      simp only [List.getElem?_cons_zero, Option.some.injEq] at hk
      subst hk
      simp only [Nat.zero_mul, Nat.zero_add, List.flatten_cons]
      rw [List.getElem?_append_left (by omega)]
    | succ k =>
      simp only [List.getElem?_cons_succ] at hk
      simp only [List.flatten_cons]
      rw [List.getElem?_append_right (by rw [hc, Nat.succ_mul]; omega)]
      have : (k + 1) * H + y - c.length = k * H + y := by
        rw [hc, Nat.succ_mul]; omega
      rw [this]
      exact ih (fun c hc => hlen c (List.mem_cons_of_mem _ hc)) k y col hk hy

/-! ### Area decoder: the template of one column -/

theorem writeAt_ok (v : List Int) (i x : Int) (result : List Int)
    (h : writeAt v i x = .ok result) :
    0 ≤ i ∧ i < v.length ∧ result = v.set i.toNat x := by
  unfold writeAt at h
  split_ifs at h with hi
  simp only [Except.ok.injEq] at h
  exact ⟨hi.1, hi.2, h.symm⟩

theorem foldlM_writeAt (gid : Int) (idxs : List Int) : ∀ (tiles result : List Int),
    idxs.foldlM (fun t y => writeAt t y gid) tiles = .ok result →
    result.length = tiles.length ∧
      ∀ y : Nat, result[y]? = if (y : Int) ∈ idxs then some gid else tiles[y]? := by
  induction idxs with
  | nil =>
    intro tiles result h
    simp only [List.foldlM_nil, pure, Except.pure, Except.ok.injEq] at h
    subst h
    exact ⟨rfl, fun y => by simp⟩
  | cons i rest ih =>
    intro tiles result h
    rw [List.foldlM_cons] at h
    cases hw : writeAt tiles i gid with
    | error e => simp [hw, bind, Except.bind] at h
    | ok t1 =>
      simp only [hw, bind, Except.bind] at h
      obtain ⟨h0, hlt, hset⟩ := writeAt_ok tiles i gid t1 hw
      obtain ⟨hlen, hval⟩ := ih t1 result h
      subst hset
      refine ⟨by rw [hlen, List.length_set], ?_⟩
      intro y
      rw [hval y, List.getElem?_set]
      by_cases hy : (y : Int) = i
      · have h1 : i.toNat = y := by omega
        have h2 : y < tiles.length := by omega
        simp [hy, h1, h2]
      · have h1 : i.toNat ≠ y := by omega
        by_cases hr : (y : Int) ∈ rest
        · simp [hr]
        · simp [hr, hy, h1]

theorem mem_rowLoopIndices (rowFrom rowTo height : Int) (y : Int) :
    y ∈ rowLoopIndices rowFrom rowTo height ↔
      rowFrom ≤ y ∧ y ≤ min rowTo (height - 1) := by
  unfold rowLoopIndices
  simp only [List.mem_map, List.mem_range]
  constructor
  · rintro ⟨k, hk, rfl⟩
    omega
  · intro h
    exact ⟨(y - rowFrom).toNat, by omega, by omega⟩

theorem applyRow_spec (height : Int) (tiles : List Int) (row : Json) (result : List Int)
    (h : applyRow height tiles row = .ok result) :
    result.length = tiles.length ∧
      ∀ y : Nat, result[y]? =
        if rowCovers height row y = true then some (rowGid row) else tiles[y]? := by
  unfold applyRow at h
  cases hf : row.valueInt "from" 0 with
  | error e => simp [hf, bind, Except.bind] at h
  | ok rawFrom =>
    cases ht : row.valueInt "to" (max 0 rawFrom) with
    | error e => simp [hf, ht, bind, Except.bind] at h
    | ok rawTo =>
      cases hg : row.valueInt "gid" 0 with
      | error e => simp [hf, ht, hg, bind, Except.bind] at h
      | ok gid =>
        simp only [hf, ht, hg, bind, Except.bind] at h
        obtain ⟨hlen, hval⟩ := foldlM_writeAt gid _ tiles result h
        refine ⟨hlen, ?_⟩
        intro y
        rw [hval y]
        have hiff : ((y : Int) ∈ rowLoopIndices (max 0 rawFrom) (min (height - 1) rawTo) height) ↔
            rowCovers height row y = true := by
          rw [mem_rowLoopIndices]
          simp only [rowCovers, hf, ht, decide_eq_true_eq]
          constructor
          · rintro ⟨h1, h2⟩
            exact ⟨h1, le_trans h2 (min_le_left _ _)⟩
          · rintro ⟨h1, h2⟩
            exact ⟨h1, le_min h2 (le_trans h2 (min_le_left _ _))⟩
        simp only [rowGid, hg]
        by_cases hc : rowCovers height row y = true
        · rw [if_pos (hiff.mpr hc), if_pos hc]
        · rw [if_neg (fun hm => hc (hiff.mp hm)), if_neg hc]

theorem foldlM_applyRow (height : Int) (rows : List Json) : ∀ (tiles result : List Int),
    rows.foldlM (applyRow height) tiles = .ok result →
    result.length = tiles.length ∧
      ∀ y : Nat, result[y]? =
        match rows.reverse.find? (fun row => rowCovers height row y) with
        | some row => some (rowGid row)
        | none => tiles[y]? := by
  induction rows with
  | nil =>
    intro tiles result h
    simp only [List.foldlM_nil, pure, Except.pure, Except.ok.injEq] at h
    subst h
    exact ⟨rfl, fun y => by simp⟩
  | cons row rest ih =>
    intro tiles result h
    rw [List.foldlM_cons] at h
    cases ha : applyRow height tiles row with
    | error e => simp [ha, bind, Except.bind] at h
    | ok t1 =>
      simp only [ha, bind, Except.bind] at h
      obtain ⟨hlen1, hval1⟩ := applyRow_spec height tiles row t1 ha
      obtain ⟨hlen, hval⟩ := ih t1 result h
      refine ⟨hlen.trans hlen1, ?_⟩
      intro y
      rw [hval y, List.reverse_cons, List.find?_append]
      cases hfind : rest.reverse.find? (fun row => rowCovers height row y) with
      | some r => simp
      | none =>
        simp only [Option.none_or, hval1 y]
        by_cases hc : rowCovers height row y = true
        · simp [List.find?_cons, hc]
        · simp [List.find?_cons, hc]

theorem except_bind_ok {α β : Type} (m : Except Error α) (k : α → Except Error β) (b : β)
    (h : (m >>= k) = .ok b) : ∃ a, m = .ok a ∧ k a = .ok b := by
  cases m with
  | error e => simp [bind, Except.bind] at h
  | ok a => exact ⟨a, rfl, by simpa [bind, Except.bind] using h⟩

theorem foldlM_copy (arr : List Json) (n : Nat) : ∀ (tiles result : List Int),
    (List.range n).foldlM (copyMetatileStep arr) tiles = .ok result →
    result.length = tiles.length ∧
      (∀ y, y < n → ∃ item value, arr[y]? = some item ∧ item.getInt = .ok value ∧
        result[y]? = some value) ∧
      (∀ y, n ≤ y → result[y]? = tiles[y]?) := by
  induction n with
  | zero =>
    intro tiles result h
    simp only [List.range_zero, List.foldlM_nil, pure, Except.pure, Except.ok.injEq] at h
    subst h
    exact ⟨rfl, fun y hy => by omega, fun y _ => rfl⟩
  | succ n ih =>
    intro tiles result h
    rw [List.range_succ, List.foldlM_append] at h
    obtain ⟨t1, h1, h2⟩ := except_bind_ok _ _ _ h
    obtain ⟨hlen, hlow, hhigh⟩ := ih tiles t1 h1
    simp only [List.foldlM_cons, List.foldlM_nil, copyMetatileStep] at h2
    cases hitem : arr[n]? with
    | none => simp [hitem, bind, Except.bind] at h2
    | some item =>
      cases hget : item.getInt with
      | error e => simp [hitem, hget, bind, Except.bind] at h2
      | ok value =>
        simp only [hitem, hget] at h2
        obtain ⟨t2, hw, hpure⟩ := except_bind_ok _ _ _ h2
        simp only [pure, Except.pure, Except.ok.injEq] at hpure
        subst hpure
        obtain ⟨_, hlt, hset⟩ := writeAt_ok t1 n value t2 hw
        subst hset
        have hn : n < t1.length := by omega
        refine ⟨by rw [List.length_set, hlen], ?_, ?_⟩
        · intro y hy
          by_cases hyn : y = n
          · subst hyn
            exact ⟨item, value, hitem, hget, by simp [List.getElem?_set, hn]⟩
          · obtain ⟨it, v, ha, hg, hr⟩ := hlow y (by omega)
            refine ⟨it, v, ha, hg, ?_⟩
            rw [List.getElem?_set]
            simp only [Int.toNat_ofNat]
            rw [if_neg (fun h => hyn h.symm), hr]
        · intro y hy
          rw [List.getElem?_set]
          simp only [Int.toNat_ofNat]
          rw [if_neg (by omega), hhigh y (by omega)]

theorem copyMetatile_spec (arr : List Json) (height : Int) (result : List Int)
    (hsize : (arr.length : Int) ≤ INT_MAX)
    (h : copyMetatile arr height (List.replicate height.toNat 0) = .ok result) :
    result.length = height.toNat ∧
      ∀ y, y < height.toNat → result[y]? = some
        (match arr[y]? with
         | some item =>
           match item.getInt with
           | .ok value => value
           | .error _ => 0
         | none => 0) := by
  unfold copyMetatile at h
  have hwrap : wrapInt arr.length = arr.length :=
    wrapInt_of_inRange _ ⟨by unfold INT_MIN; omega, hsize⟩
  rw [hwrap] at h
  obtain ⟨hlen, hlow, hhigh⟩ := foldlM_copy arr _ _ result h
  rw [List.length_replicate] at hlen
  refine ⟨hlen, ?_⟩
  intro y hy
  by_cases hlim : y < (min (arr.length : Int) height).toNat
  · obtain ⟨item, value, ha, hg, hr⟩ := hlow y hlim
    rw [hr, ha]
    simp [hg]
  · rw [hhigh y (by omega)]
    have hnone : arr[y]? = none := by
      rw [List.getElem?_eq_none_iff]
      omega
    simp [hnone, List.getElem?_replicate, hy]

theorem columnTemplate_stages (height : Int) (column : Json) (template : List Int)
    (h : columnTemplate height column = .ok template) :
    0 ≤ height ∧ ∃ after,
      applyMetatile height column (List.replicate height.toNat 0) = .ok after ∧
      applyRows height column after = .ok template := by
  unfold columnTemplate at h
  by_cases hneg : height < 0
  · simp [hneg] at h
  simp only [if_neg hneg] at h
  cases hm : applyMetatile height column (List.replicate height.toNat 0) with
  | error e => simp [hm] at h
  | ok after => exact ⟨by omega, after, rfl, by simpa [hm] using h⟩

theorem applyMetatile_spec (height : Int) (column : Json) (after : List Int)
    (hsize : ∀ arr, column.find "metatile" = some (.arr arr) → (arr.length : Int) ≤ INT_MAX)
    (h : applyMetatile height column (List.replicate height.toNat 0) = .ok after) :
    after.length = height.toNat ∧
      ∀ y, y < height.toNat → after[y]? = some (metatileValue column y) := by
  unfold applyMetatile at h
  split at h
  · rename_i arr heq
    obtain ⟨hl, hv⟩ := copyMetatile_spec arr height after (hsize arr heq) h
    refine ⟨hl, ?_⟩
    intro y hy
    rw [hv y hy]
    simp only [metatileValue, heq]
  · rename_i hno
    simp only [Except.ok.injEq] at h
    subst h
    refine ⟨List.length_replicate _ _, ?_⟩
    intro y hy
    have : metatileValue column y = 0 := by
      unfold metatileValue
      split
      · rename_i arr heq; exact absurd heq (hno arr)
      · rfl
    rw [this]
    simp [List.getElem?_replicate, hy]

theorem applyMetatile_length (height : Int) (column : Json) (tiles after : List Int)
    (h : applyMetatile height column tiles = .ok after) : after.length = tiles.length := by
  unfold applyMetatile at h
  split at h
  · unfold copyMetatile at h
    exact (foldlM_copy _ _ _ after h).1
  · simp only [Except.ok.injEq] at h
    rw [h]

theorem applyRows_spec (height : Int) (column : Json) (tiles template : List Int)
    (h : applyRows height column tiles = .ok template) :
    template.length = tiles.length ∧
      ∀ y : Nat, template[y]? =
        match (columnRows column).reverse.find? (fun row => rowCovers height row y) with
        | some row => some (rowGid row)
        | none => tiles[y]? := by
  unfold applyRows at h
  split at h
  · rename_i rows heq
    obtain ⟨hl, hv⟩ := foldlM_applyRow height rows tiles template h
    refine ⟨hl, ?_⟩
    intro y
    rw [hv y]
    simp only [columnRows, heq]
  · rename_i hno
    simp only [Except.ok.injEq] at h
    subst h
    refine ⟨rfl, ?_⟩
    intro y
    have : columnRows column = [] := by
      unfold columnRows
      split
      · rename_i rows heq; exact absurd heq (hno rows)
      · rfl
    rw [this]
    rfl

theorem columnTemplate_spec (height : Int) (column : Json) (template : List Int)
    (hsize : ∀ arr, column.find "metatile" = some (.arr arr) → (arr.length : Int) ≤ INT_MAX)
    (h : columnTemplate height column = .ok template) :
    0 ≤ height ∧ template.length = height.toNat ∧
      ∀ y, y < height.toNat → template[y]? = some
        (match (columnRows column).reverse.find? (fun row => rowCovers height row y) with
         | some row => rowGid row
         | none => metatileValue column y) := by
  obtain ⟨h0, after, h1, h2⟩ := columnTemplate_stages height column template h
  obtain ⟨hl1, hv1⟩ := applyMetatile_spec height column after hsize h1
  obtain ⟨hl2, hv2⟩ := applyRows_spec height column after template h2
  refine ⟨h0, hl2.trans hl1, ?_⟩
  intro y hy
  rw [hv2 y]
  cases (columnRows column).reverse.find? (fun row => rowCovers height row y) with
  | some row => rfl
  | none => exact hv1 y hy

theorem columnTemplate_length (height : Int) (column : Json) (template : List Int)
    (h : columnTemplate height column = .ok template) :
    0 ≤ height ∧ template.length = height.toNat := by
  obtain ⟨h0, after, h1, h2⟩ := columnTemplate_stages height column template h
  have hl1 := applyMetatile_length height column _ after h1
  rw [List.length_replicate] at hl1
  exact ⟨h0, (applyRows_spec height column after template h2).1.trans hl1⟩

theorem outputColumns_length (height : Int) (columns : List Json) :
    ∀ cols, outputColumns height columns = .ok cols →
      ∀ c ∈ cols, c.length = height.toNat := by
  induction columns with
  | nil =>
    intro cols h c hc
    simp only [outputColumns, Except.ok.injEq] at h
    subst h
    cases hc
  | cons column rest ih =>
    intro cols h c hc
    unfold outputColumns at h
    cases hr : columnRepeat column with
    | error e => simp [hr] at h
    | ok count =>
      cases ht : columnTemplate height column with
      | error e => simp [hr, ht] at h
      | ok template =>
        cases ho : outputColumns height rest with
        | error e => simp [hr, ht, ho] at h
        | ok others =>
          simp only [hr, ht, ho, Except.ok.injEq] at h
          subst h
          rcases List.mem_append.mp hc with h1 | h1
          · rw [List.eq_of_mem_replicate h1]
            exact (columnTemplate_length height column template ht).2
          · exact ih others ho c h1

/-! ### Area decoder: what a returned level is made of -/

theorem loadAreaJson_of_read (am : AssetManager) (world stage : Int) (path : String)
    (doc : Json) (h : readAsset am path = .ok doc) :
    loadAreaJson am world stage path = decodeArea world stage doc := by
  simp [loadAreaJson, h]

theorem decodeArea_ok (world stage : Int) (doc : Json) (level : LevelDefinition)
    (h : decodeArea world stage doc = .ok level) :
    ∃ columns state declared solid,
      doc.find "columns" = some (.arr columns) ∧
      doc.valueInt "height" 0 = .ok level.height ∧
      columns.foldlM (expandColumn level.height) (0, []) = .ok state ∧
      level.tiles = state.2 ∧
      doc.valueInt "width" state.1 = .ok declared ∧
      level.width = resolveWidth declared state.1 ∧
      wrapInt state.2.length = wrapInt (level.width * level.height) ∧
      doc.valueIntArray "solidGids" [] = .ok solid ∧
      buildCollisionFlags level.tiles solid = .ok level.collisionFlags := by
  unfold decodeArea at h
  obtain ⟨tw, _, h⟩ := except_bind_ok _ _ _ h
  obtain ⟨th, _, h⟩ := except_bind_ok _ _ _ h
  obtain ⟨height, hheight, h⟩ := except_bind_ok _ _ _ h
  obtain ⟨ts, _, h⟩ := except_bind_ok _ _ _ h
  unfold decodeAreaColumns at h
  split at h
  · rename_i columns hcols
    obtain ⟨state, hfold, h⟩ := except_bind_ok _ _ _ h
    obtain ⟨declared, hdecl, h⟩ := except_bind_ok _ _ _ h
    by_cases hdim : wrapInt state.2.length ≠ wrapInt (resolveWidth declared state.1 * height)
    · simp [hdim] at h
    · rw [if_neg hdim] at h
      obtain ⟨solid, hsolid, h⟩ := except_bind_ok _ _ _ h
      obtain ⟨flags, hflags, h⟩ := except_bind_ok _ _ _ h
      obtain ⟨source, _, h⟩ := except_bind_ok _ _ _ h
      obtain ⟨entities, _, h⟩ := except_bind_ok _ _ _ h
      simp only [pure, Except.pure, Except.ok.injEq] at h
      subst h
      exact ⟨columns, state, declared, solid, hcols, hheight, hfold, rfl, hdecl, rfl,
        by simpa using hdim, hsolid, hflags⟩
  · cases h

theorem decodeArea_tiles (world stage : Int) (doc : Json) (level : LevelDefinition)
    (h : decodeArea world stage doc = .ok level) :
    ∃ columns cols, doc.find "columns" = some (.arr columns) ∧
      outputColumns level.height columns = .ok cols ∧ level.tiles = cols.flatten := by
  obtain ⟨columns, state, _, _, hcols, _, hfold, htiles, _⟩ := decodeArea_ok world stage doc level h
  obtain ⟨cols, hout, h2, _⟩ := foldlM_expandColumn level.height columns _ state hfold
  exact ⟨columns, cols, hcols, hout, by rw [htiles, h2]; simp⟩

/-! ### Entities -/

theorem mapAssign_lookup_self (m : List (String × String)) (k v : String) :
    (mapAssign m k v).lookup k = some v := by
  induction m with
  | nil => simp [mapAssign, List.lookup]
  | cons p rest ih =>
    obtain ⟨k2, v2⟩ := p
    unfold mapAssign
    by_cases h1 : k = k2
    · simp [h1, List.lookup]
    · rw [if_neg h1]
      by_cases h2 : k < k2
      · simp [h2, List.lookup]
      · rw [if_neg h2]
        have hne : (k == k2) = false := by simpa using h1
        simp [List.lookup, hne, ih]

theorem mapAssign_lookup_ne (m : List (String × String)) (k v q : String) (hq : q ≠ k) :
    (mapAssign m k v).lookup q = m.lookup q := by
  have hqk : (q == k) = false := by simpa using hq
  induction m with
  | nil => simp [mapAssign, List.lookup, hqk]
  | cons p rest ih =>
    obtain ⟨k2, v2⟩ := p
    unfold mapAssign
    by_cases h1 : k = k2
    · subst h1
      simp [List.lookup, hqk]
    · rw [if_neg h1]
      by_cases h2 : k < k2
      · simp [h2, List.lookup, hqk]
      · rw [if_neg h2]
        simp only [List.lookup, ih]

theorem mapAssign_keys (m : List (String × String)) (k v q : String)
    (hq : q ∈ (mapAssign m k v).map Prod.fst) : q = k ∨ q ∈ m.map Prod.fst := by
  induction m with
  | nil =>
    simp only [mapAssign, List.map_cons, List.map_nil, List.mem_singleton] at hq
    exact Or.inl hq
  | cons p rest ih =>
    obtain ⟨k2, v2⟩ := p
    unfold mapAssign at hq
    by_cases h1 : k = k2
    · rw [if_pos h1] at hq
      simp only [List.map_cons, List.mem_cons] at hq ⊢
      rcases hq with h | h
      · exact Or.inl h
      · exact Or.inr (Or.inr h)
    · rw [if_neg h1] at hq
      by_cases h2 : k < k2
      · rw [if_pos h2] at hq
        simp only [List.map_cons, List.mem_cons] at hq ⊢
        rcases hq with h | h | h
        · exact Or.inl h
        · exact Or.inr (Or.inl h)
        · exact Or.inr (Or.inr h)
      · rw [if_neg h2] at hq
        simp only [List.map_cons, List.mem_cons] at hq ⊢
        rcases hq with h | h
        · exact Or.inr (Or.inl h)
        · rcases ih h with h3 | h3
          · exact Or.inl h3
          · exact Or.inr (Or.inr h3)

theorem coerceProperty_eq (extras : List (String × String)) (key : String) (value : Json) :
    coerceProperty extras key value =
      match coercedText value with
      | some text => mapAssign extras key text
      | none => extras := by
  cases value <;> rfl

theorem coerceProperty_lookup_ne (extras : List (String × String)) (key : String)
    (value : Json) (q : String) (hq : q ≠ key) :
    (coerceProperty extras key value).lookup q = extras.lookup q := by
  rw [coerceProperty_eq]
  cases coercedText value with
  | none => rfl
  | some text => exact mapAssign_lookup_ne extras key text q hq

theorem foldl_coerce_lookup_absent (members : List (String × Json)) :
    ∀ (extras : List (String × String)) (q : String), q ∉ members.map Prod.fst →
    (members.foldl (fun extras member => coerceProperty extras member.1 member.2)
      extras).lookup q = extras.lookup q := by
  induction members with
  | nil => intro extras q _; rfl
  | cons member rest ih =>
    intro extras q hq
    simp only [List.map_cons, List.mem_cons, not_or] at hq
    simp only [List.foldl_cons]
    rw [ih _ q hq.2, coerceProperty_lookup_ne _ _ _ q hq.1]

theorem foldl_coerce_lookup (members : List (String × Json)) :
    ∀ (extras : List (String × String)) (key : String) (value : Json),
    (members.map Prod.fst).Nodup → (key, value) ∈ members →
    (members.foldl (fun extras member => coerceProperty extras member.1 member.2)
      extras).lookup key =
      match coercedText value with
      | some text => some text
      | none => extras.lookup key := by
  induction members with
  | nil => intro extras key value _ hmem; cases hmem
  | cons member rest ih =>
    intro extras key value hnodup hmem
    simp only [List.map_cons, List.nodup_cons] at hnodup
    simp only [List.foldl_cons]
    rcases List.mem_cons.mp hmem with h | h
    · subst h
      rw [foldl_coerce_lookup_absent rest _ key hnodup.1, coerceProperty_eq]
      cases coercedText value with
      | none => rfl
      | some text => exact mapAssign_lookup_self extras key text
    · have hne : key ≠ member.1 := by
        intro heq
        apply hnodup.1
        rw [← heq]
        exact List.mem_map.mpr ⟨(key, value), h, rfl⟩
      rw [ih _ key value hnodup.2 h, coerceProperty_lookup_ne _ _ _ key hne]

theorem foldl_coerce_keys (members : List (String × Json)) :
    ∀ (extras : List (String × String)) (q : String),
    q ∈ (members.foldl (fun extras member => coerceProperty extras member.1 member.2)
      extras).map Prod.fst →
    q ∈ extras.map Prod.fst ∨
      ∃ value, (q, value) ∈ members ∧ (coercedText value).isSome = true := by
  induction members with
  | nil => intro extras q hq; exact Or.inl hq
  | cons member rest ih =>
    intro extras q hq
    simp only [List.foldl_cons] at hq
    rcases ih _ q hq with h | ⟨value, hmem, hsome⟩
    · rw [coerceProperty_eq] at h
      cases htext : coercedText member.2 with
      | none =>
        rw [htext] at h
        exact Or.inl h
      | some text =>
        rw [htext] at h
        rcases mapAssign_keys extras member.1 text q h with h2 | h2
        · refine Or.inr ⟨member.2, ?_, by rw [htext]; rfl⟩
          rw [h2]
          exact List.mem_cons_self _ _
        · exact Or.inl h2
    · exact Or.inr ⟨value, List.mem_cons_of_mem _ hmem, hsome⟩

theorem parseEntity_extras (entry : Json) (entity : EntityDefinition)
    (h : parseEntity entry = .ok entity) : entity.extras = entityExtras entry := by
  unfold parseEntity at h
  cases ht : entry.valueString "type" "unknown" with
  | error e => simp [ht] at h
  | ok t =>
    cases hx : entry.valueInt "x" 0 with
    | error e => simp [ht, hx] at h
    | ok x =>
      cases hy : entry.valueInt "y" 0 with
      | error e => simp [ht, hx, hy] at h
      | ok y =>
        simp only [ht, hx, hy, Except.ok.injEq] at h
        rw [← h]

theorem parseEntity_fields (entry : Json) (entity : EntityDefinition)
    (h : parseEntity entry = .ok entity) :
    entry.valueString "type" "unknown" = .ok entity.type ∧
      entry.valueInt "x" 0 = .ok entity.x ∧ entry.valueInt "y" 0 = .ok entity.y := by
  unfold parseEntity at h
  cases ht : entry.valueString "type" "unknown" with
  | error e => simp [ht] at h
  | ok t =>
    cases hx : entry.valueInt "x" 0 with
    | error e => simp [ht, hx] at h
    | ok x =>
      cases hy : entry.valueInt "y" 0 with
      | error e => simp [ht, hx, hy] at h
      | ok y =>
        simp only [ht, hx, hy, Except.ok.injEq] at h
        rw [← h]
        exact ⟨rfl, rfl, rfl⟩

theorem parseEntitiesLoop_eq (entries : List Json) : ∀ out : List EntityDefinition,
    parseEntitiesLoop entries out =
      match mapExcept parseEntity entries with
      | .error e => .error e
      | .ok entities => .ok (out ++ entities) := by
  induction entries with
  | nil => intro out; simp [parseEntitiesLoop, mapExcept]
  | cons entry rest ih =>
    intro out
    unfold parseEntitiesLoop mapExcept
    cases parseEntity entry with
    | error e => rfl
    | ok entity =>
      simp only [ih]
      cases mapExcept parseEntity rest <;> simp

theorem parseEntities_arr (entries : List Json) :
    parseEntities (.arr entries) = mapExcept parseEntity entries := by
  simp only [parseEntities, parseEntitiesLoop_eq]
  cases mapExcept parseEntity entries <;> simp

theorem mapExcept_ok_index {α β : Type} (f : α → Except Error β) (l : List α) :
    ∀ out, mapExcept f l = .ok out →
      out.length = l.length ∧
      ∀ (i : Nat) (a : α), l[i]? = some a → ∃ b, out[i]? = some b ∧ f a = .ok b := by
  induction l with
  | nil =>
    intro out h
    simp only [mapExcept, Except.ok.injEq] at h
    subst h
    exact ⟨rfl, fun i a ha => by simp at ha⟩
  | cons x xs ih =>
    intro out h
    unfold mapExcept at h
    cases hx : f x with
    | error e => simp [hx] at h
    | ok b =>
      cases hxs : mapExcept f xs with
      | error e => simp [hx, hxs] at h
      | ok bs =>
        simp only [hx, hxs, Except.ok.injEq] at h
        subst h
        obtain ⟨hlen, hidx⟩ := ih bs hxs
        refine ⟨by simp [hlen], ?_⟩
        intro i a ha
        cases i with
        | zero =>
          simp only [List.getElem?_cons_zero, Option.some.injEq] at ha
          subst ha
          exact ⟨b, by simp, hx⟩
        | succ i =>
          simp only [List.getElem?_cons_succ] at ha ⊢
          exact hidx i a ha

theorem mapExcept_ok_of_all {α β : Type} (f : α → Except Error β) (l : List α)
    (h : ∀ a ∈ l, ∃ b, f a = .ok b) : ∃ out, mapExcept f l = .ok out := by
  induction l with
  | nil => exact ⟨[], rfl⟩
  | cons x xs ih =>
    obtain ⟨b, hb⟩ := h x (List.mem_cons_self x xs)
    obtain ⟨bs, hbs⟩ := ih (fun a ha => h a (List.mem_cons_of_mem x ha))
    exact ⟨b :: bs, by simp [mapExcept, hb, hbs]⟩

theorem valueInt_of_absent (doc : Json) (key : String) (dflt : Int)
    (hobj : doc.isObject = true) (h : doc.find key = none) :
    doc.valueInt key dflt = .ok dflt := by
  cases doc with
  | obj members =>
    simp only [Json.find] at h
    simp [Json.valueInt, h]
  | null => cases hobj
  | bool b => cases hobj
  | int n => cases hobj
  | float t s => cases hobj
  | str s => cases hobj
  | arr l => cases hobj

theorem parseEntities_typed_index (entries : List Json)
    (htyped : entries.all entityTyped = true) :
    ∃ out, parseEntities (.arr entries) = .ok out ∧ out.length = entries.length ∧
      ∀ (i : Nat) (entry : Json), entries[i]? = some entry →
        ∃ entity, out[i]? = some entity ∧ parseEntity entry = .ok entity := by
  have hall : ∀ entry ∈ entries, ∃ entity, parseEntity entry = .ok entity := by
    intro entry hmem
    exact parseEntity_of_typed entry (List.all_eq_true.mp htyped entry hmem)
  obtain ⟨out, hout⟩ := mapExcept_ok_of_all parseEntity entries hall
  obtain ⟨hlen, hidx⟩ := mapExcept_ok_index parseEntity entries out hout
  exact ⟨out, by rw [parseEntities_arr, hout], hlen, hidx⟩

theorem entityExtras_of_properties (entry : Json) (members : List (String × Json))
    (h : entry.find "properties" = some (.obj members)) :
    entityExtras entry =
      members.foldl (fun extras member => coerceProperty extras member.1 member.2) [] := by
  simp only [entityExtras, h]

/-! ### Area decoder: which errors a column can raise -/

theorem getInt_error (j : Json) (e : Error) (h : j.getInt = .error e) :
    e = .jsonTypeError := by
  cases j <;> simp [Json.getInt] at h <;> exact h.symm

theorem valueInt_error (doc : Json) (key : String) (dflt : Int) (e : Error)
    (h : doc.valueInt key dflt = .error e) : e = .jsonTypeError := by
  cases doc with
  | obj members =>
    simp only [Json.valueInt] at h
    cases hl : members.lookup key with
    | none => simp [hl] at h
    | some member =>
      rw [hl] at h
      exact getInt_error member e h
  | null => simp [Json.valueInt] at h; exact h.symm
  | bool b => simp [Json.valueInt] at h; exact h.symm
  | int n => simp [Json.valueInt] at h; exact h.symm
  | float t s => simp [Json.valueInt] at h; exact h.symm
  | str s => simp [Json.valueInt] at h; exact h.symm
  | arr l => simp [Json.valueInt] at h; exact h.symm

theorem foldlM_writeAt_ok (gid : Int) (idxs : List Int) : ∀ tiles : List Int,
    (∀ y ∈ idxs, 0 ≤ y ∧ y < (tiles.length : Int)) →
    ∃ result, idxs.foldlM (fun t y => writeAt t y gid) tiles = .ok result := by
  induction idxs with
  | nil => intro tiles _; exact ⟨tiles, rfl⟩
  | cons i rest ih =>
    intro tiles hb
    have hi := hb i (List.mem_cons_self i rest)
    have hw : writeAt tiles i gid = .ok (tiles.set i.toNat gid) := by
      simp [writeAt, hi.1, hi.2]
    obtain ⟨result, hr⟩ := ih (tiles.set i.toNat gid) (by
      intro y hy
      rw [List.length_set]
      exact hb y (List.mem_cons_of_mem i hy))
    exact ⟨result, by rw [List.foldlM_cons, hw]; simpa [bind, Except.bind] using hr⟩

theorem applyRow_ok_of_values (height : Int) (tiles : List Int) (row : Json)
    (rawFrom rawTo gid : Int) (hlen : tiles.length = height.toNat)
    (hf : row.valueInt "from" 0 = .ok rawFrom)
    (ht : row.valueInt "to" (max 0 rawFrom) = .ok rawTo)
    (hg : row.valueInt "gid" 0 = .ok gid) :
    ∃ result, applyRow height tiles row = .ok result := by
  obtain ⟨result, hr⟩ := foldlM_writeAt_ok gid
    (rowLoopIndices (max 0 rawFrom) (min (height - 1) rawTo) height) tiles (by
      intro y hy
      rw [mem_rowLoopIndices] at hy
      rw [hlen]
      omega)
  exact ⟨result, by simp [applyRow, hf, ht, hg, bind, Except.bind, hr]⟩

theorem applyRow_total (height : Int) (tiles : List Int) (row : Json)
    (hlen : tiles.length = height.toNat) :
    (∃ result, applyRow height tiles row = .ok result) ∨
      applyRow height tiles row = .error .jsonTypeError := by
  cases hf : row.valueInt "from" 0 with
  | error e =>
    right
    rw [valueInt_error _ _ _ e hf] at hf
    simp [applyRow, hf, bind, Except.bind]
  | ok rawFrom =>
    cases ht : row.valueInt "to" (max 0 rawFrom) with
    | error e =>
      right
      rw [valueInt_error _ _ _ e ht] at ht
      simp [applyRow, hf, ht, bind, Except.bind]
    | ok rawTo =>
      cases hg : row.valueInt "gid" 0 with
      | error e =>
        right
        rw [valueInt_error _ _ _ e hg] at hg
        simp [applyRow, hf, ht, hg, bind, Except.bind]
      | ok gid => exact Or.inl (applyRow_ok_of_values height tiles row _ _ _ hlen hf ht hg)

theorem applyRow_ok_of_typed (height : Int) (tiles : List Int) (row : Json)
    (hlen : tiles.length = height.toNat) (htyped : rowTyped row = true) :
    ∃ result, applyRow height tiles row = .ok result := by
  simp only [rowTyped, Bool.and_eq_true] at htyped
  obtain ⟨⟨⟨hobj, h1⟩, h2⟩, h3⟩ := htyped
  obtain ⟨f, hf⟩ := valueInt_of_typed row "from" 0 hobj h1
  obtain ⟨t, ht⟩ := valueInt_of_typed row "to" (max 0 f) hobj h2
  obtain ⟨g, hg⟩ := valueInt_of_typed row "gid" 0 hobj h3
  exact applyRow_ok_of_values height tiles row f t g hlen hf ht hg

theorem foldlM_applyRow_total (height : Int) (rows : List Json) : ∀ tiles : List Int,
    tiles.length = height.toNat →
    ((∃ result, rows.foldlM (applyRow height) tiles = .ok result) ∨
      rows.foldlM (applyRow height) tiles = .error .jsonTypeError) ∧
    (rows.all rowTyped = true → ∃ result, rows.foldlM (applyRow height) tiles = .ok result) := by
  induction rows with
  | nil => intro tiles _; exact ⟨Or.inl ⟨tiles, rfl⟩, fun _ => ⟨tiles, rfl⟩⟩
  | cons row rest ih =>
    intro tiles hlen
    rw [List.foldlM_cons]
    constructor
    · rcases applyRow_total height tiles row hlen with ⟨t1, h1⟩ | h1
      · have hl1 := (applyRow_spec height tiles row t1 h1).1
        rcases (ih t1 (hl1.trans hlen)).1 with ⟨r, hr⟩ | hr
        · exact Or.inl ⟨r, by simp [h1, bind, Except.bind, hr]⟩
        · exact Or.inr (by simp [h1, bind, Except.bind, hr])
      · exact Or.inr (by simp [h1, bind, Except.bind])
    · intro htyped
      simp only [List.all_cons, Bool.and_eq_true] at htyped
      obtain ⟨t1, h1⟩ := applyRow_ok_of_typed height tiles row hlen htyped.1
      have hl1 := (applyRow_spec height tiles row t1 h1).1
      obtain ⟨r, hr⟩ := (ih t1 (hl1.trans hlen)).2 htyped.2
      exact ⟨r, by simp [h1, bind, Except.bind, hr]⟩

theorem foldlM_copy_total (arr : List Json) (n : Nat) : ∀ tiles : List Int,
    n ≤ arr.length → n ≤ tiles.length →
    ((∃ result, (List.range n).foldlM (copyMetatileStep arr) tiles = .ok result) ∨
      (List.range n).foldlM (copyMetatileStep arr) tiles = .error .jsonTypeError) ∧
    ((∀ i item, i < n → arr[i]? = some item → item.isNumeric = true) →
      ∃ result, (List.range n).foldlM (copyMetatileStep arr) tiles = .ok result) := by
  induction n with
  | zero => intro tiles _ _; exact ⟨Or.inl ⟨tiles, rfl⟩, fun _ => ⟨tiles, rfl⟩⟩
  | succ n ih =>
    intro tiles ha ht
    rw [List.range_succ, List.foldlM_append]
    obtain ⟨item, hitem⟩ : ∃ item, arr[n]? = some item :=
      ⟨arr[n], List.getElem?_eq_getElem (by omega)⟩
    have hstep : ∀ t1 : List Int, t1.length = tiles.length →
        ((∃ r, copyMetatileStep arr t1 n = .ok r) ∨
          copyMetatileStep arr t1 n = .error .jsonTypeError) ∧
        (item.isNumeric = true → ∃ r, copyMetatileStep arr t1 n = .ok r) := by
      intro t1 hl
      have hwrite : ∀ v : Int, ∃ r, writeAt t1 (n : Int) v = .ok r := by
        intro v
        exact ⟨t1.set n v, by
          have : (n : Int) < (t1.length : Int) := by omega
          simp [writeAt, this]⟩
      constructor
      · cases hg : item.getInt with
        | error e =>
          right
          rw [getInt_error item e hg] at hg
          simp [copyMetatileStep, hitem, hg]
        | ok v =>
          obtain ⟨r, hr⟩ := hwrite v
          exact Or.inl ⟨r, by simp [copyMetatileStep, hitem, hg, hr]⟩
      · intro hnum
        obtain ⟨v, hg, _⟩ := getInt_of_isNumeric item hnum
        obtain ⟨r, hr⟩ := hwrite v
        exact ⟨r, by simp [copyMetatileStep, hitem, hg, hr]⟩
    constructor
    · rcases (ih tiles (by omega) (by omega)).1 with ⟨t1, h1⟩ | h1
      · have hl1 := (foldlM_copy arr n tiles t1 h1).1
        rcases (hstep t1 hl1).1 with ⟨r, hr⟩ | hr
        · exact Or.inl ⟨r, by simp [h1, bind, Except.bind, hr, pure, Except.pure]⟩
        · exact Or.inr (by simp [h1, bind, Except.bind, hr])
      · exact Or.inr (by simp [h1, bind, Except.bind])
    · intro hnum
      obtain ⟨t1, h1⟩ := (ih tiles (by omega) (by omega)).2
        (fun i it hi hget => hnum i it (by omega) hget)
      have hl1 := (foldlM_copy arr n tiles t1 h1).1
      obtain ⟨r, hr⟩ := (hstep t1 hl1).2 (hnum n item (by omega) hitem)
      exact ⟨r, by simp [h1, bind, Except.bind, hr, pure, Except.pure]⟩

theorem copyMetatile_limit (arr : List Json) (height : Int) :
    (min (wrapInt arr.length) height).toNat ≤ arr.length ∧
      (min (wrapInt arr.length) height).toNat ≤ height.toNat := by
  have h : wrapInt (arr.length : Int) ≤ (arr.length : Int) := by
    unfold wrapInt
    omega
  omega

theorem applyMetatile_total (height : Int) (column : Json) :
    ((∃ result, applyMetatile height column (List.replicate height.toNat 0) = .ok result) ∨
      applyMetatile height column (List.replicate height.toNat 0) = .error .jsonTypeError) ∧
    (fieldHas column "metatile" metatileTyped = true →
      ∃ result, applyMetatile height column (List.replicate height.toNat 0) = .ok result) := by
  unfold applyMetatile
  split
  · rename_i arr heq
    obtain ⟨h1, h2⟩ := copyMetatile_limit arr height
    have htot := foldlM_copy_total arr (min (wrapInt arr.length) height).toNat
      (List.replicate height.toNat 0) h1 (by rw [List.length_replicate]; exact h2)
    refine ⟨htot.1, ?_⟩
    intro htyped
    simp only [fieldHas, heq, metatileTyped] at htyped
    exact htot.2 (fun i item _ hget =>
      List.all_eq_true.mp htyped item (List.getElem?_mem hget))
  · exact ⟨Or.inl ⟨_, rfl⟩, fun _ => ⟨_, rfl⟩⟩

theorem applyRows_total (height : Int) (column : Json) (tiles : List Int)
    (hlen : tiles.length = height.toNat) :
    ((∃ result, applyRows height column tiles = .ok result) ∨
      applyRows height column tiles = .error .jsonTypeError) ∧
    (fieldHas column "rows" rowsTyped = true →
      ∃ result, applyRows height column tiles = .ok result) := by
  unfold applyRows
  split
  · rename_i rows heq
    have htot := foldlM_applyRow_total height rows tiles hlen
    refine ⟨htot.1, ?_⟩
    intro htyped
    simp only [fieldHas, heq, rowsTyped] at htyped
    exact htot.2 htyped
  · exact ⟨Or.inl ⟨_, rfl⟩, fun _ => ⟨_, rfl⟩⟩

theorem columnTemplate_total (height : Int) (column : Json) :
    ((∃ template, columnTemplate height column = .ok template) ∨
      columnTemplate height column = .error .lengthError ∨
      columnTemplate height column = .error .jsonTypeError) ∧
    (0 ≤ height → fieldHas column "metatile" metatileTyped = true →
      fieldHas column "rows" rowsTyped = true →
      ∃ template, columnTemplate height column = .ok template) := by
  unfold columnTemplate
  by_cases hneg : height < 0
  · rw [if_pos hneg]
    exact ⟨Or.inr (Or.inl rfl), fun h0 => absurd hneg (by omega)⟩
  · rw [if_neg hneg]
    obtain ⟨hm1, hm2⟩ := applyMetatile_total height column
    constructor
    · rcases hm1 with ⟨after, ha⟩ | ha
      · have hl := applyMetatile_length height column _ after ha
        rw [List.length_replicate] at hl
        rw [ha]
        rcases (applyRows_total height column after hl).1 with ⟨t, ht⟩ | ht
        · exact Or.inl ⟨t, ht⟩
        · exact Or.inr (Or.inr ht)
      · rw [ha]
        exact Or.inr (Or.inr rfl)
    · intro _ hmt hrt
      obtain ⟨after, ha⟩ := hm2 hmt
      have hl := applyMetatile_length height column _ after ha
      rw [List.length_replicate] at hl
      rw [ha]
      exact (applyRows_total height column after hl).2 hrt

/-! ### Reads depend on the member only -/

theorem valueInt_congr (d1 d2 : Json) (key : String) (dflt : Int)
    (h1 : d1.isObject = true) (h2 : d2.isObject = true) (h : d1.find key = d2.find key) :
    d1.valueInt key dflt = d2.valueInt key dflt := by
  cases hf : d2.find key with
  | some member =>
    rw [valueInt_of_find d2 key dflt member hf, valueInt_of_find d1 key dflt member (h.trans hf)]
  | none =>
    rw [valueInt_of_absent d2 key dflt h2 hf, valueInt_of_absent d1 key dflt h1 (h.trans hf)]

theorem valueString_congr (d1 d2 : Json) (key : String) (dflt : String)
    (h1 : d1.isObject = true) (h2 : d2.isObject = true) (h : d1.find key = d2.find key) :
    d1.valueString key dflt = d2.valueString key dflt := by
  cases hf : d2.find key with
  | some member =>
    rw [valueString_of_find d2 key dflt member hf,
      valueString_of_find d1 key dflt member (h.trans hf)]
  | none =>
    rw [valueString_of_absent d2 key dflt h2 hf,
      valueString_of_absent d1 key dflt h1 (h.trans hf)]

theorem valueIntArray_congr (d1 d2 : Json) (key : String) (dflt : List Int)
    (h1 : d1.isObject = true) (h2 : d2.isObject = true) (h : d1.find key = d2.find key) :
    d1.valueIntArray key dflt = d2.valueIntArray key dflt := by
  cases d1 with
  | obj m1 =>
    cases d2 with
    | obj m2 =>
      simp only [Json.find] at h
      simp only [Json.valueIntArray, h]
    | null => cases h2
    | bool b => cases h2
    | int n => cases h2
    | float t s => cases h2
    | str s => cases h2
    | arr l => cases h2
  | null => cases h1
  | bool b => cases h1
  | int n => cases h1
  | float t s => cases h1
  | str s => cases h1
  | arr l => cases h1

theorem valueJson_congr (d1 d2 : Json) (key : String) (dflt : Json)
    (h1 : d1.isObject = true) (h2 : d2.isObject = true) (h : d1.find key = d2.find key) :
    d1.valueJson key dflt = d2.valueJson key dflt := by
  cases d1 with
  | obj m1 =>
    cases d2 with
    | obj m2 =>
      simp only [Json.find] at h
      simp only [Json.valueJson, h]
    | null => cases h2
    | bool b => cases h2
    | int n => cases h2
    | float t s => cases h2
    | str s => cases h2
    | arr l => cases h2
  | null => cases h1
  | bool b => cases h1
  | int n => cases h1
  | float t s => cases h1
  | str s => cases h1
  | arr l => cases h1

theorem decodeTiled_first_layer (world stage : Int) (doc1 doc2 layer : Json)
    (rest1 rest2 : List Json)
    (hl1 : doc1.find "layers" = some (.arr (layer :: rest1)))
    (hl2 : doc2.find "layers" = some (.arr (layer :: rest2)))
    (hsame : ∀ key, key ≠ "layers" → doc1.find key = doc2.find key) :
    decodeTiled world stage doc1 = decodeTiled world stage doc2 := by
  have h1 := isObject_of_find doc1 _ _ hl1
  have h2 := isObject_of_find doc2 _ _ hl2
  have e1 : ∀ d, doc1.valueInt "tilewidth" d = doc2.valueInt "tilewidth" d :=
    fun d => valueInt_congr doc1 doc2 _ d h1 h2 (hsame _ (by decide))
  have e2 : ∀ d, doc1.valueInt "tileWidth" d = doc2.valueInt "tileWidth" d :=
    fun d => valueInt_congr doc1 doc2 _ d h1 h2 (hsame _ (by decide))
  have e3 : ∀ d, doc1.valueInt "tileheight" d = doc2.valueInt "tileheight" d :=
    fun d => valueInt_congr doc1 doc2 _ d h1 h2 (hsame _ (by decide))
  have e4 : ∀ d, doc1.valueInt "tileHeight" d = doc2.valueInt "tileHeight" d :=
    fun d => valueInt_congr doc1 doc2 _ d h1 h2 (hsame _ (by decide))
  have e5 : ∀ d, doc1.valueInt "width" d = doc2.valueInt "width" d :=
    fun d => valueInt_congr doc1 doc2 _ d h1 h2 (hsame _ (by decide))
  have e6 : ∀ d, doc1.valueInt "height" d = doc2.valueInt "height" d :=
    fun d => valueInt_congr doc1 doc2 _ d h1 h2 (hsame _ (by decide))
  have e7 : ∀ d, doc1.valueString "tileset" d = doc2.valueString "tileset" d :=
    fun d => valueString_congr doc1 doc2 _ d h1 h2 (hsame _ (by decide))
  have e8 : ∀ d, doc1.valueIntArray "solidGids" d = doc2.valueIntArray "solidGids" d :=
    fun d => valueIntArray_congr doc1 doc2 _ d h1 h2 (hsame _ (by decide))
  have e9 : ∀ d, doc1.valueJson "entities" d = doc2.valueJson "entities" d :=
    fun d => valueJson_congr doc1 doc2 _ d h1 h2 (hsame _ (by decide))
  unfold decodeTiled decodeTiledLayers
  simp only [hl1, hl2, e1, e2, e3, e4, e5, e6, e7, e8, e9]

/-! ### Area decoder: the computed width -/

theorem columnRepeat_eq (column : Json) (count : Int)
    (h : columnRepeat column = .ok count) : count = repeatCount column := by
  unfold columnRepeat at h
  unfold repeatCount
  cases hv : column.valueInt "repeat" 1 with
  | error e => simp [hv, bind, Except.bind] at h
  | ok raw =>
    simp only [hv, bind, Except.bind, pure, Except.pure, Except.ok.injEq] at h
    exact h.symm

theorem repeatCount_ge_one (column : Json) : 1 ≤ repeatCount column := by
  unfold repeatCount
  cases column.valueInt "repeat" 1 with
  | error e => exact le_refl 1
  | ok raw => exact le_max_left 1 raw

theorem repeatSum_ge_length (columns : List Json) :
    (columns.length : Int) ≤ (columns.map repeatCount).sum := by
  induction columns with
  | nil => simp
  | cons column rest ih =>
    have := repeatCount_ge_one column
    simp only [List.length_cons, List.map_cons, List.sum_cons, Nat.cast_add, Nat.cast_one]
    omega

theorem outputColumns_count (height : Int) (columns : List Json) :
    ∀ cols, outputColumns height columns = .ok cols →
      (cols.length : Int) = (columns.map repeatCount).sum ∧ (columns ≠ [] → 0 ≤ height) := by
  induction columns with
  | nil =>
    intro cols h
    simp only [outputColumns, Except.ok.injEq] at h
    subst h
    exact ⟨by simp, fun hne => absurd rfl hne⟩
  | cons column rest ih =>
    intro cols h
    unfold outputColumns at h
    cases hr : columnRepeat column with
    | error e => simp [hr] at h
    | ok count =>
      cases ht : columnTemplate height column with
      | error e => simp [hr, ht] at h
      | ok template =>
        cases ho : outputColumns height rest with
        | error e => simp [hr, ht, ho] at h
        | ok others =>
          simp only [hr, ht, ho, Except.ok.injEq] at h
          subst h
          have hge := columnRepeat_ge_one column count hr
          have hcount := columnRepeat_eq column count hr
          refine ⟨?_, fun _ => (columnTemplate_length height column template ht).1⟩
          simp only [List.length_append, List.length_replicate, Nat.cast_add, List.map_cons,
            List.sum_cons, (ih others ho).1, ← hcount]
          omega

theorem flatten_length_const (n : Nat) (cols : List (List Int))
    (h : ∀ c ∈ cols, c.length = n) : cols.flatten.length = cols.length * n := by
  induction cols with
  | nil => simp
  | cons c cs ih =>
    simp only [List.flatten_cons, List.length_append, List.length_cons,
      h c (List.mem_cons_self c cs), ih (fun d hd => h d (List.mem_cons_of_mem c hd))]
    rw [Nat.succ_mul]
    omega

theorem foldlM_expandColumn_range (height : Int) (columns : List Json) :
    ∀ (state result : Int × List Int), InIntRange state.1 →
    columns.foldlM (expandColumn height) state = .ok result → InIntRange result.1 := by
  induction columns with
  | nil =>
    intro state result hs h
    simp only [List.foldlM_nil, pure, Except.pure, Except.ok.injEq] at h
    subst h
    exact hs
  | cons column rest ih =>
    intro state result hs h
    rw [List.foldlM_cons, expandColumn_eq] at h
    cases hr : columnRepeat column with
    | error e => simp [hr, bind, Except.bind] at h
    | ok count =>
      cases ht : columnTemplate height column with
      | error e => simp [hr, ht, bind, Except.bind] at h
      | ok template =>
        simp only [hr, ht, bind, Except.bind] at h
        exact ih _ result (wrapInt_inRange _) h

theorem area_fold_facts (height : Int) (columns : List Json) (state : Int × List Int)
    (h : columns.foldlM (expandColumn height) (0, []) = .ok state) :
    ∃ cols, outputColumns height columns = .ok cols ∧ state.2 = cols.flatten ∧
      (cols.length : Int) = (columns.map repeatCount).sum ∧
      (state.2.length : Int) = (columns.map repeatCount).sum * ((height.toNat : Nat) : Int) ∧
      (columns ≠ [] → 0 ≤ height) ∧
      InIntRange state.1 ∧
      state.1 % 4294967296 = (columns.map repeatCount).sum % 4294967296 := by
  obtain ⟨cols, hout, h2, h1⟩ := foldlM_expandColumn height columns (0, []) state h
  obtain ⟨hcount, hheight⟩ := outputColumns_count height columns cols hout
  have hlen := outputColumns_length height columns cols hout
  have hrange := foldlM_expandColumn_range height columns (0, []) state (by decide) h
  refine ⟨cols, hout, by simpa using h2, hcount, ?_, hheight, hrange, ?_⟩
  · have : state.2 = cols.flatten := by simpa using h2
    rw [this, flatten_length_const height.toNat cols hlen, ← hcount]
    push_cast
    rfl
  · rw [h1, ← hcount]
    simp

theorem area_computed_width (height : Int) (columns : List Json) (state : Int × List Int)
    (h : columns.foldlM (expandColumn height) (0, []) = .ok state)
    (hsum : (columns.map repeatCount).sum ≤ INT_MAX) :
    state.1 = (columns.map repeatCount).sum := by
  obtain ⟨_, _, _, _, _, _, hrange, hmod⟩ := area_fold_facts height columns state h
  have hlo := repeatSum_ge_length columns
  unfold InIntRange INT_MIN INT_MAX at hrange
  unfold INT_MAX at hsum
  omega

theorem decodeArea_of_steps (world stage : Int) (doc : Json)
    (tileWidth tileHeight height declared : Int) (tilesetPath : String)
    (columns : List Json) (state : Int × List Int) (solid flags : List Int)
    (source : Json) (entities : List EntityDefinition)
    (h1 : doc.valueInt "tileWidth" 16 = .ok tileWidth)
    (h2 : doc.valueInt "tileHeight" 16 = .ok tileHeight)
    (h3 : doc.valueInt "height" 0 = .ok height)
    (h4 : doc.valueString "tileset" "" = .ok tilesetPath)
    (h5 : doc.find "columns" = some (.arr columns))
    (h6 : columns.foldlM (expandColumn height) (0, []) = .ok state)
    (h7 : doc.valueInt "width" state.1 = .ok declared)
    (h8 : wrapInt state.2.length = wrapInt (resolveWidth declared state.1 * height))
    (h9 : doc.valueIntArray "solidGids" [] = .ok solid)
    (h10 : buildCollisionFlags state.2 solid = .ok flags)
    (h11 : doc.valueJson "entities" (.arr []) = .ok source)
    (h12 : parseEntities source = .ok entities) :
    decodeArea world stage doc =
      .ok { world := world, stage := stage, width := resolveWidth declared state.1,
            height := height, tileWidth := tileWidth, tileHeight := tileHeight,
            tilesetPath := tilesetPath, tiles := state.2, collisionFlags := flags,
            entities := entities } := by
  simp only [decodeArea, h1, h2, h3, h4, bind, Except.bind, decodeAreaColumns, h5, h6, h7,
    h8, ne_eq, not_true_eq_false, if_false, h9, h10, h11, h12, pure, Except.pure]

theorem wideDoc_fold :
    [Json.obj [("repeat", .int 2147483647)], Json.obj [("repeat", .int 1)]].foldlM
      (expandColumn 0) (0, []) = .ok (-2147483648, []) := by
  have r1 : columnRepeat (.obj [("repeat", .int 2147483647)]) = .ok 2147483647 := by decide
  have r2 : columnRepeat (.obj [("repeat", .int 1)]) = .ok 1 := by decide
  have t1 : columnTemplate 0 (.obj [("repeat", .int 2147483647)]) = .ok [] := by decide
  have t2 : columnTemplate 0 (.obj [("repeat", .int 1)]) = .ok [] := by decide
  have w1 : wrapInt (0 + 2147483647) = 2147483647 := by decide
  have w2 : wrapInt (2147483647 + 1) = -2147483648 := by decide
  simp only [List.foldlM_cons, List.foldlM_nil, expandColumn_eq, r1, r2, t1, t2, bind,
    Except.bind, List.flatten_replicate_nil, List.append_nil, w1, w2, pure, Except.pure]

theorem wideDoc_decodes :
    decodeArea 1 1 wideDoc =
      .ok { world := 1, stage := 1, width := -2147483648, height := 0, tileWidth := 16,
            tileHeight := 16, tilesetPath := "", tiles := [], collisionFlags := [0],
            entities := [] } :=
  decodeArea_of_steps 1 1 wideDoc 16 16 0 (-2147483648) ""
    [.obj [("repeat", .int 2147483647)], .obj [("repeat", .int 1)]] (-2147483648, [])
    [] [0] (.arr []) [] (by decide) (by decide) (by decide) (by decide) rfl wideDoc_fold
    (by decide) (by decide) (by decide) (by decide) rfl rfl

/-! ### Area decoder: when the dimension check fails -/

theorem except_bind_error {α β : Type} (m : Except Error α) (k : α → Except Error β)
    (e : Error) (h : (m >>= k) = .error e) :
    m = .error e ∨ ∃ a, m = .ok a ∧ k a = .error e := by
  cases m with
  | error e2 =>
    left
    simpa [bind, Except.bind] using h
  | ok a => exact Or.inr ⟨a, rfl, by simpa [bind, Except.bind] using h⟩

theorem valueString_error (doc : Json) (key : String) (dflt : String) (e : Error)
    (h : doc.valueString key dflt = .error e) : e = .jsonTypeError := by
  cases doc with
  | obj members =>
    simp only [Json.valueString] at h
    cases hl : members.lookup key with
    | none => simp [hl] at h
    | some member =>
      rw [hl] at h
      cases member <;> simp [Json.getString] at h <;> exact h.symm
  | null => simp [Json.valueString] at h; exact h.symm
  | bool b => simp [Json.valueString] at h; exact h.symm
  | int n => simp [Json.valueString] at h; exact h.symm
  | float t s => simp [Json.valueString] at h; exact h.symm
  | str s => simp [Json.valueString] at h; exact h.symm
  | arr l => simp [Json.valueString] at h; exact h.symm

theorem expandColumn_error (height : Int) (state : Int × List Int) (column : Json)
    (e : Error) (h : expandColumn height state column = .error e) :
    e = .lengthError ∨ e = .jsonTypeError := by
  rw [expandColumn_eq] at h
  cases hr : columnRepeat column with
  | error e2 =>
    right
    simp only [hr, Except.error.injEq] at h
    subst h
    unfold columnRepeat at hr
    rcases except_bind_error _ _ _ hr with h1 | ⟨raw, _, h1⟩
    · exact valueInt_error _ _ _ _ h1
    · cases h1
  | ok count =>
    rcases (columnTemplate_total height column).1 with ⟨t, ht⟩ | ht | ht
    · simp [hr, ht] at h
    · simp only [hr, ht, Except.error.injEq] at h
      exact Or.inl h.symm
    · simp only [hr, ht, Except.error.injEq] at h
      exact Or.inr h.symm

theorem foldlM_expandColumn_error (height : Int) (columns : List Json) :
    ∀ (state : Int × List Int) (e : Error),
    columns.foldlM (expandColumn height) state = .error e →
    e = .lengthError ∨ e = .jsonTypeError := by
  induction columns with
  | nil => intro state e h; cases h
  | cons column rest ih =>
    intro state e h
    rw [List.foldlM_cons] at h
    rcases except_bind_error _ _ _ h with h1 | ⟨s1, _, h1⟩
    · exact expandColumn_error height state column e h1
    · exact ih s1 e h1

theorem decodeArea_mismatch (world stage : Int) (doc : Json)
    (h : decodeArea world stage doc = .error .areaDimensionMismatch) :
    ∃ columns state declared height,
      doc.find "columns" = some (.arr columns) ∧
      columns.foldlM (expandColumn height) (0, []) = .ok state ∧
      wrapInt state.2.length ≠ wrapInt (resolveWidth declared state.1 * height) := by
  unfold decodeArea at h
  rcases except_bind_error _ _ _ h with h1 | ⟨tw, _, h⟩
  · cases valueInt_error _ _ _ _ h1
  rcases except_bind_error _ _ _ h with h1 | ⟨th, _, h⟩
  · cases valueInt_error _ _ _ _ h1
  rcases except_bind_error _ _ _ h with h1 | ⟨height, _, h⟩
  · cases valueInt_error _ _ _ _ h1
  rcases except_bind_error _ _ _ h with h1 | ⟨ts, _, h⟩
  · cases valueString_error _ _ _ _ h1
  unfold decodeAreaColumns at h
  split at h
  · rename_i columns hcols
    rcases except_bind_error _ _ _ h with h1 | ⟨state, hfold, h⟩
    · rcases foldlM_expandColumn_error height columns _ _ h1 with h2 | h2 <;> cases h2
    rcases except_bind_error _ _ _ h with h1 | ⟨declared, _, h⟩
    · cases valueInt_error _ _ _ _ h1
    by_cases hdim : wrapInt state.2.length ≠ wrapInt (resolveWidth declared state.1 * height)
    · exact ⟨columns, state, declared, height, hcols, hfold, hdim⟩
    · rw [if_neg hdim] at h
      exfalso
      rcases except_bind_error _ _ _ h with h1 | ⟨solid, _, h⟩
      · cases doc with
        | obj members =>
          simp only [Json.valueIntArray] at h1
          split at h1
          · rename_i member _
            cases member with
            | arr items =>
              simp only [Json.getIntArray] at h1
              have : ∀ (l : List Json) (e : Error), getIntList l = .error e →
                  e = .jsonTypeError := by
                intro l
                induction l with
                | nil => intro e he; cases he
                | cons item rest ih =>
                  intro e he
                  unfold getIntList at he
                  cases hg : item.getInt with
                  | error e2 =>
                    simp only [hg, Except.error.injEq] at he
                    rw [← he]
                    exact getInt_error item e2 hg
                  | ok v =>
                    cases hrest : getIntList rest with
                    | error e2 =>
                      simp only [hg, hrest, Except.error.injEq] at he
                      rw [← he]
                      exact ih e2 hrest
                    | ok vs => simp [hg, hrest] at he
              cases this items _ h1
            | null => cases h1
            | bool b => cases h1
            | int n => cases h1
            | float t s => cases h1
            | str s => cases h1
            | obj l => cases h1
          · cases h1
        | null => cases h1
        | bool b => cases h1
        | int n => cases h1
        | float t s => cases h1
        | str s => cases h1
        | arr l => cases h1
      rcases except_bind_error _ _ _ h with h1 | ⟨flags, _, h⟩
      · unfold buildCollisionFlags at h1
        simp only at h1
        split_ifs at h1
        cases h1
      rcases except_bind_error _ _ _ h with h1 | ⟨source, _, h⟩
      · cases doc with
        | obj members =>
          simp only [Json.valueJson] at h1
          split at h1 <;> cases h1
        | null => cases h1
        | bool b => cases h1
        | int n => cases h1
        | float t s => cases h1
        | str s => cases h1
        | arr l => cases h1
      rcases except_bind_error _ _ _ h with h1 | ⟨entities, _, h⟩
      · have hloop : ∀ (l : List Json) (out : List EntityDefinition) (e : Error),
            parseEntitiesLoop l out = .error e → e = .jsonTypeError := by
          intro l
          induction l with
          | nil => intro out e he; cases he
          | cons entry rest ih =>
            intro out e he
            unfold parseEntitiesLoop at he
            cases hp : parseEntity entry with
            | error e2 =>
              simp only [hp, Except.error.injEq] at he
              rw [← he]
              unfold parseEntity at hp
              cases ht : entry.valueString "type" "unknown" with
              | error e3 =>
                simp only [ht, Except.error.injEq] at hp
                rw [← hp]
                exact valueString_error _ _ _ _ ht
              | ok t =>
                cases hx : entry.valueInt "x" 0 with
                | error e3 =>
                  simp only [ht, hx, Except.error.injEq] at hp
                  rw [← hp]
                  exact valueInt_error _ _ _ _ hx
                | ok x =>
                  cases hy : entry.valueInt "y" 0 with
                  | error e3 =>
                    simp only [ht, hx, hy, Except.error.injEq] at hp
                    rw [← hp]
                    exact valueInt_error _ _ _ _ hy
                  | ok y => simp [ht, hx, hy] at hp
            | ok entity =>
              simp only [hp] at he
              exact ih _ e he
        cases source with
        | arr entries => cases hloop entries [] _ h1
        | null => cases h1
        | bool b => cases h1
        | int n => cases h1
        | float t s => cases h1
        | str s => cases h1
        | obj l => cases h1
      · cases h
  · cases h

theorem resolveWidth_of_ne_zero (declared computedWidth : Int) (h : computedWidth ≠ 0) :
    resolveWidth declared computedWidth = computedWidth := by
  unfold resolveWidth
  by_cases hd : declared ≠ computedWidth
  · rw [if_pos hd, if_pos h]
  · rw [if_neg hd]
    exact not_not.mp hd

theorem resolveWidth_zero (declared : Int) : resolveWidth declared 0 = declared := by
  unfold resolveWidth
  by_cases hd : declared ≠ 0
  · simp [hd]
  · simp [hd]

/-! ### Values the decoders store are `int` values -/

theorem getInt_ok_range (j : Json) (v : Int) (h : j.getInt = .ok v) : InIntRange v := by
  cases j with
  | int n =>
    simp only [Json.getInt, Except.ok.injEq] at h
    rw [← h]; exact wrapInt_inRange n
  | float t s =>
    simp only [Json.getInt, Except.ok.injEq] at h
    rw [← h]; exact wrapInt_inRange t
  | bool b =>
    simp only [Json.getInt, Except.ok.injEq] at h
    rw [← h]; cases b <;> decide
  | null => cases h
  | str s => cases h
  | arr l => cases h
  | obj l => cases h

theorem valueInt_ok_range (doc : Json) (key : String) (dflt v : Int)
    (hd : InIntRange dflt) (h : doc.valueInt key dflt = .ok v) : InIntRange v := by
  cases doc with
  | obj members =>
    simp only [Json.valueInt] at h
    cases hl : members.lookup key with
    | none =>
      simp only [hl, Except.ok.injEq] at h
      rw [← h]; exact hd
    | some member =>
      rw [hl] at h
      exact getInt_ok_range member v h
  | null => cases h
  | bool b => cases h
  | int n => cases h
  | float t s => cases h
  | str s => cases h
  | arr l => cases h

theorem getIntList_ok_range (items : List Json) :
    ∀ values, getIntList items = .ok values → ∀ v ∈ values, InIntRange v := by
  induction items with
  | nil =>
    intro values h v hv
    simp only [getIntList, Except.ok.injEq] at h
    subst h
    cases hv
  | cons item rest ih =>
    intro values h v hv
    unfold getIntList at h
    cases hg : item.getInt with
    | error e => simp [hg] at h
    | ok first =>
      cases hr : getIntList rest with
      | error e => simp [hg, hr] at h
      | ok others =>
        simp only [hg, hr, Except.ok.injEq] at h
        subst h
        rcases List.mem_cons.mp hv with h1 | h1
        · rw [h1]; exact getInt_ok_range item first hg
        · exact ih others hr v h1

theorem valueIntArray_ok_range (doc : Json) (key : String) (values : List Int)
    (h : doc.valueIntArray key [] = .ok values) : ∀ v ∈ values, InIntRange v := by
  cases doc with
  | obj members =>
    simp only [Json.valueIntArray] at h
    cases hl : members.lookup key with
    | none =>
      simp only [hl, Except.ok.injEq] at h
      subst h
      intro v hv; cases hv
    | some member =>
      rw [hl] at h
      cases member with
      | arr items => exact getIntList_ok_range items values h
      | null => cases h
      | bool b => cases h
      | int n => cases h
      | float t s => cases h
      | str s => cases h
      | obj l => cases h
  | null => cases h
  | bool b => cases h
  | int n => cases h
  | float t s => cases h
  | str s => cases h
  | arr l => cases h

theorem stoi_ok_range (text : List Char) (v : Int) (h : stoi text = .ok v) :
    InIntRange v := by
  unfold stoi at h
  unfold InIntRange
  simp only at h
  split_ifs at h <;> (simp only [Except.ok.injEq] at h; rw [← h]; assumption)

theorem cellValue_ok_range (cell : List Char) (v : Int) (h : cellValue cell = .ok v) :
    InIntRange v := by
  unfold cellValue at h
  simp only at h
  split_ifs at h
  · simp only [Except.ok.injEq] at h
    rw [← h]; decide
  · exact stoi_ok_range _ v h

theorem mapExcept_ok_mem {α β : Type} (f : α → Except Error β) (l : List α) :
    ∀ out, mapExcept f l = .ok out → ∀ b ∈ out, ∃ a ∈ l, f a = .ok b := by
  induction l with
  | nil =>
    intro out h b hb
    simp only [mapExcept, Except.ok.injEq] at h
    subst h
    cases hb
  | cons x xs ih =>
    intro out h b hb
    unfold mapExcept at h
    cases hx : f x with
    | error e => simp [hx] at h
    | ok first =>
      cases hxs : mapExcept f xs with
      | error e => simp [hx, hxs] at h
      | ok others =>
        simp only [hx, hxs, Except.ok.injEq] at h
        subst h
        rcases List.mem_cons.mp hb with h1 | h1
        · exact ⟨x, List.mem_cons_self x xs, by rw [h1]; exact hx⟩
        · obtain ⟨a, ha, hfa⟩ := ih others hxs b h1
          exact ⟨a, List.mem_cons_of_mem x ha, hfa⟩

theorem parseCsv_ok_range (data : String) (tiles : List Int)
    (h : parseCsv data = .ok tiles) : ∀ t ∈ tiles, InIntRange t := by
  rw [parseCsv_eq] at h
  intro t ht
  obtain ⟨cell, _, hcell⟩ := mapExcept_ok_mem cellValue _ tiles h t ht
  exact cellValue_ok_range cell t hcell

/-! ### The mask of a returned level -/

theorem buildCollisionFlags_ok (tiles solid flags : List Int)
    (ht : ∀ t ∈ tiles, InIntRange t) (hs : ∀ s ∈ solid, InIntRange s)
    (h : buildCollisionFlags tiles solid = .ok flags) :
    flags ≠ [] ∧ (∀ x ∈ flags, x = 0 ∨ x = 1) ∧
      ∀ t ∈ tiles, t < (flags.length : Int) := by
  have hmax0 : 0 ≤ maxGidOf tiles solid := by
    unfold maxGidOf
    exact le_trans (foldl_max_ge_init tiles 0) (foldl_max_ge_init solid _)
  have hmaxhi : maxGidOf tiles solid < INT_MAX + 1 := by
    unfold maxGidOf
    refine foldl_max_lt solid _ _ (foldl_max_lt tiles 0 _ (by decide) ?_) ?_
    · intro t htm
      have := (ht t htm).2
      omega
    · intro s hsm
      have := (hs s hsm).2
      omega
  have hcount : 0 ≤ wrapInt (maxGidOf tiles solid + 1) := by
    unfold buildCollisionFlags at h
    simp only at h
    split_ifs at h with hneg
    omega
  have hlt : maxGidOf tiles solid < INT_MAX := by
    unfold INT_MAX at hmaxhi ⊢
    unfold wrapInt at hcount
    omega
  have hge : ∀ t ∈ tiles, t ≤ maxGidOf tiles solid := by
    intro t htm
    unfold maxGidOf
    exact le_trans (foldl_max_ge_mem tiles 0 t htm) (foldl_max_ge_init solid _)
  have hge2 : ∀ s ∈ solid, s ≤ maxGidOf tiles solid := by
    intro s hsm
    unfold maxGidOf
    exact foldl_max_ge_mem solid _ s hsm
  obtain ⟨flags2, hf2, hlen, hbits, _⟩ := buildCollisionFlags_spec tiles solid
    (fun t htm => lt_of_le_of_lt (hge t htm) hlt)
    (fun s hsm => lt_of_le_of_lt (hge2 s hsm) hlt)
  rw [h] at hf2
  cases hf2
  refine ⟨?_, hbits, ?_⟩
  · intro hnil
    rw [hnil] at hlen
    simp only [List.length_nil, Nat.cast_zero] at hlen
    omega
  · intro t htm
    have := hge t htm
    omega

theorem rowGid_range (row : Json) : InIntRange (rowGid row) := by
  unfold rowGid
  cases h : row.valueInt "gid" 0 with
  | error e => exact (by decide : InIntRange 0)
  | ok gid => exact valueInt_ok_range row "gid" 0 gid (by decide) h

theorem applyMetatile_range (height : Int) (column : Json) (tiles after : List Int)
    (htiles : ∀ x ∈ tiles, InIntRange x)
    (h : applyMetatile height column tiles = .ok after) : ∀ x ∈ after, InIntRange x := by
  unfold applyMetatile at h
  split at h
  · rename_i arr _
    unfold copyMetatile at h
    obtain ⟨_, hlow, hhigh⟩ := foldlM_copy arr _ tiles after h
    intro x hx
    obtain ⟨y, hy⟩ := List.mem_iff_getElem?.mp hx
    by_cases hlim : y < (min (wrapInt arr.length) height).toNat
    · obtain ⟨item, value, _, hget, hval⟩ := hlow y hlim
      have hx2 : value = x := Option.some.inj (hval.symm.trans hy)
      rw [← hx2]
      exact getInt_ok_range item value hget
    · rw [hhigh y (by omega)] at hy
      exact htiles x (List.getElem?_mem hy)
  · simp only [Except.ok.injEq] at h
    rw [← h]
    exact htiles

theorem applyRows_range (height : Int) (column : Json) (tiles template : List Int)
    (htiles : ∀ x ∈ tiles, InIntRange x)
    (h : applyRows height column tiles = .ok template) : ∀ x ∈ template, InIntRange x := by
  obtain ⟨_, hval⟩ := applyRows_spec height column tiles template h
  intro x hx
  obtain ⟨y, hy⟩ := List.mem_iff_getElem?.mp hx
  rw [hval y] at hy
  cases hfind : (columnRows column).reverse.find? (fun row => rowCovers height row y) with
  | some row =>
    simp only [hfind, Option.some.injEq] at hy
    rw [← hy]
    exact rowGid_range row
  | none =>
    simp only [hfind] at hy
    exact htiles x (List.getElem?_mem hy)

theorem columnTemplate_range (height : Int) (column : Json) (template : List Int)
    (h : columnTemplate height column = .ok template) : ∀ x ∈ template, InIntRange x := by
  obtain ⟨_, after, h1, h2⟩ := columnTemplate_stages height column template h
  have hzero : ∀ x ∈ List.replicate height.toNat (0 : Int), InIntRange x := by
    intro x hx
    rw [List.eq_of_mem_replicate hx]
    decide
  exact applyRows_range height column after template
    (applyMetatile_range height column _ after hzero h1) h2

theorem outputColumns_range (height : Int) (columns : List Json) :
    ∀ cols, outputColumns height columns = .ok cols →
      ∀ col ∈ cols, ∀ x ∈ col, InIntRange x := by
  induction columns with
  | nil =>
    intro cols h col hcol
    simp only [outputColumns, Except.ok.injEq] at h
    subst h
    cases hcol
  | cons column rest ih =>
    intro cols h col hcol
    unfold outputColumns at h
    cases hr : columnRepeat column with
    | error e => simp [hr] at h
    | ok count =>
      cases ht : columnTemplate height column with
      | error e => simp [hr, ht] at h
      | ok template =>
        cases ho : outputColumns height rest with
        | error e => simp [hr, ht, ho] at h
        | ok others =>
          simp only [hr, ht, ho, Except.ok.injEq] at h
          subst h
          rcases List.mem_append.mp hcol with h1 | h1
          · rw [List.eq_of_mem_replicate h1]
            exact columnTemplate_range height column template ht
          · exact ih others ho col h1

theorem decodeArea_mask (world stage : Int) (doc : Json) (level : LevelDefinition)
    (h : decodeArea world stage doc = .ok level) :
    (∀ t ∈ level.tiles, InIntRange t) ∧
      ∃ solid, (∀ s ∈ solid, InIntRange s) ∧
        buildCollisionFlags level.tiles solid = .ok level.collisionFlags := by
  obtain ⟨columns, cols, _, hout, htiles⟩ := decodeArea_tiles world stage doc level h
  obtain ⟨_, _, _, solid, _, _, _, _, _, _, _, hsolid, hflags⟩ :=
    decodeArea_ok world stage doc level h
  refine ⟨?_, solid, valueIntArray_ok_range doc "solidGids" solid hsolid, hflags⟩
  intro t ht
  rw [htiles] at ht
  obtain ⟨col, hcol, htcol⟩ := List.mem_flatten.mp ht
  exact outputColumns_range level.height columns cols hout col hcol t htcol

theorem decodeTiled_mask (world stage : Int) (doc : Json) (level : LevelDefinition)
    (h : decodeTiled world stage doc = .ok level) :
    (∀ t ∈ level.tiles, InIntRange t) ∧
      ∃ solid, (∀ s ∈ solid, InIntRange s) ∧
        buildCollisionFlags level.tiles solid = .ok level.collisionFlags := by
  unfold decodeTiled at h
  obtain ⟨a1, _, h⟩ := except_bind_ok _ _ _ h
  obtain ⟨a2, _, h⟩ := except_bind_ok _ _ _ h
  obtain ⟨a3, _, h⟩ := except_bind_ok _ _ _ h
  obtain ⟨a4, _, h⟩ := except_bind_ok _ _ _ h
  obtain ⟨width, _, h⟩ := except_bind_ok _ _ _ h
  obtain ⟨height, _, h⟩ := except_bind_ok _ _ _ h
  obtain ⟨ts, _, h⟩ := except_bind_ok _ _ _ h
  unfold decodeTiledLayers at h
  split at h
  · rename_i layer rest _
    obtain ⟨encoding, _, h⟩ := except_bind_ok _ _ _ h
    by_cases henc : encoding ≠ "csv"
    · simp [henc] at h
    · rw [if_neg henc] at h
      obtain ⟨data, _, h⟩ := except_bind_ok _ _ _ h
      obtain ⟨tiles, hparse, h⟩ := except_bind_ok _ _ _ h
      by_cases hdim : wrapInt tiles.length ≠ wrapInt (width * height)
      · simp [hdim] at h
      · rw [if_neg hdim] at h
        obtain ⟨solid, hsolid, h⟩ := except_bind_ok _ _ _ h
        obtain ⟨flags, hflags, h⟩ := except_bind_ok _ _ _ h
        obtain ⟨source, _, h⟩ := except_bind_ok _ _ _ h
        obtain ⟨entities, _, h⟩ := except_bind_ok _ _ _ h
        simp only [pure, Except.pure, Except.ok.injEq] at h
        subst h
        exact ⟨parseCsv_ok_range data tiles hparse, solid,
          valueIntArray_ok_range doc "solidGids" solid hsolid, hflags⟩
  · cases h

theorem loadTiledJson_ok (am : AssetManager) (world stage : Int) (path : String)
    (level : LevelDefinition) (h : loadTiledJson am world stage path = .ok level) :
    ∃ doc, readAsset am path = .ok doc ∧ decodeTiled world stage doc = .ok level := by
  unfold loadTiledJson at h
  cases hr : readAsset am path with
  | error e => simp [hr] at h
  | ok doc => exact ⟨doc, rfl, by simpa [hr] using h⟩

theorem loadAreaJson_ok (am : AssetManager) (world stage : Int) (path : String)
    (level : LevelDefinition) (h : loadAreaJson am world stage path = .ok level) :
    ∃ doc, readAsset am path = .ok doc ∧ decodeArea world stage doc = .ok level := by
  unfold loadAreaJson at h
  cases hr : readAsset am path with
  | error e => simp [hr] at h
  | ok doc => exact ⟨doc, rfl, by simpa [hr] using h⟩

/-! ### Cells that start with an integer -/

theorem takeWhile_isEmpty_of_headIsDigit (l : List Char) (h : headIsDigit l = true) :
    (l.takeWhile isDecDigit).isEmpty = false := by
  cases l with
  | nil => cases h
  | cons a t =>
    simp only [headIsDigit] at h
    simp [List.takeWhile_cons, h]

theorem startsWithInteger_of_leadingInteger_none (text : List Char)
    (h : leadingInteger text = none) : startsWithInteger text = false := by
  unfold leadingInteger at h
  split at h
  · simp only [startsWithInteger]
    split_ifs at h with hd
    simpa using hd
  · simp only [startsWithInteger]
    split_ifs at h with hd
    simpa using hd
  · rename_i hminus hplus
    split_ifs at h with hd
    unfold startsWithInteger
    split
    · exact absurd rfl (hminus _)
    · exact absurd rfl (hplus _)
    · simpa using hd

theorem stoi_of_leadingInteger (text : List Char) (c : Char) (t : List Char)
    (htext : text = c :: t) (hsp : isspace c = false) (n : Int)
    (h : leadingInteger text = some n) :
    stoi text = if InIntRange n then .ok n else .error .stoiOutOfRange := by
  subst htext
  unfold stoi
  simp only [List.dropWhile_cons, hsp, Bool.false_eq_true, if_false]
  unfold leadingInteger at h
  unfold InIntRange
  split at h
  · split_ifs at h with hd
    simp only [Option.some.injEq] at h
    simp only [takeWhile_isEmpty_of_headIsDigit _ hd, Bool.false_eq_true, if_false, if_true, h]
  · split_ifs at h with hd
    simp only [Option.some.injEq] at h
    simp only [takeWhile_isEmpty_of_headIsDigit _ hd, Bool.false_eq_true, if_false, h]
  · split_ifs at h with hd
    simp only [Option.some.injEq] at h
    simp only [takeWhile_isEmpty_of_headIsDigit _ hd, Bool.false_eq_true, if_false, h]

theorem cellValue_of_leadingInteger (cell : List Char) (hne : trimCell cell ≠ []) (n : Int)
    (h : leadingInteger (trimCell cell) = some n) :
    cellValue cell = if InIntRange n then .ok n else .error .stoiOutOfRange := by
  obtain ⟨c, t, hct⟩ := List.exists_cons_of_ne_nil hne
  have hsp := trimCell_head_not_space cell c t hct
  have hemp : (trimCell cell).isEmpty = false := by simpa [List.isEmpty_iff] using hne
  unfold cellValue
  simp only [hemp, Bool.false_eq_true, if_false]
  exact stoi_of_leadingInteger _ c t hct hsp n h

theorem cellValue_unreadable (cell : List Char) (hne : trimCell cell ≠ [])
    (hbad : leadingInteger (trimCell cell) = none ∨
      ∃ n, leadingInteger (trimCell cell) = some n ∧ ¬ InIntRange n) :
    ∃ e, cellValue cell = .error e := by
  rcases hbad with h | ⟨n, h, hn⟩
  · exact ⟨_, cellValue_invalid cell hne (startsWithInteger_of_leadingInteger_none _ h)⟩
  · exact ⟨.stoiOutOfRange, by rw [cellValue_of_leadingInteger cell hne n h, if_neg hn]⟩

theorem parseCsv_error_of_unreadable (data : String) (cell : List Char)
    (hcell : cell ∈ csvCells data.data) (hne : trimCell cell ≠ [])
    (hbad : leadingInteger (trimCell cell) = none ∨
      ∃ n, leadingInteger (trimCell cell) = some n ∧ ¬ InIntRange n) :
    ∃ e, parseCsv data = .error e ∧ e.isMalformedTileData = true := by
  obtain ⟨e, he⟩ := cellValue_unreadable cell hne hbad
  obtain ⟨e2, b, _, hfb, hm⟩ := mapExcept_error_of_mem cellValue _ cell hcell e he
  exact ⟨e2, by rw [parseCsv_eq, hm], cellValue_error_malformed b e2 hfb⟩

theorem mapExcept_cellValue_readable (cells : List (List Char))
    (h : ∀ cell ∈ cells, trimCell cell = [] ∨
      ∃ n, leadingInteger (trimCell cell) = some n ∧ InIntRange n) :
    ∃ values, mapExcept cellValue cells = .ok values ∧
      List.Forall₂ (fun cell value => (trimCell cell = [] ∧ value = 0) ∨
        (trimCell cell ≠ [] ∧ leadingInteger (trimCell cell) = some value)) cells values := by
  induction cells with
  | nil => exact ⟨[], rfl, List.Forall₂.nil⟩
  | cons cell rest ih =>
    obtain ⟨values, hvalues, hrel⟩ := ih (fun c hc => h c (List.mem_cons_of_mem _ hc))
    by_cases hemp : trimCell cell = []
    · have hv : cellValue cell = .ok 0 := by simp [cellValue, hemp]
      exact ⟨0 :: values, by simp [mapExcept, hv, hvalues],
        List.Forall₂.cons (Or.inl ⟨hemp, rfl⟩) hrel⟩
    · rcases h cell (List.mem_cons_self _ _) with h0 | ⟨n, hn, hrange⟩
      · exact absurd h0 hemp
      · have hv : cellValue cell = .ok n := by
          rw [cellValue_of_leadingInteger cell hemp n hn, if_pos hrange]
        exact ⟨n :: values, by simp [mapExcept, hv, hvalues],
          List.Forall₂.cons (Or.inr ⟨hemp, hn⟩) hrel⟩

/-! ### Tiled decoder: values of the wrong kind -/

theorem valueInt_of_not_object (doc : Json) (key : String) (dflt : Int)
    (h : doc.isObject = false) : doc.valueInt key dflt = .error .jsonTypeError := by
  cases doc with
  | obj members => cases h
  | null => rfl
  | bool b => rfl
  | int n => rfl
  | float t s => rfl
  | str s => rfl
  | arr l => rfl

theorem valueString_of_not_object (doc : Json) (key : String) (dflt : String)
    (h : doc.isObject = false) : doc.valueString key dflt = .error .jsonTypeError := by
  cases doc with
  | obj members => cases h
  | null => rfl
  | bool b => rfl
  | int n => rfl
  | float t s => rfl
  | str s => rfl
  | arr l => rfl

theorem getInt_of_not_numeric (j : Json) (h : j.isNumeric = false) :
    j.getInt = .error .jsonTypeError := by
  cases j with
  | int n => cases h
  | float t s => cases h
  | bool b => cases h
  | null => rfl
  | str s => rfl
  | arr l => rfl
  | obj l => rfl

theorem getString_of_not_string (j : Json) (h : j.isString = false) :
    j.getString = .error .jsonTypeError := by
  cases j with
  | str s => cases h
  | int n => rfl
  | float t s => rfl
  | bool b => rfl
  | null => rfl
  | arr l => rfl
  | obj l => rfl

theorem valueInt_of_untyped (doc : Json) (key : String) (dflt : Int)
    (h : fieldHas doc key Json.isNumeric = false) :
    doc.valueInt key dflt = .error .jsonTypeError := by
  unfold fieldHas at h
  cases hfind : doc.find key with
  | none => rw [hfind] at h; cases h
  | some member =>
    rw [hfind] at h
    rw [valueInt_of_find doc key dflt member hfind]
    exact getInt_of_not_numeric member h

theorem valueString_of_untyped (doc : Json) (key : String) (dflt : String)
    (h : fieldHas doc key Json.isString = false) :
    doc.valueString key dflt = .error .jsonTypeError := by
  unfold fieldHas at h
  cases hfind : doc.find key with
  | none => rw [hfind] at h; cases h
  | some member =>
    rw [hfind] at h
    rw [valueString_of_find doc key dflt member hfind]
    exact getString_of_not_string member h

theorem decodeTiled_of_untyped (world stage : Int) (doc : Json)
    (h : tiledHeaderTyped doc = false) :
    decodeTiled world stage doc = .error .jsonTypeError := by
  cases hobj : doc.isObject with
  | false => simp [decodeTiled, valueInt_of_not_object doc _ _ hobj, bind, Except.bind]
  | true =>
    cases h1 : fieldHas doc "tilewidth" Json.isNumeric with
    | false => simp [decodeTiled, valueInt_of_untyped doc _ _ h1, bind, Except.bind]
    | true =>
      obtain ⟨a1, e1⟩ := valueInt_of_typed doc "tilewidth" 16 hobj h1
      cases h2 : fieldHas doc "tileWidth" Json.isNumeric with
      | false => simp [decodeTiled, e1, valueInt_of_untyped doc _ _ h2, bind, Except.bind]
      | true =>
        obtain ⟨a2, e2⟩ := valueInt_of_typed doc "tileWidth" a1 hobj h2
        cases h3 : fieldHas doc "tileheight" Json.isNumeric with
        | false => simp [decodeTiled, e1, e2, valueInt_of_untyped doc _ _ h3, bind, Except.bind]
        | true =>
          obtain ⟨a3, e3⟩ := valueInt_of_typed doc "tileheight" 16 hobj h3
          cases h4 : fieldHas doc "tileHeight" Json.isNumeric with
          | false =>
            simp [decodeTiled, e1, e2, e3, valueInt_of_untyped doc _ _ h4, bind, Except.bind]
          | true =>
            obtain ⟨a4, e4⟩ := valueInt_of_typed doc "tileHeight" a3 hobj h4
            cases h5 : fieldHas doc "width" Json.isNumeric with
            | false =>
              simp [decodeTiled, e1, e2, e3, e4, valueInt_of_untyped doc _ _ h5, bind,
                Except.bind]
            | true =>
              obtain ⟨a5, e5⟩ := valueInt_of_typed doc "width" 0 hobj h5
              cases h6 : fieldHas doc "height" Json.isNumeric with
              | false =>
                simp [decodeTiled, e1, e2, e3, e4, e5, valueInt_of_untyped doc _ _ h6, bind,
                  Except.bind]
              | true =>
                obtain ⟨a6, e6⟩ := valueInt_of_typed doc "height" 0 hobj h6
                cases h7 : fieldHas doc "tileset" Json.isString with
                | false =>
                  simp [decodeTiled, e1, e2, e3, e4, e5, e6,
                    valueString_of_untyped doc _ _ h7, bind, Except.bind]
                | true =>
                  simp [tiledHeaderTyped, hobj, h1, h2, h3, h4, h5, h6, h7] at h

theorem decodeTiledLayers_typeError (world stage : Int) (doc : Json)
    (tileWidth tileHeight width height : Int) (tilesetPath : String)
    (layer : Json) (rest : List Json)
    (hlayers : doc.find "layers" = some (.arr (layer :: rest)))
    (hbad : layer.isObject = false ∨
      ∃ v, layer.find "encoding" = some v ∧ v.isString = false) :
    decodeTiledLayers world stage doc tileWidth tileHeight width height tilesetPath =
      .error .jsonTypeError := by
  unfold decodeTiledLayers
  rw [hlayers]
  rcases hbad with h | ⟨v, h, hv⟩
  · simp [valueString_of_not_object layer "encoding" "" h, bind, Except.bind]
  · simp [valueString_of_find layer "encoding" "" _ h, getString_of_not_string v hv, bind,
      Except.bind]

/-! ## The claims -/

/-- C1, amended. A Tiled document whose fields have the kinds of the schema,
whose first layer is CSV-encoded with a data string made of exactly `W * H`
comma-separated decimal integers, all of them and all solid ids below the
largest `int`, loads: `loadTiledJson` returns a level whose tiles are those
integers in source order, `W * H` of them. -/
theorem tiled_csv_grid_decodes (am : AssetManager) (path : String) (world stage : Int)
    (doc layer : Json) (rest : List Json) (W H : Int) (T : List Int)
    (hread : readAsset am path = .ok doc)
    (hheader : tiledHeaderTyped doc = true) (htrailer : trailerTyped doc = true)
    (hW : doc.find "width" = some (.int W)) (hH : doc.find "height" = some (.int H))
    (hlayers : doc.find "layers" = some (.arr (layer :: rest)))
    (henc : layer.find "encoding" = some (.str "csv"))
    (hdata : layer.find "data" = some (.str (String.intercalate "," (T.map toString))))
    (hcount : (T.length : Int) = W * H)
    (hT : ∀ t ∈ T, INT_MIN ≤ t ∧ t < INT_MAX)
    (hsolid : ∀ items item g, doc.find "solidGids" = some (.arr items) → item ∈ items →
      item.getInt = .ok g → g < INT_MAX) :
    ∃ level, loadTiledJson am world stage path = .ok level ∧ level.tiles = T ∧
      (level.tiles.length : Int) = W * H := by
  have hobj : doc.isObject = true := isObject_of_find doc _ _ hW
  obtain ⟨tw, th, width, height, ts, hw, hh, hdec⟩ := decodeTiled_of_header world stage doc hheader
  rw [valueInt_of_find doc "width" 0 _ hW] at hw
  rw [valueInt_of_find doc "height" 0 _ hH] at hh
  simp only [Json.getInt, Except.ok.injEq] at hw hh
  simp only [trailerTyped, Bool.and_eq_true] at htrailer
  obtain ⟨solid, hsol, hsolmem⟩ := valueIntArray_of_typed doc "solidGids" hobj htrailer.1
  have hsolid2 : ∀ s ∈ solid, s < INT_MAX := by
    intro s hs
    obtain ⟨items, item, hf, hit, hget⟩ := hsolmem s hs
    exact hsolid items item s hf hit hget
  obtain ⟨flags, hflags, _⟩ := buildCollisionFlags_spec T solid (fun t ht => (hT t ht).2) hsolid2
  obtain ⟨source, entities, hsrc, hent⟩ := entities_of_typed doc hobj htrailer.2
  have hparse := parseCsv_join T (fun t ht => ⟨(hT t ht).1, le_of_lt (hT t ht).2⟩)
  have hdim : wrapInt (T.length : Int) = wrapInt (width * height) := by
    rw [← hw, ← hh, wrapInt_mul_wrapInt, hcount]
  refine ⟨{ world := world, stage := stage, width := width, height := height,
            tileWidth := tw, tileHeight := th, tilesetPath := ts, tiles := T,
            collisionFlags := flags, entities := entities }, ?_, rfl, hcount⟩
  rw [loadTiledJson_of_read am world stage path doc hread, hdec,
    decodeTiledLayers_csv world stage doc tw th width height ts layer rest _ hlayers henc hdata,
    hparse]
  simp [hdim, hsol, hflags, hsrc, hent, bind, Except.bind, pure, Except.pure]

/-- C1, witness: a 2 x 2 document with solid ids and the tiles 1, 2, 3, 4. -/
theorem tiled_csv_grid_decodes_witness :
    ∃ level, loadTiledJson
        (singleAsset (.obj [("width", .int 2), ("height", .int 2),
          ("layers", .arr [.obj [("encoding", .str "csv"), ("data", .str "1,2,3,4")]]),
          ("solidGids", .arr [.int 2])])) 1 1 "levels/world1_stage1.json" = .ok level ∧
      level.tiles = [1, 2, 3, 4] ∧ (level.tiles.length : Int) = 2 * 2 :=
  tiled_csv_grid_decodes _ "levels/world1_stage1.json" 1 1 _
    (.obj [("encoding", .str "csv"), ("data", .str "1,2,3,4")]) [] 2 2 [1, 2, 3, 4]
    rfl (by decide) (by decide) rfl rfl rfl rfl rfl (by decide) (by decide)
    (by
      intro items item g hf hit hget
      have hitems : items = [.int 2] := by
        have h2 : (some (Json.arr [.int 2]) : Option Json) = some (.arr items) := hf
        cases h2; rfl
      subst hitems
      have hitem : item = .int 2 := by simpa using hit
      subst hitem
      cases hget
      decide)

/-- C1, counterexample: a 1 x 1 document whose data string is the single
integer literal `2147483647` satisfies the stated conditions, and
`loadTiledJson` fails on it: the mask size `maxGid + 1` is not an `int`. -/
theorem tiled_csv_grid_counterexample :
    maxGidDoc.find "width" = some (.int 1) ∧ maxGidDoc.find "height" = some (.int 1) ∧
    maxGidDoc.find "layers" = some (.arr [.obj [("encoding", .str "csv"),
      ("data", .str (String.intercalate "," ([(2147483647 : Int)].map toString)))]]) ∧
    loadTiledJson (singleAsset maxGidDoc) 1 1 "levels/world1_stage1.json" =
      .error .lengthError := by
  refine ⟨rfl, rfl, rfl, ?_⟩
  decide

/-- C2, the code at the failing input: a document that declares 65536 x 65536
tiles and carries none passes the dimension check, because the product wraps
to 0 in `int`; the level returned has no tile although `width * height` is
4294967296. -/
theorem tiled_dimension_check_overflow :
    ∃ level, loadTiledJson (singleAsset overflowDoc) 1 1 "levels/world1_stage1.json" =
        .ok level ∧
      level.width = 65536 ∧ level.height = 65536 ∧ level.tiles = [] ∧
      (level.tiles.length : Int) ≠ level.width * level.height :=
  ⟨{ world := 1, stage := 1, width := 65536, height := 65536, tileWidth := 16,
     tileHeight := 16, tilesetPath := "", tiles := [], collisionFlags := [0],
     entities := [] }, by decide, rfl, rfl, rfl, by decide⟩

/-- C3, amended. For tiles `T` and solid ids `S` that are all below the
largest `int`, the mask is built without error, its length is the largest of
0, the elements of `T` and the elements of `S`, plus one, and its entry at
every index `i` is 1 when `i` occurs in `S` and 0 when it does not; ids of `S`
that are no index of the mask change nothing. -/
theorem collision_mask_shape (T S : List Int)
    (hT : ∀ t ∈ T, t < INT_MAX) (hS : ∀ s ∈ S, s < INT_MAX) :
    ∃ flags, buildCollisionFlags T S = .ok flags ∧
      (flags.length : Int) = max 0 (max (maxDefault T 0) (maxDefault S 0)) + 1 ∧
      ∀ i, i < flags.length → flags.getD i 0 = if (i : Int) ∈ S then 1 else 0 := by
  obtain ⟨flags, h1, h2, _, h4⟩ := buildCollisionFlags_spec T S hT hS
  exact ⟨flags, h1, by rw [h2, maxGidOf_eq], h4⟩

/-- C3, witness: tiles 1..4 with the solid ids 2, 9 and -1. -/
theorem collision_mask_shape_witness :
    ∃ flags, buildCollisionFlags [1, 2, 3, 4] [2, 9, -1] = .ok flags ∧
      (flags.length : Int) = max 0 (max (maxDefault [1, 2, 3, 4] 0) (maxDefault [2, 9, -1] 0)) + 1 ∧
      ∀ i, i < flags.length → flags.getD i 0 = if (i : Int) ∈ [2, 9, -1] then 1 else 0 :=
  collision_mask_shape [1, 2, 3, 4] [2, 9, -1] (by decide) (by decide)

/-- C3, counterexample: with only negative ids the mask has one entry, not the
`max(T, default 0), max(S, default 0)` of the formula plus one, which is 0; and
with a tile id equal to the largest `int` no mask is built at all. -/
theorem collision_mask_counterexample :
    (buildCollisionFlags [-1] [-1] = .ok [0] ∧
      ((([0] : List Int).length : Int) ≠ max (maxDefault [-1] 0) (maxDefault [-1] 0) + 1)) ∧
    buildCollisionFlags [2147483647] [] = .error .lengthError := by
  decide

/-- C4. Joining the decimal texts of any list of `int` values with commas and
parsing the result with `parseCsv` gives the list back. -/
theorem csv_round_trip (T : List Int) (h : ∀ t ∈ T, InIntRange t) :
    parseCsv (String.intercalate "," (T.map toString)) = .ok T :=
  parseCsv_join T h

/-- C4, witness: the empty list and a list with a negative value and both
extremes of `int`. -/
theorem csv_round_trip_witness :
    parseCsv (String.intercalate "," (([] : List Int).map toString)) = .ok [] ∧
    parseCsv (String.intercalate "," ([3, -1, 0, 2147483647, -2147483648].map toString)) =
      .ok [3, -1, 0, 2147483647, -2147483648] :=
  ⟨csv_round_trip [] (by decide), csv_round_trip _ (by decide)⟩

/-- C5. The tiles of a level returned by `loadAreaJson` are the concatenation,
in column order, of every column's finished template taken `max(1, repeat)`
times; each of these output columns has `height` entries, so the value of
output column `k` at row `y` is `tiles[k * height + y]`. -/
theorem area_tiles_column_blocks (am : AssetManager) (path : String) (world stage : Int)
    (doc : Json) (level : LevelDefinition)
    (hread : readAsset am path = .ok doc)
    (hload : loadAreaJson am world stage path = .ok level) :
    ∃ columns cols, doc.find "columns" = some (.arr columns) ∧
      outputColumns level.height columns = .ok cols ∧
      level.tiles = cols.flatten ∧
      (∀ col ∈ cols, col.length = level.height.toNat) ∧
      ∀ k y col, cols[k]? = some col → y < level.height.toNat →
        level.tiles[k * level.height.toNat + y]? = col[y]? := by
  rw [loadAreaJson_of_read am world stage path doc hread] at hload
  obtain ⟨columns, cols, hcols, hout, htiles⟩ := decodeArea_tiles world stage doc level hload
  have hlen := outputColumns_length level.height columns cols hout
  refine ⟨columns, cols, hcols, hout, htiles, hlen, ?_⟩
  intro k y col hk hy
  rw [htiles]
  exact flatten_index level.height.toNat cols hlen k y col hk hy

/-- C5, witness: one column with `repeat` 3 and metatile `[1, 2]` at height 2
gives the tiles `[1, 2, 1, 2, 1, 2]`. -/
theorem area_tiles_column_blocks_witness :
    ∃ level, loadAreaJson (singleAsset (areaDoc [repeatColumn])) 1 1
        "levels/world1_stage1.area.json" = .ok level ∧
      level.tiles = [1, 2, 1, 2, 1, 2] ∧
      ∃ columns cols, (areaDoc [repeatColumn]).find "columns" = some (.arr columns) ∧
        outputColumns level.height columns = .ok cols ∧
        level.tiles = cols.flatten ∧
        (∀ col ∈ cols, col.length = level.height.toNat) ∧
        ∀ k y col, cols[k]? = some col → y < level.height.toNat →
          level.tiles[k * level.height.toNat + y]? = col[y]? :=
  ⟨{ world := 1, stage := 1, width := 3, height := 2, tileWidth := 16, tileHeight := 16,
     tilesetPath := "", tiles := [1, 2, 1, 2, 1, 2], collisionFlags := [0, 0, 0],
     entities := [] },
   by decide, rfl,
   area_tiles_column_blocks (singleAsset (areaDoc [repeatColumn]))
     "levels/world1_stage1.area.json" 1 1 (areaDoc [repeatColumn]) _ rfl (by decide)⟩

/-- C6. In the finished template of a column (whose metatile, if any, has a
size that fits an `int`), the value at every row `y` below `height` is the gid
of the last entry of `rows` whose clamped range `[max(0, from),
min(height - 1, to)]` contains `y`, and the metatile value at `y` (0 where the
metatile is absent or too short) when no entry covers `y`. -/
theorem column_template_last_row_wins (height : Int) (column : Json) (template : List Int)
    (hsize : ∀ arr, column.find "metatile" = some (.arr arr) → (arr.length : Int) ≤ INT_MAX)
    (h : columnTemplate height column = .ok template) :
    template.length = height.toNat ∧
      ∀ y, y < height.toNat → template[y]? = some
        (match (columnRows column).reverse.find? (fun row => rowCovers height row y) with
         | some row => rowGid row
         | none => metatileValue column y) :=
  (columnTemplate_spec height column template hsize h).2

/-- C6, witness: the column with `repeat` 3, metatile `[1, 2]` and the override
`{from: 0, to: 0, gid: 9}` at height 2 has the template `[9, 2]`, and the
document made of it loads to the tiles `[9, 2, 9, 2, 9, 2]`. -/
theorem column_template_last_row_wins_witness :
    (columnTemplate 2 overrideColumn = .ok [9, 2] ∧
      ([9, 2] : List Int).length = (2 : Int).toNat ∧
      ∀ y, y < (2 : Int).toNat → ([9, 2] : List Int)[y]? = some
        (match (columnRows overrideColumn).reverse.find?
            (fun row => rowCovers 2 row y) with
         | some row => rowGid row
         | none => metatileValue overrideColumn y)) ∧
    (loadAreaJson (singleAsset (areaDoc [overrideColumn])) 1 1
        "levels/world1_stage1.area.json").map (fun level => level.tiles) =
      .ok [9, 2, 9, 2, 9, 2] :=
  ⟨⟨by decide,
    column_template_last_row_wins 2 overrideColumn [9, 2]
      (by
        intro arr harr
        have h2 : (some (Json.arr [.int 1, .int 2]) : Option Json) = some (.arr arr) := harr
        cases h2
        decide)
      (by decide)⟩,
   by decide⟩

/-- C7. `loadLevelFromAssets` is decided by the two existence probes alone:
the Tiled decoder on `levels/world{W}_stage{S}.json` when that asset exists,
whatever the state of the `.area.json` asset; otherwise the area decoder on
`levels/world{W}_stage{S}.area.json` when that one exists; otherwise the
level-not-found error. -/
theorem format_selection (am : AssetManager) (world stage : Int) :
    loadLevelFromAssets am world stage =
      if assetExists am
          ("levels/world" ++ toString world ++ "_stage" ++ toString stage ++ ".json") then
        loadTiledJson am world stage
          ("levels/world" ++ toString world ++ "_stage" ++ toString stage ++ ".json")
      else if assetExists am
          ("levels/world" ++ toString world ++ "_stage" ++ toString stage ++ ".area.json") then
        loadAreaJson am world stage
          ("levels/world" ++ toString world ++ "_stage" ++ toString stage ++ ".area.json")
      else .error .levelNotFound := by
  unfold loadLevelFromAssets basePath
  rfl

/-- C8, amended. For every document read from the asset, `loadTiledJson`
returns no level in any of these cases. A document that is not an object, or a
header field (a tile size, `width`, `height`, `tileset`) of a kind its read
cannot convert, raises the JSON type error. Otherwise a `layers` that is
absent, not an array or empty raises the missing-layers error. Otherwise a
first layer that is not an object, or whose `encoding` is present and not a
string, raises the JSON type error, and a first layer that is an object whose
`encoding` is absent or a string other than `csv` raises the
unsupported-format error. -/
theorem tiled_layer_errors (am : AssetManager) (path : String) (world stage : Int)
    (doc : Json) (hread : readAsset am path = .ok doc) :
    (tiledHeaderTyped doc = false →
      loadTiledJson am world stage path = .error .jsonTypeError) ∧
    (tiledHeaderTyped doc = true →
      ((doc.find "layers" = none ∨ doc.find "layers" = some (.arr []) ∨
          ∃ v, doc.find "layers" = some v ∧ v.isArray = false) →
        loadTiledJson am world stage path = .error .missingLayers) ∧
      (∀ layer rest, doc.find "layers" = some (.arr (layer :: rest)) →
        ((layer.isObject = false ∨
            ∃ v, layer.find "encoding" = some v ∧ v.isString = false) →
          loadTiledJson am world stage path = .error .jsonTypeError) ∧
        (layer.isObject = true →
          (layer.find "encoding" = none ∨
            ∃ s, layer.find "encoding" = some (.str s) ∧ s ≠ "csv") →
          loadTiledJson am world stage path = .error .unsupportedEncoding))) := by
  rw [loadTiledJson_of_read am world stage path doc hread]
  refine ⟨decodeTiled_of_untyped world stage doc, ?_⟩
  intro hheader
  obtain ⟨tw, th, width, height, ts, _, _, hdec⟩ := decodeTiled_of_header world stage doc hheader
  rw [hdec]
  constructor
  · intro h
    apply decodeTiledLayers_missing
    intro layer rest heq
    rcases h with h | h | ⟨v, h, hv⟩
    · rw [h] at heq; cases heq
    · rw [h] at heq; cases heq
    · rw [h] at heq; cases heq; cases hv
  · intro layer rest hlayers
    exact ⟨decodeTiledLayers_typeError world stage doc tw th width height ts layer rest hlayers,
      decodeTiledLayers_unsupported world stage doc tw th width height ts layer rest hlayers⟩

/-- C8, witness: a document whose `width` is a string; one without `layers`
and one with an empty `layers`; one whose first layer is a number and one
whose first layer has `null` as `encoding`; one whose first layer has no
`encoding` and one whose first layer is `base64`. -/
theorem tiled_layer_errors_witness :
    loadTiledJson (singleAsset (.obj [("width", .str "2"), ("layers", .arr [])])) 1 1
      "a.json" = .error .jsonTypeError ∧
    loadTiledJson (singleAsset (.obj [("width", .int 1)])) 1 1 "a.json" =
      .error .missingLayers ∧
    loadTiledJson (singleAsset (.obj [("layers", .arr [])])) 1 1 "a.json" =
      .error .missingLayers ∧
    loadTiledJson (singleAsset (.obj [("layers", .arr [.int 7])])) 1 1 "a.json" =
      .error .jsonTypeError ∧
    loadTiledJson (singleAsset (.obj [("layers",
      .arr [.obj [("encoding", .null), ("data", .str "1")]])])) 1 1
      "a.json" = .error .jsonTypeError ∧
    loadTiledJson (singleAsset (.obj [("layers", .arr [.obj [("data", .str "1")]])])) 1 1
      "a.json" = .error .unsupportedEncoding ∧
    loadTiledJson (singleAsset (.obj [("layers",
      .arr [.obj [("encoding", .str "base64"), ("data", .str "1")]])])) 1 1
      "a.json" = .error .unsupportedEncoding :=
  ⟨(tiled_layer_errors (singleAsset (.obj [("width", .str "2"), ("layers", .arr [])]))
      "a.json" 1 1 (.obj [("width", .str "2"), ("layers", .arr [])]) rfl).1 (by decide),
   ((tiled_layer_errors (singleAsset (.obj [("width", .int 1)])) "a.json" 1 1
      (.obj [("width", .int 1)]) rfl).2 (by decide)).1 (Or.inl rfl),
   ((tiled_layer_errors (singleAsset (.obj [("layers", .arr [])])) "a.json" 1 1
      (.obj [("layers", .arr [])]) rfl).2 (by decide)).1 (Or.inr (Or.inl rfl)),
   (((tiled_layer_errors (singleAsset (.obj [("layers", .arr [.int 7])])) "a.json" 1 1
      (.obj [("layers", .arr [.int 7])]) rfl).2 (by decide)).2 _ [] rfl).1 (Or.inl rfl),
   (((tiled_layer_errors (singleAsset (.obj [("layers",
        .arr [.obj [("encoding", .null), ("data", .str "1")]])])) "a.json" 1 1
      (.obj [("layers", .arr [.obj [("encoding", .null), ("data", .str "1")]])])
      rfl).2 (by decide)).2 _ [] rfl).1 (Or.inr ⟨.null, rfl, rfl⟩),
   (((tiled_layer_errors (singleAsset (.obj [("layers", .arr [.obj [("data", .str "1")]])]))
      "a.json" 1 1 (.obj [("layers", .arr [.obj [("data", .str "1")]])])
      rfl).2 (by decide)).2 _ [] rfl).2 rfl (Or.inl rfl),
   (((tiled_layer_errors (singleAsset (.obj [("layers",
        .arr [.obj [("encoding", .str "base64"), ("data", .str "1")]])])) "a.json" 1 1
      (.obj [("layers", .arr [.obj [("encoding", .str "base64"), ("data", .str "1")]])])
      rfl).2 (by decide)).2 _ [] rfl).2 rfl (Or.inr ⟨"base64", rfl, by decide⟩)⟩

/-- C8, counterexample: the first layer of `{"layers": [{"encoding": 5}]}` has
an `encoding` that is a value other than `csv`, yet `loadTiledJson` raises the
JSON type error of the string read and not the unsupported-format error. -/
theorem tiled_layer_errors_counterexample :
    numericEncodingDoc.find "layers" = some (.arr [.obj [("encoding", .int 5)]]) ∧
    (Json.obj [("encoding", .int 5)]).find "encoding" = some (.int 5) ∧
    (Json.obj [("encoding", .int 5)]).find "encoding" ≠ some (.str "csv") ∧
    loadTiledJson (singleAsset numericEncodingDoc) 1 1 "levels/world1_stage1.json" =
      .error .jsonTypeError ∧
    loadTiledJson (singleAsset numericEncodingDoc) 1 1 "levels/world1_stage1.json" ≠
      .error .unsupportedEncoding := by
  refine ⟨rfl, rfl, ?_, by decide, by decide⟩
  intro h
  have h2 : some (Json.int 5) = some (Json.str "csv") := h
  cases h2

/-- C9, amended. When a cell read from the data string is not empty after
trimming and does not start with an integer that fits an `int` (no digit after
the optional sign, or digits whose value is outside the `int` range),
`parseCsv` fails with one of the exceptions of `std::stoi`, and so does
`loadTiledJson` on every document with a well-typed header whose first layer
is CSV-encoded with that data string. When every cell is empty after trimming
or starts with an integer that fits an `int`, `parseCsv` returns one value per
cell, in order: 0 for the former, the integer the cell starts with for the
latter, whatever characters follow its digits. -/
theorem csv_cell_without_number_fails (data : String) :
    (∀ cell ∈ csvCells data.data, trimCell cell ≠ [] →
      (leadingInteger (trimCell cell) = none ∨
        ∃ n, leadingInteger (trimCell cell) = some n ∧ ¬ InIntRange n) →
      ∃ e, e.isMalformedTileData = true ∧ parseCsv data = .error e ∧
        ∀ (am : AssetManager) (path : String) (world stage : Int) (doc layer : Json)
          (rest : List Json),
          readAsset am path = .ok doc → tiledHeaderTyped doc = true →
          doc.find "layers" = some (.arr (layer :: rest)) →
          layer.find "encoding" = some (.str "csv") →
          layer.find "data" = some (.str data) →
          loadTiledJson am world stage path = .error e) ∧
    ((∀ cell ∈ csvCells data.data, trimCell cell = [] ∨
        ∃ n, leadingInteger (trimCell cell) = some n ∧ InIntRange n) →
      ∃ values, parseCsv data = .ok values ∧
        List.Forall₂ (fun cell value => (trimCell cell = [] ∧ value = 0) ∨
          (trimCell cell ≠ [] ∧ leadingInteger (trimCell cell) = some value))
          (csvCells data.data) values) := by
  constructor
  · intro cell hcell hne hbad
    obtain ⟨e, he, hmal⟩ := parseCsv_error_of_unreadable data cell hcell hne hbad
    refine ⟨e, hmal, he, ?_⟩
    intro am path world stage doc layer rest hread hheader hlayers henc hdata
    obtain ⟨tw, th, width, height, ts, _, _, hdec⟩ :=
      decodeTiled_of_header world stage doc hheader
    rw [loadTiledJson_of_read am world stage path doc hread, hdec,
      decodeTiledLayers_csv world stage doc tw th width height ts layer rest data hlayers henc
        hdata, he]
  · intro h
    rw [parseCsv_eq]
    exact mapExcept_cellValue_readable _ h

/-- C9, witness: the data string `1, x7 ,3`, whose second cell trims to `x7`;
the data string `99999999999abc`, whose cell starts with an integer beyond the
`int` range; the data string `12abc, ,-7`, whose cells are read as 12, 0
and -7. -/
theorem csv_cell_without_number_fails_witness :
    (∃ e, e.isMalformedTileData = true ∧ parseCsv "1, x7 ,3" = .error e ∧
      ∀ (am : AssetManager) (path : String) (world stage : Int) (doc layer : Json)
        (rest : List Json),
        readAsset am path = .ok doc → tiledHeaderTyped doc = true →
        doc.find "layers" = some (.arr (layer :: rest)) →
        layer.find "encoding" = some (.str "csv") →
        layer.find "data" = some (.str "1, x7 ,3") →
        loadTiledJson am world stage path = .error e) ∧
    (∃ e, e.isMalformedTileData = true ∧ parseCsv "99999999999abc" = .error e ∧
      ∀ (am : AssetManager) (path : String) (world stage : Int) (doc layer : Json)
        (rest : List Json),
        readAsset am path = .ok doc → tiledHeaderTyped doc = true →
        doc.find "layers" = some (.arr (layer :: rest)) →
        layer.find "encoding" = some (.str "csv") →
        layer.find "data" = some (.str "99999999999abc") →
        loadTiledJson am world stage path = .error e) ∧
    (∃ values, parseCsv "12abc, ,-7" = .ok values ∧
      List.Forall₂ (fun cell value => (trimCell cell = [] ∧ value = 0) ∨
        (trimCell cell ≠ [] ∧ leadingInteger (trimCell cell) = some value))
        (csvCells "12abc, ,-7".data) values) :=
  ⟨(csv_cell_without_number_fails "1, x7 ,3").1 " x7 ".data (by decide) (by decide)
      (Or.inl (by decide)),
   (csv_cell_without_number_fails "99999999999abc").1 "99999999999abc".data (by decide)
      (by decide) (Or.inr ⟨99999999999, by decide, by decide⟩),
   (csv_cell_without_number_fails "12abc, ,-7").2 (by
      intro cell hcell
      have hcells : csvCells "12abc, ,-7".data = ["12abc".data, " ".data, "-7".data] := by
        decide
      rw [hcells] at hcell
      simp only [List.mem_cons, List.mem_singleton, List.not_mem_nil, or_false] at hcell
      rcases hcell with h | h | h
      · subst h; exact Or.inr ⟨12, by decide, by decide⟩
      · subst h; exact Or.inl (by decide)
      · subst h; exact Or.inr ⟨-7, by decide, by decide⟩)⟩

/-- C9, counterexample: the only cell of `12abc` is not empty and is the
decimal text of no integer, yet `parseCsv` returns the value 12 for it. -/
theorem csv_cell_without_number_counterexample :
    csvCells "12abc".data = ["12abc".data] ∧ trimCell "12abc".data = "12abc".data ∧
    (∀ n : Int, (toString n).data ≠ "12abc".data) ∧
    parseCsv "12abc" = .ok [12] := by
  refine ⟨by decide, by decide, ?_, by decide⟩
  intro n hn
  have ha : 'a' ∈ (toString n).data := by rw [hn]; decide
  rcases intRepr_chars n 'a' ha with h | h
  · revert h; decide
  · revert h; decide

/-- C10, amended. `parseCsv` returns one value per comma-delimited cell, in
source order, empty cells at the start and in the middle included, but an
empty cell at the very end of the string (after the last comma, or the whole
of an empty string) yields no value. A cell of white space only yields 0, and
a cell that is the decimal text of an `int` between white space yields it. -/
theorem csv_one_value_per_cell (data : String) :
    parseCsv data = mapExcept cellValue (csvCells data.data) ∧
    (∀ cell : List Char, (∀ c ∈ cell, isspace c = true) → cellValue cell = .ok 0) ∧
    (∀ (ws1 ws2 : List Char) (n : Int), (∀ c ∈ ws1, isspace c = true) →
      (∀ c ∈ ws2, isspace c = true) → InIntRange n →
      cellValue (ws1 ++ (toString n).data ++ ws2) = .ok n) :=
  ⟨parseCsv_eq data, cellValue_blank, cellValue_padded_int⟩

/-- C10, witness: `,1, ,-2,,` has five cells before its empty last one. -/
theorem csv_one_value_per_cell_witness :
    parseCsv ",1, ,-2,," = .ok [0, 1, 0, -2, 0] ∧
    cellValue " \t".data = .ok 0 ∧
    cellValue (" ".data ++ (toString (-2 : Int)).data ++ "\n".data) = .ok (-2) :=
  ⟨(csv_one_value_per_cell ",1, ,-2,,").1.trans (by decide),
   (csv_one_value_per_cell "").2.1 _ (by decide),
   (csv_one_value_per_cell "").2.2 _ _ (-2) (by decide) (by decide) (by decide)⟩

/-- C10, counterexample: `1,` has two comma-delimited cells, the second one
empty and at the end of the string, and `parseCsv` returns one value. -/
theorem csv_one_value_per_cell_counterexample :
    splitCells "1,".data = ["1".data, []] ∧ parseCsv "1," = .ok [1] := by
  decide

/-- C11, the code at the failing input: an area document of height 2 with the
columns `[1, 2]` and `[3, 4]` loads to width 2, height 2 and the tiles
`[1, 2, 3, 4]`. The value of column 1 at row 0 is 3, the first entry of the
second template, but the row-major place `0 * width + 1` holds 2; the value 3
sits at the column-major place `1 * height + 0`. -/
theorem area_tiles_not_row_major :
    ∃ level, loadAreaJson (singleAsset twoColumnDoc) 1 1 "levels/world1_stage1.area.json" =
        .ok level ∧
      level.width = 2 ∧ level.height = 2 ∧ level.tiles = [1, 2, 3, 4] ∧
      outputColumns 2 [.obj [("metatile", .arr [.int 1, .int 2])],
        .obj [("metatile", .arr [.int 3, .int 4])]] = .ok [[1, 2], [3, 4]] ∧
      level.tiles[0 * 2 + 1]? = some 2 ∧ level.tiles[1 * 2 + 0]? = some 3 :=
  ⟨{ world := 1, stage := 1, width := 2, height := 2, tileWidth := 16, tileHeight := 16,
     tilesetPath := "", tiles := [1, 2, 3, 4], collisionFlags := [0, 0, 0, 0, 0],
     entities := [] },
   by decide, rfl, rfl, rfl, by decide, rfl, rfl⟩

/-- C12, amended. For a level returned by `loadAreaJson`, the computed width
is the sum over all columns of `max(1, repeat)` (`repeat` read as an `int`,
1 when absent) whenever that sum fits an `int`; the returned width is the
computed width whenever that is not zero, whatever width the document
declares, and with a sum that fits an `int` this is the case for every
non-empty `columns`; with an empty `columns` the returned width is the
declared width, 0 when absent. -/
theorem area_width_is_computed (am : AssetManager) (path : String) (world stage : Int)
    (doc : Json) (level : LevelDefinition)
    (hread : readAsset am path = .ok doc)
    (hload : loadAreaJson am world stage path = .ok level) :
    ∃ columns computedWidth expanded,
      doc.find "columns" = some (.arr columns) ∧
      columns.foldlM (expandColumn level.height) (0, []) = .ok (computedWidth, expanded) ∧
      ((columns.map repeatCount).sum ≤ INT_MAX →
        computedWidth = (columns.map repeatCount).sum) ∧
      (computedWidth ≠ 0 → level.width = computedWidth) ∧
      ((columns.map repeatCount).sum ≤ INT_MAX → columns ≠ [] →
        level.width = (columns.map repeatCount).sum) ∧
      (columns = [] → doc.valueInt "width" 0 = .ok level.width) := by
  rw [loadAreaJson_of_read am world stage path doc hread] at hload
  obtain ⟨columns, state, declared, solid, hcols, _, hfold, _, hdecl, hwidth, _⟩ :=
    decodeArea_ok world stage doc level hload
  refine ⟨columns, state.1, state.2, hcols, hfold, ?_, ?_, ?_, ?_⟩
  · exact area_computed_width level.height columns state hfold
  · intro hne
    rw [hwidth, resolveWidth_of_ne_zero declared state.1 hne]
  · intro hsum hne
    have hcw := area_computed_width level.height columns state hfold hsum
    have hlen := repeatSum_ge_length columns
    have hpos : 0 < columns.length := List.length_pos.mpr hne
    rw [hwidth, resolveWidth_of_ne_zero declared state.1 (by omega), hcw]
  · intro hempty
    subst hempty
    simp only [List.foldlM_nil, pure, Except.pure, Except.ok.injEq] at hfold
    rw [← hfold] at hdecl hwidth
    rw [hwidth, resolveWidth_zero]
    exact hdecl

/-- C12, witness: a document that declares width 7 and has one column repeated
3 times is returned with width 3. -/
theorem area_width_is_computed_witness :
    ∃ level, loadAreaJson (singleAsset declaredWidthDoc) 1 1
        "levels/world1_stage1.area.json" = .ok level ∧ level.width = 3 := by
  have hload : loadAreaJson (singleAsset declaredWidthDoc) 1 1
      "levels/world1_stage1.area.json" =
      .ok { world := 1, stage := 1, width := 3, height := 2, tileWidth := 16,
            tileHeight := 16, tilesetPath := "", tiles := [1, 2, 1, 2, 1, 2],
            collisionFlags := [0, 0, 0], entities := [] } := by decide
  obtain ⟨columns, cw, expanded, hcols, _, _, _, hsum, _⟩ :=
    area_width_is_computed (singleAsset declaredWidthDoc) "levels/world1_stage1.area.json"
      1 1 declaredWidthDoc _ rfl hload
  have hc : columns = [repeatColumn] := by
    have h2 : (some (Json.arr [repeatColumn]) : Option Json) = some (.arr columns) := hcols
    cases h2
    rfl
  subst hc
  exact ⟨_, hload, hsum (by decide) (List.cons_ne_nil _ _)⟩

/-- C12, counterexample: a document of height 0 whose columns repeat
2147483647 times and once is returned with width -2147483648, although the
sum of its `max(1, repeat)` is 2147483648. -/
theorem area_width_counterexample :
    loadAreaJson (singleAsset wideDoc) 1 1 "levels/world1_stage1.area.json" =
      .ok { world := 1, stage := 1, width := -2147483648, height := 0, tileWidth := 16,
            tileHeight := 16, tilesetPath := "", tiles := [], collisionFlags := [0],
            entities := [] } ∧
    ([Json.obj [("repeat", .int 2147483647)], Json.obj [("repeat", .int 1)]].map
      repeatCount).sum = 2147483648 :=
  ⟨(loadAreaJson_of_read (singleAsset wideDoc) 1 1 "levels/world1_stage1.area.json" wideDoc
      rfl).trans wideDoc_decodes, by decide⟩

/-- C13. For an `entities` array whose elements `parseEntities` can read, and
every element whose `properties` is an object (with pairwise distinct keys),
the entity returned for it keeps each string property unchanged, holds `true`
or `false` for each boolean property, has no entry for a property that is
null, an array or an object, and has no key other than those of the string,
number and boolean properties; the skipped properties raise no error. -/
theorem entity_properties_coerced (entries : List Json)
    (htyped : entries.all entityTyped = true) :
    ∃ out, parseEntities (.arr entries) = .ok out ∧
      ∀ (i : Nat) (entry : Json) (members : List (String × Json)),
        entries[i]? = some entry → entry.find "properties" = some (.obj members) →
        (members.map Prod.fst).Nodup →
        ∃ entity, out[i]? = some entity ∧
          (∀ key s, (key, Json.str s) ∈ members → entity.extras.lookup key = some s) ∧
          (∀ key b, (key, Json.bool b) ∈ members →
            entity.extras.lookup key = some (if b then "true" else "false")) ∧
          (∀ key value, (key, value) ∈ members →
            (value = .null ∨ value.isArray = true ∨ value.isObject = true) →
            entity.extras.lookup key = none) ∧
          (∀ key, key ∈ entity.extras.map Prod.fst →
            ∃ value, (key, value) ∈ members ∧
              (value.isString = true ∨ value.isNumeric = true)) := by
  obtain ⟨out, hout, _, hidx⟩ := parseEntities_typed_index entries htyped
  refine ⟨out, hout, ?_⟩
  intro i entry members hentry hprops hnodup
  obtain ⟨entity, hget, hparse⟩ := hidx i entry hentry
  have hextras := (parseEntity_extras entry entity hparse).trans
    (entityExtras_of_properties entry members hprops)
  refine ⟨entity, hget, ?_, ?_, ?_, ?_⟩
  · intro key s hmem
    rw [hextras, foldl_coerce_lookup members [] key _ hnodup hmem]
    rfl
  · intro key b hmem
    rw [hextras, foldl_coerce_lookup members [] key _ hnodup hmem]
    rfl
  · intro key value hmem hkind
    rw [hextras, foldl_coerce_lookup members [] key _ hnodup hmem]
    rcases hkind with h | h | h
    · subst h; rfl
    · cases value <;> first | rfl | cases h
    · cases value <;> first | rfl | cases h
  · intro key hkey
    rw [hextras] at hkey
    rcases foldl_coerce_keys members [] key hkey with h | ⟨value, hmem, hsome⟩
    · simp at h
    · refine ⟨value, hmem, ?_⟩
      cases value with
      | str s => exact Or.inl rfl
      | int n => exact Or.inr rfl
      | float t s => exact Or.inr rfl
      | bool b => exact Or.inr rfl
      | null => cases hsome
      | arr l => cases hsome
      | obj l => cases hsome

/-- C13, witness: one entity with a string, a boolean, a null, an array and an
object property. -/
theorem entity_properties_coerced_witness :
    ∃ out, parseEntities (.arr [.obj [("type", .str "coin"), ("properties",
        .obj [("a", .null), ("b", .bool true), ("c", .arr []), ("d", .obj []),
          ("e", .str "x")])]]) = .ok out ∧
      ∃ entity, out[0]? = some entity ∧
        entity.extras.lookup "e" = some "x" ∧ entity.extras.lookup "b" = some "true" ∧
        entity.extras.lookup "a" = none ∧ entity.extras.lookup "c" = none ∧
        entity.extras.lookup "d" = none := by
  obtain ⟨out, hout, h⟩ := entity_properties_coerced
    [.obj [("type", .str "coin"), ("properties",
      .obj [("a", .null), ("b", .bool true), ("c", .arr []), ("d", .obj []),
        ("e", .str "x")])]] (by decide)
  obtain ⟨entity, hget, h1, h2, h3, _⟩ := h 0 _ _ rfl rfl (by decide)
  exact ⟨out, hout, entity, hget, h1 "e" "x" (by simp), h2 "b" true (by simp),
    h3 "a" .null (by simp) (Or.inl rfl), h3 "c" (.arr []) (by simp) (Or.inr (Or.inl rfl)),
    h3 "d" (.obj []) (by simp) (Or.inr (Or.inr rfl))⟩

/-- C14, amended. For an `entities` array whose elements `parseEntities` can
read, every property whose value is a JSON integer `n` that fits a 32-bit
`int` is stored as the decimal text of `n`. -/
theorem entity_integer_property_text (entries : List Json)
    (htyped : entries.all entityTyped = true) :
    ∃ out, parseEntities (.arr entries) = .ok out ∧
      ∀ (i : Nat) (entry : Json) (members : List (String × Json)),
        entries[i]? = some entry → entry.find "properties" = some (.obj members) →
        (members.map Prod.fst).Nodup →
        ∃ entity, out[i]? = some entity ∧
          ∀ key n, (key, Json.int n) ∈ members → InIntRange n →
            entity.extras.lookup key = some (toString n) := by
  obtain ⟨out, hout, _, hidx⟩ := parseEntities_typed_index entries htyped
  refine ⟨out, hout, ?_⟩
  intro i entry members hentry hprops hnodup
  obtain ⟨entity, hget, hparse⟩ := hidx i entry hentry
  have hextras := (parseEntity_extras entry entity hparse).trans
    (entityExtras_of_properties entry members hprops)
  refine ⟨entity, hget, ?_⟩
  intro key n hmem hn
  rw [hextras, foldl_coerce_lookup members [] key _ hnodup hmem]
  simp only [coercedText, wrapInt_of_inRange n hn]

/-- C14, witness: the property `lives: 5` becomes `"5"`, and `depth: -12`
becomes `"-12"`. -/
theorem entity_integer_property_text_witness :
    ∃ out, parseEntities (.arr [.obj [("properties",
        .obj [("depth", .int (-12)), ("lives", .int 5)])]]) = .ok out ∧
      ∃ entity, out[0]? = some entity ∧
        entity.extras.lookup "lives" = some "5" ∧
        entity.extras.lookup "depth" = some "-12" := by
  obtain ⟨out, hout, h⟩ := entity_integer_property_text
    [.obj [("properties", .obj [("depth", .int (-12)), ("lives", .int 5)])]] (by decide)
  obtain ⟨entity, hget, h1⟩ := h 0 _ _ rfl rfl (by decide)
  exact ⟨out, hout, entity, hget, h1 "lives" 5 (by simp) (by decide),
    h1 "depth" (-12) (by simp) (by decide)⟩

/-- C14, counterexample: the integer property `id: 4294967301` is stored as
`"5"`, not as its decimal text: `get<int>()` narrows it to 32 bits. -/
theorem entity_integer_property_counterexample :
    parseEntities (.arr [.obj [("properties", .obj [("id", .int 4294967301)])]]) =
      .ok [{ type := "unknown", x := 0, y := 0, extras := [("id", "5")] }] ∧
    toString (4294967301 : Int) = "4294967301" := by
  decide

/-- C15. For an `entities` array whose elements `parseEntities` can read, the
result has one entity per element, in the same order; its `type` is the
element's `type`, or `unknown` when absent, and its `x` and `y` are the
element's (32-bit) `x` and `y`, or 0 when absent. A source that is not an
array, and the default used when `entities` is absent, give the empty list. -/
theorem entities_one_per_element (entries : List Json)
    (htyped : entries.all entityTyped = true) :
    (∃ out, parseEntities (.arr entries) = .ok out ∧ out.length = entries.length ∧
      ∀ (i : Nat) (entry : Json), entries[i]? = some entry →
        ∃ entity, out[i]? = some entity ∧
          (∀ s, entry.find "type" = some (.str s) → entity.type = s) ∧
          (entry.find "type" = none → entity.type = "unknown") ∧
          (∀ n, entry.find "x" = some (.int n) → InIntRange n → entity.x = n) ∧
          (entry.find "x" = none → entity.x = 0) ∧
          (∀ n, entry.find "y" = some (.int n) → InIntRange n → entity.y = n) ∧
          (entry.find "y" = none → entity.y = 0)) ∧
    (∀ source : Json, source.isArray = false → parseEntities source = .ok []) ∧
    (∀ doc : Json, doc.isObject = true → doc.find "entities" = none →
      (doc.valueJson "entities" (.arr []) >>= parseEntities) = .ok []) := by
  refine ⟨?_, ?_, ?_⟩
  · obtain ⟨out, hout, hlen, hidx⟩ := parseEntities_typed_index entries htyped
    refine ⟨out, hout, hlen, ?_⟩
    intro i entry hentry
    obtain ⟨entity, hget, hparse⟩ := hidx i entry hentry
    obtain ⟨ht, hx, hy⟩ := parseEntity_fields entry entity hparse
    have hmem : entry ∈ entries := List.getElem?_mem hentry
    have hobj : entry.isObject = true := by
      have := List.all_eq_true.mp htyped entry hmem
      simp only [entityTyped, Bool.and_eq_true] at this
      exact this.1.1.1
    refine ⟨entity, hget, ?_, ?_, ?_, ?_, ?_, ?_⟩
    · intro s hs
      rw [valueString_of_find entry "type" "unknown" _ hs] at ht
      exact (Except.ok.inj ht).symm
    · intro hs
      rw [valueString_of_absent entry "type" "unknown" hobj hs] at ht
      exact (Except.ok.inj ht).symm
    · intro n hn hr
      rw [valueInt_of_find entry "x" 0 _ hn] at hx
      simp only [Json.getInt, wrapInt_of_inRange n hr] at hx
      exact (Except.ok.inj hx).symm
    · intro hn
      rw [valueInt_of_absent entry "x" 0 hobj hn] at hx
      exact (Except.ok.inj hx).symm
    · intro n hn hr
      rw [valueInt_of_find entry "y" 0 _ hn] at hy
      simp only [Json.getInt, wrapInt_of_inRange n hr] at hy
      exact (Except.ok.inj hy).symm
    · intro hn
      rw [valueInt_of_absent entry "y" 0 hobj hn] at hy
      exact (Except.ok.inj hy).symm
  · intro source hsrc
    cases source with
    | arr l => cases hsrc
    | null => rfl
    | bool b => rfl
    | int n => rfl
    | float t s => rfl
    | str s => rfl
    | obj l => rfl
  · intro doc hobj habsent
    cases doc with
    | obj members =>
      simp only [Json.find] at habsent
      simp [Json.valueJson, habsent, bind, Except.bind, parseEntities, parseEntitiesLoop]
    | null => cases hobj
    | bool b => cases hobj
    | int n => cases hobj
    | float t s => cases hobj
    | str s => cases hobj
    | arr l => cases hobj

/-- C15, witness: two elements, the second without `type`, `x` and `y`. -/
theorem entities_one_per_element_witness :
    ∃ out, parseEntities (.arr [.obj [("type", .str "coin"), ("x", .int 3),
        ("y", .int (-4))], .obj []]) = .ok out ∧ out.length = 2 ∧
      (∃ entity, out[0]? = some entity ∧ entity.type = "coin" ∧ entity.x = 3 ∧
        entity.y = -4) ∧
      (∃ entity, out[1]? = some entity ∧ entity.type = "unknown" ∧ entity.x = 0 ∧
        entity.y = 0) := by
  obtain ⟨out, hout, hlen, h⟩ := (entities_one_per_element
    [.obj [("type", .str "coin"), ("x", .int 3), ("y", .int (-4))], .obj []]
    (by decide)).1
  obtain ⟨e0, hg0, a1, _, a3, _, a5, _⟩ := h 0 _ rfl
  obtain ⟨e1, hg1, _, b2, _, b4, _, b6⟩ := h 1 _ rfl
  exact ⟨out, hout, hlen, ⟨e0, hg0, a1 "coin" rfl, a3 3 rfl (by decide),
    a5 (-4) rfl (by decide)⟩, ⟨e1, hg1, b2 rfl, b4 rfl, b6 rfl⟩⟩

/-- C16. For a height `H >= 0` and a column with a `metatile` array `m` (of a
size that fits an `int`, numeric in its first `H` entries) and no `rows`, the
finished template has exactly `H` entries; entry `y` is the value of `m[y]`
for `y < min(len(m), H)` and 0 for `len(m) <= y < H`. A metatile longer than
`H` is cut to its first `H` values, whatever follows them, without error. -/
theorem metatile_template (height : Int) (column : Json) (m : List Json)
    (h0 : 0 ≤ height)
    (hmeta : column.find "metatile" = some (.arr m))
    (hrows : column.find "rows" = none)
    (hsize : (m.length : Int) ≤ INT_MAX)
    (hnum : ∀ item ∈ m.take height.toNat, item.isNumeric = true) :
    ∃ template, columnTemplate height column = .ok template ∧
      template.length = height.toNat ∧
      (∀ (y : Nat) (item : Json), y < height.toNat → m[y]? = some item →
        ∃ value, item.getInt = .ok value ∧ template[y]? = some value) ∧
      (∀ (y : Nat) (n : Int), y < height.toNat → m[y]? = some (.int n) → InIntRange n →
        template[y]? = some n) ∧
      (∀ y : Nat, m.length ≤ y → y < height.toNat → template[y]? = some 0) := by
  have hcopy : ∃ after, applyMetatile height column (List.replicate height.toNat 0) =
      .ok after := by
    unfold applyMetatile
    simp only [hmeta]
    obtain ⟨h1, h2⟩ := copyMetatile_limit m height
    exact (foldlM_copy_total m (min (wrapInt m.length) height).toNat
      (List.replicate height.toNat 0) h1 (by rw [List.length_replicate]; exact h2)).2
      (fun i item hi hget => hnum item (by
        have hi2 : i < height.toNat := by omega
        have : (m.take height.toNat)[i]? = some item := by
          rw [List.getElem?_take_of_lt hi2]; exact hget
        exact List.getElem?_mem this))
  obtain ⟨after, hafter⟩ := hcopy
  have hrowsOk : applyRows height column after = .ok after := by
    simp [applyRows, hrows]
  have htemplate : columnTemplate height column = .ok after := by
    unfold columnTemplate
    rw [if_neg (by omega), hafter]
    exact hrowsOk
  have hsize2 : ∀ arr, column.find "metatile" = some (.arr arr) →
      (arr.length : Int) ≤ INT_MAX := by
    intro arr harr
    rw [hmeta] at harr
    cases harr
    exact hsize
  obtain ⟨_, hlen, hval⟩ := columnTemplate_spec height column after hsize2 htemplate
  have hnorows : columnRows column = [] := by simp [columnRows, hrows]
  have hval2 : ∀ y, y < height.toNat → after[y]? = some (metatileValue column y) := by
    intro y hy
    rw [hval y hy, hnorows]
    rfl
  refine ⟨after, htemplate, hlen, ?_, ?_, ?_⟩
  · intro y item hy hitem
    have hmem : item ∈ m.take height.toNat := by
      have : (m.take height.toNat)[y]? = some item := by
        rw [List.getElem?_take_of_lt hy]; exact hitem
      exact List.getElem?_mem this
    obtain ⟨value, hget, _⟩ := getInt_of_isNumeric item (hnum item hmem)
    refine ⟨value, hget, ?_⟩
    rw [hval2 y hy]
    simp only [metatileValue, hmeta, hitem, hget]
  · intro y n hy hitem hn
    rw [hval2 y hy]
    simp only [metatileValue, hmeta, hitem, Json.getInt, wrapInt_of_inRange n hn]
  · intro y hlo hy
    rw [hval2 y hy]
    have hnone : m[y]? = none := List.getElem?_eq_none_iff.mpr hlo
    simp only [metatileValue, hmeta, hnone]

/-- C16, witness: height 3 with the metatile `[1, 2]` gives `[1, 2, 0]`, and
height 2 with the metatile `[1, 2, 3, "x"]` gives `[1, 2]`. -/
theorem metatile_template_witness :
    (∃ template, columnTemplate 3 (.obj [("metatile", .arr [.int 1, .int 2])]) =
        .ok template ∧ template.length = 3 ∧
      template[0]? = some 1 ∧ template[1]? = some 2 ∧ template[2]? = some 0) ∧
    (∃ template, columnTemplate 2
        (.obj [("metatile", .arr [.int 1, .int 2, .int 3, .str "x"])]) = .ok template ∧
      template.length = 2 ∧ template[0]? = some 1 ∧ template[1]? = some 2) := by
  obtain ⟨t1, a1, a2, _, a4, a5⟩ := metatile_template 3
    (.obj [("metatile", .arr [.int 1, .int 2])]) [.int 1, .int 2]
    (by decide) rfl rfl (by decide) (by decide)
  obtain ⟨t2, b1, b2, _, b4, _⟩ := metatile_template 2
    (.obj [("metatile", .arr [.int 1, .int 2, .int 3, .str "x"])])
    [.int 1, .int 2, .int 3, .str "x"] (by decide) rfl rfl (by decide) (by decide)
  exact ⟨⟨t1, a1, a2, a4 0 1 (by decide) rfl (by decide),
      a4 1 2 (by decide) rfl (by decide), a5 2 (by decide) (by decide)⟩,
    ⟨t2, b1, b2, b4 0 1 (by decide) rfl (by decide), b4 1 2 (by decide) rfl (by decide)⟩⟩

/-- C17, amended. An absent `to` defaults to the clamped `from`: for every
height, column template and `int` values `from` and `gid`, applying the row
range `{from, gid}` gives the same outcome as applying
`{from, to: max(0, from), gid}`, hence as applying `{from, to: from, gid}`
whenever `from >= 0`. -/
theorem absent_to_is_clamped_from (height : Int) (tiles : List Int) (rowFrom gid : Int)
    (hfrom : InIntRange rowFrom) :
    applyRow height tiles (rowRange rowFrom none gid) =
      applyRow height tiles (rowRange rowFrom (some (max 0 rowFrom)) gid) ∧
    (0 ≤ rowFrom →
      applyRow height tiles (rowRange rowFrom none gid) =
        applyRow height tiles (rowRange rowFrom (some rowFrom) gid)) := by
  have hmax : InIntRange (max 0 rowFrom) := by
    unfold InIntRange INT_MIN INT_MAX at hfrom ⊢
    omega
  have key : applyRow height tiles (rowRange rowFrom none gid) =
      applyRow height tiles (rowRange rowFrom (some (max 0 rowFrom)) gid) := by
    simp [applyRow, rowRange, Json.valueInt, List.lookup, Json.getInt,
      wrapInt_of_inRange rowFrom hfrom, wrapInt_of_inRange _ hmax, bind, Except.bind]
  refine ⟨key, ?_⟩
  intro h0
  rw [key, max_eq_right h0]

/-- C17, witness: `{from: 1, gid: 7}` and `{from: 1, to: 1, gid: 7}` on a
column of height 3. -/
theorem absent_to_is_clamped_from_witness :
    applyRow 3 [0, 0, 0] (rowRange 1 none 7) = .ok [0, 7, 0] ∧
    applyRow 3 [0, 0, 0] (rowRange 1 (some 1) 7) = .ok [0, 7, 0] :=
  ⟨by decide,
   ((absent_to_is_clamped_from 3 [0, 0, 0] 1 7 (by decide)).2 (by decide)).symm.trans
     (by decide)⟩

/-- C17, counterexample: on a column of height 3, `{from: -2, gid: 7}` sets
row 0 while `{from: -2, to: -2, gid: 7}` sets no row. -/
theorem absent_to_counterexample :
    applyRow 3 [0, 0, 0] (rowRange (-2) none 7) = .ok [7, 0, 0] ∧
    applyRow 3 [0, 0, 0] (rowRange (-2) (some (-2)) 7) = .ok [0, 0, 0] := by
  decide

/-- C18. Two Tiled documents that have the same first layer and agree on every
member other than `layers` give the same outcome of `loadTiledJson`, the same
level or the same failure. -/
theorem only_first_layer_consulted (am1 am2 : AssetManager) (path1 path2 : String)
    (world stage : Int) (doc1 doc2 layer : Json) (rest1 rest2 : List Json)
    (hread1 : readAsset am1 path1 = .ok doc1) (hread2 : readAsset am2 path2 = .ok doc2)
    (hl1 : doc1.find "layers" = some (.arr (layer :: rest1)))
    (hl2 : doc2.find "layers" = some (.arr (layer :: rest2)))
    (hsame : ∀ key, key ≠ "layers" → doc1.find key = doc2.find key) :
    loadTiledJson am1 world stage path1 = loadTiledJson am2 world stage path2 := by
  rw [loadTiledJson_of_read am1 world stage path1 doc1 hread1,
    loadTiledJson_of_read am2 world stage path2 doc2 hread2]
  exact decodeTiled_first_layer world stage doc1 doc2 layer rest1 rest2 hl1 hl2 hsame

/-- C18, witness: a second layer that is not CSV-encoded and a third that is
no object at all change nothing. -/
theorem only_first_layer_consulted_witness :
    loadTiledJson (singleAsset (layeredDoc
        [.obj [("encoding", .str "csv"), ("data", .str "5,6")]])) 1 1 "a.json" =
      loadTiledJson (singleAsset (layeredDoc
        [.obj [("encoding", .str "csv"), ("data", .str "5,6")],
         .obj [("encoding", .str "base64")], .null])) 1 1 "a.json" ∧
    (loadTiledJson (singleAsset (layeredDoc
        [.obj [("encoding", .str "csv"), ("data", .str "5,6")],
         .obj [("encoding", .str "base64")], .null])) 1 1 "a.json").map
      (fun level => level.tiles) = .ok [5, 6] :=
  ⟨only_first_layer_consulted
      (singleAsset (layeredDoc [.obj [("encoding", .str "csv"), ("data", .str "5,6")]]))
      (singleAsset (layeredDoc [.obj [("encoding", .str "csv"), ("data", .str "5,6")],
        .obj [("encoding", .str "base64")], .null]))
      "a.json" "a.json" 1 1 _ _ (.obj [("encoding", .str "csv"), ("data", .str "5,6")])
      [] [.obj [("encoding", .str "base64")], .null] rfl rfl rfl rfl
      (by
        intro key hkey
        have hne : (key == "layers") = false := by simpa using hkey
        simp [layeredDoc, Json.find, List.lookup, hne]),
   by decide⟩

/-- C19. No write to the column template is out of bounds, whatever the
height, the metatile and the rows: building a template never raises the
index error; the rows visited for a range with any `from` and `to` lie in
`[0, H)` and the metatile entries copied lie inside both the metatile and the
template. For a height `H >= 0` and a well-typed column the template is built
and has `H` entries. -/
theorem column_writes_in_bounds (height : Int) (column : Json) :
    columnTemplate height column ≠ .error .indexOutOfRange ∧
    (∀ rawFrom rawTo y : Int,
      y ∈ rowLoopIndices (max 0 rawFrom) (min (height - 1) rawTo) height →
      0 ≤ y ∧ y < height) ∧
    (∀ (arr : List Json) (i : Nat), i < (min (wrapInt arr.length) height).toNat →
      i < arr.length ∧ (i : Int) < height) ∧
    (0 ≤ height → columnTyped column = true →
      ∃ template, columnTemplate height column = .ok template ∧
        template.length = height.toNat) := by
  refine ⟨?_, ?_, ?_, ?_⟩
  · intro h
    rcases (columnTemplate_total height column).1 with ⟨t, ht⟩ | ht | ht
    · rw [ht] at h; cases h
    · rw [ht] at h; cases h
    · rw [ht] at h; cases h
  · intro rawFrom rawTo y hy
    rw [mem_rowLoopIndices] at hy
    omega
  · intro arr i hi
    obtain ⟨h1, h2⟩ := copyMetatile_limit arr height
    omega
  · intro h0 htyped
    simp only [columnTyped, Bool.and_eq_true] at htyped
    obtain ⟨t, ht⟩ := (columnTemplate_total height column).2 h0 htyped.1.2 htyped.2
    exact ⟨t, ht, (columnTemplate_length height column t ht).2⟩

/-- C19, witness: a column of height 3 whose ranges start below 0, end beyond
the column and run backwards. -/
theorem column_writes_in_bounds_witness :
    columnTemplate 3 (.obj [("metatile", .arr [.int 1, .int 2, .int 3, .int 4]),
      ("rows", .arr [rowRange (-5) (some 0) 7, rowRange 2 (some 900) 8,
        rowRange 2 (some 1) 9])]) ≠ .error .indexOutOfRange ∧
    ∃ template, columnTemplate 3 (.obj [("metatile", .arr [.int 1, .int 2, .int 3, .int 4]),
      ("rows", .arr [rowRange (-5) (some 0) 7, rowRange 2 (some 900) 8,
        rowRange 2 (some 1) 9])]) = .ok template ∧ template.length = (3 : Int).toNat :=
  ⟨(column_writes_in_bounds 3 _).1,
   (column_writes_in_bounds 3 _).2.2.2 (by decide) (by decide)⟩

/-- C20. For an area document with at least one column whose sum of repeats
fits an `int`, `loadAreaJson` never fails with the dimension-mismatch error,
whatever width the document declares, and every level it returns has exactly
`width * height` tiles. -/
theorem area_dimension_check_unreachable (am : AssetManager) (path : String)
    (world stage : Int) (doc : Json) (columns : List Json)
    (hread : readAsset am path = .ok doc)
    (hcols : doc.find "columns" = some (.arr columns))
    (hne : columns ≠ [])
    (hsum : (columns.map repeatCount).sum ≤ INT_MAX) :
    loadAreaJson am world stage path ≠ .error .areaDimensionMismatch ∧
    ∀ level, loadAreaJson am world stage path = .ok level →
      (level.tiles.length : Int) = level.width * level.height := by
  rw [loadAreaJson_of_read am world stage path doc hread]
  have hpos : 0 < columns.length := List.length_pos.mpr hne
  have hlow := repeatSum_ge_length columns
  constructor
  · intro h
    obtain ⟨columns2, state, declared, height, hcols2, hfold, hdim⟩ :=
      decodeArea_mismatch world stage doc h
    have hc : columns2 = columns := by
      rw [hcols] at hcols2
      cases hcols2
      rfl
    subst hc
    obtain ⟨_, _, _, _, hlen, hheight, _, _⟩ := area_fold_facts height columns2 state hfold
    have hcw := area_computed_width height columns2 state hfold hsum
    have h0 := hheight hne
    apply hdim
    rw [resolveWidth_of_ne_zero declared state.1 (by omega), hlen, hcw,
      Int.toNat_of_nonneg h0]
  · intro level hload
    obtain ⟨columns2, state, declared, solid, hcols2, _, hfold, htiles, _, hwidth, _⟩ :=
      decodeArea_ok world stage doc level hload
    have hc : columns2 = columns := by
      rw [hcols] at hcols2
      cases hcols2
      rfl
    subst hc
    obtain ⟨_, _, _, _, hlen, hheight, _, _⟩ :=
      area_fold_facts level.height columns2 state hfold
    have hcw := area_computed_width level.height columns2 state hfold hsum
    have h0 := hheight hne
    rw [htiles, hwidth, resolveWidth_of_ne_zero declared state.1 (by omega), hlen, hcw,
      Int.toNat_of_nonneg h0]

/-- C20, witness: the document that declares width 7 and expands to 3 columns
of height 2 does not fail the dimension check and loads with 3 * 2 tiles. -/
theorem area_dimension_check_unreachable_witness :
    loadAreaJson (singleAsset declaredWidthDoc) 1 1 "levels/world1_stage1.area.json" ≠
      .error .areaDimensionMismatch ∧
    ∃ level, loadAreaJson (singleAsset declaredWidthDoc) 1 1
        "levels/world1_stage1.area.json" = .ok level ∧
      level.width = 3 ∧ level.height = 2 ∧
      (level.tiles.length : Int) = level.width * level.height := by
  have h := area_dimension_check_unreachable (singleAsset declaredWidthDoc)
    "levels/world1_stage1.area.json" 1 1 declaredWidthDoc [repeatColumn] rfl rfl
    (List.cons_ne_nil _ _) (by decide)
  have hload : loadAreaJson (singleAsset declaredWidthDoc) 1 1
      "levels/world1_stage1.area.json" =
      .ok { world := 1, stage := 1, width := 3, height := 2, tileWidth := 16,
            tileHeight := 16, tilesetPath := "", tiles := [1, 2, 1, 2, 1, 2],
            collisionFlags := [0, 0, 0], entities := [] } := by decide
  exact ⟨h.1, _, hload, rfl, rfl, h.2 _ hload⟩

/-- C21. For every level returned by `loadTiledJson` or `loadAreaJson`, the
collision mask is not empty, each of its entries is 0 or 1, and every
non-negative tile id of the level is below the length of the mask, so the mask
has an entry at the index of every such tile. -/
theorem collision_mask_covers_tiles (am : AssetManager) (path : String) (world stage : Int)
    (level : LevelDefinition)
    (h : loadTiledJson am world stage path = .ok level ∨
      loadAreaJson am world stage path = .ok level) :
    level.collisionFlags ≠ [] ∧
    (∀ x ∈ level.collisionFlags, x = 0 ∨ x = 1) ∧
    (∀ t ∈ level.tiles, 0 ≤ t → t < (level.collisionFlags.length : Int)) ∧
    (∀ t ∈ level.tiles, 0 ≤ t → ∃ flag, level.collisionFlags[t.toNat]? = some flag) := by
  have hmask : (∀ t ∈ level.tiles, InIntRange t) ∧
      ∃ solid, (∀ s ∈ solid, InIntRange s) ∧
        buildCollisionFlags level.tiles solid = .ok level.collisionFlags := by
    rcases h with h | h
    · obtain ⟨doc, _, hdec⟩ := loadTiledJson_ok am world stage path level h
      exact decodeTiled_mask world stage doc level hdec
    · obtain ⟨doc, _, hdec⟩ := loadAreaJson_ok am world stage path level h
      exact decodeArea_mask world stage doc level hdec
  obtain ⟨htiles, solid, hsolid, hflags⟩ := hmask
  obtain ⟨hne, hbits, hlt⟩ :=
    buildCollisionFlags_ok level.tiles solid level.collisionFlags htiles hsolid hflags
  refine ⟨hne, hbits, fun t ht _ => hlt t ht, ?_⟩
  intro t ht h0
  have hidx : t.toNat < level.collisionFlags.length := by
    have := hlt t ht
    omega
  exact ⟨level.collisionFlags[t.toNat], List.getElem?_eq_getElem hidx⟩

/-- C21, witness: a Tiled level with the tiles 1..4 and the mask
`[0, 0, 1, 0, 0]`, and the area level with the tiles `[9, 2, 9, 2, 9, 2]` and
a mask of ten zeros. -/
theorem collision_mask_covers_tiles_witness :
    (∃ level, loadTiledJson (singleAsset solidDoc) 1 1 "levels/world1_stage1.json" =
        .ok level ∧ level.collisionFlags = [0, 0, 1, 0, 0] ∧
      (∀ t ∈ level.tiles, 0 ≤ t → t < (level.collisionFlags.length : Int))) ∧
    (∃ level, loadAreaJson (singleAsset (areaDoc [overrideColumn])) 1 1
        "levels/world1_stage1.area.json" = .ok level ∧
      level.collisionFlags ≠ [] ∧ (∀ x ∈ level.collisionFlags, x = 0 ∨ x = 1) ∧
      (∀ t ∈ level.tiles, 0 ≤ t → t < (level.collisionFlags.length : Int))) := by
  have h1 : loadTiledJson (singleAsset solidDoc) 1 1 "levels/world1_stage1.json" =
      .ok { world := 1, stage := 1, width := 2, height := 2, tileWidth := 16,
            tileHeight := 16, tilesetPath := "", tiles := [1, 2, 3, 4],
            collisionFlags := [0, 0, 1, 0, 0], entities := [] } := by decide
  have h2 : loadAreaJson (singleAsset (areaDoc [overrideColumn])) 1 1
      "levels/world1_stage1.area.json" =
      .ok { world := 1, stage := 1, width := 3, height := 2, tileWidth := 16,
            tileHeight := 16, tilesetPath := "", tiles := [9, 2, 9, 2, 9, 2],
            collisionFlags := [0, 0, 0, 0, 0, 0, 0, 0, 0, 0], entities := [] } := by decide
  have r1 := collision_mask_covers_tiles _ _ 1 1 _ (Or.inl h1)
  have r2 := collision_mask_covers_tiles _ _ 1 1 _ (Or.inr h2)
  exact ⟨⟨_, h1, rfl, r1.2.2.1⟩, ⟨_, h2, r2.1, r2.2.1, r2.2.2.1⟩⟩

end Crobot
